import Mathlib

/-!
# ManagedArgoCDProject controller: a shallow embedding

The development follows `api/v1alpha1/managedargoCDproject_controller.go`
and `api/v1alpha1/managedargocdproject_types.go`.

* Go `string` values are Lean `String`s (sequences of code points).  The
  template literals are ASCII and every string that reaches the controller
  through the API server is valid UTF-8, so matching the ASCII placeholder
  code point by code point agrees with Go's byte-wise matching.
* A Go `interface{}` value is a `Value`, tagged with its dynamic type, so that
  the type assertions of `renderArgoCDProject` can fail as they do in Go.
* A Go `map[string]T` literal is an association list in source order; `m[k]`
  is `GoMap.index`, the comma-ok form is `GoMap.lookup`, `m[k] = v` is
  `GoMap.set`.
* A run-time panic is the `Run.panic` outcome.
-/

namespace Controller

/-! ## The `strings` functions used by the controller -/

namespace strings

/-- Go `strings.Index(s, substr)`: the position of the first instance of
`substr` in `s`; `none` stands for Go's `-1`. -/
def Index : List Char → List Char → Option Nat
  | [], substr => if substr = [] then some 0 else none
  | c :: s, substr =>
    if substr.isPrefixOf (c :: s) then some 0
    else match Index s substr with
      | some i => some (i + 1)
      | none => none

/-- The `for` loop of Go `strings.Count` for a non-empty `substr`: each round
finds the next instance and continues behind it.  The first argument bounds
the number of rounds. -/
def countLoop (substr : List Char) : Nat → List Char → Nat → Nat
  | 0, _, n => n
  | fuel + 1, s, n =>
    match Index s substr with
    | none => n
    | some i => countLoop substr fuel (s.drop (i + substr.length)) (n + 1)

/-- Go `strings.Count(s, substr)`: the number of non-overlapping instances of
`substr` in `s`; for an empty `substr` it is the number of code points plus
one.  (Go's single-byte fast path computes the same number as the loop.)  The
loop is run with `s.length + 1` rounds, one more than it can use, because
every round consumes at least one character. -/
def Count (s substr : List Char) : Nat :=
  if substr = [] then s.length + 1
  else countLoop substr (s.length + 1) s 0

/-- The replacement loop of Go `strings.Replace`: `k` rounds remain,
`first` says whether this is round `i = 0`, `rest` is `s[start:]` and `b` is the
content of the builder.  `none` is the slice-bounds panic Go raises when
`Index` returns `-1`. -/
def replaceLoop (old new : List Char) : Nat → Bool → List Char → List Char → Option (List Char)
  | 0, _, rest, b => some (b ++ rest)
  | k + 1, first, rest, b =>
    if old = [] then
      let wid := if first then 0 else min 1 rest.length
      replaceLoop old new k false (rest.drop wid) (b ++ rest.take wid ++ new)
    else
      match Index rest old with
      | none => none
      | some j =>
        replaceLoop old new k false (rest.drop (j + old.length)) (b ++ rest.take j ++ new)

/-- Go `strings.Replace(s, old, new, n)` on code-point lists. -/
def Replace (s old new : List Char) (n : Int) : Option (List Char) :=
  if old = new ∨ n = 0 then some s
  else
    let m := Count s old
    if m = 0 then some s
    else
      let n := if n < 0 ∨ (m : Int) < n then m else n.toNat
      replaceLoop old new n true s []

/-- Go `strings.ReplaceAll(s, old, new)`, which is `Replace(s, old, new, -1)`. -/
def ReplaceAll (s old new : String) : Option String :=
  (Replace s.data old.data new.data (-1)).map String.mk

end strings

/-! ## Dynamically typed values -/

/-- A Go `interface{}` value together with its dynamic type, for the types that
occur in templates and in the derived document. -/
inductive Value where
  /-- The nil interface value. -/
  | null
  /-- A Go `string`. -/
  | str (s : String)
  /-- A Go `bool`. -/
  | bool (b : Bool)
  /-- A Go `[]string`. -/
  | strings (xs : List String)
  /-- A Go `[]map[string]string`. -/
  | stringMaps (xs : List (List (String × String)))
  /-- A Go `[]map[string]interface{}`. -/
  | maps (xs : List (List (String × Value)))
  /-- A Go `[]interface{}`. -/
  | slice (xs : List Value)
  /-- A Go `map[string]interface{}`. -/
  | map (m : List (String × Value))

/-- A Go `map[string]interface{}`. -/
abbrev GoMap := List (String × Value)

namespace GoMap

/-- The comma-ok lookup `v, ok := m[k]`. -/
def lookup (m : GoMap) (k : String) : Option Value :=
  match m with
  | [] => none
  | (k', v) :: rest => if k' = k then some v else lookup rest k

/-- The plain index expression `m[k]`: the nil interface when `k` is absent. -/
def index (m : GoMap) (k : String) : Value :=
  match lookup m k with
  | some v => v
  | none => Value.null

/-- The assignment `m[k] = v`. -/
def set (m : GoMap) (k : String) (v : Value) : GoMap :=
  match m with
  | [] => [(k, v)]
  | (k', v') :: rest => if k' = k then (k, v) :: rest else (k', v') :: set rest k v

/-- The statement `delete(m, k)`. -/
def erase (m : GoMap) (k : String) : GoMap :=
  match m with
  | [] => []
  | (k', v') :: rest => if k' = k then erase rest k else (k', v') :: erase rest k

end GoMap

/-- The outcome of running Go code that may panic. -/
inductive Run (α : Type) where
  /-- Normal return. -/
  | done (a : α)
  /-- A run-time panic, with what raised it. -/
  | panic (what : String)

/-- A Go `error` value: built by `fmt.Errorf`, or an API status error carrying
its reason (`NotFound`, `Conflict`, ...). -/
inductive GoError where
  | errorf (msg : String)
  | status (reason : String) (msg : String)
deriving DecidableEq, Repr

namespace GoError

/-- The method `err.Error()`. -/
def Error : GoError → String
  | errorf msg => msg
  | status _ msg => msg

end GoError

/-! ## The API types (`managedargocdproject_types.go`) -/

/-- A `metav1.Time`; `ticks = 0` is Go's zero time. -/
structure Time where
  ticks : Nat
deriving DecidableEq, Repr

/-- The type `ApplicationDestination`. -/
structure ApplicationDestination where
  Server : String
  Namespace : String
  Name : String
deriving DecidableEq, Repr

/-- The type `ManagedArgoCDProjectSpec`. -/
structure ManagedArgoCDProjectSpec where
  ProjectName : String
  Repositories : List String
  Destinations : List ApplicationDestination
  Template : String
  Description : String
deriving DecidableEq, Repr

/-- A `metav1.Condition`; the field `Type_` is Go's `Type`. -/
structure Condition where
  Type_ : String
  Status : String
  ObservedGeneration : Int
  LastTransitionTime : Time
  Reason : String
  Message : String
deriving DecidableEq, Repr

/-- The type `ManagedArgoCDProjectStatus`. -/
structure ManagedArgoCDProjectStatus where
  Conditions : List Condition
  ProjectName : String
  Phase : String
  ObservedGeneration : Int
  LastSyncTime : Option Time
  RenderedYAML : String
deriving DecidableEq, Repr

/-- The type `ManagedArgoCDProject`, with the `ObjectMeta` fields the
controller reads or writes. -/
structure ManagedArgoCDProject where
  Name : String
  Namespace : String
  UID : String
  ResourceVersion : String
  Generation : Int
  DeletionTimestamp : Option Time
  Finalizers : List String
  Spec : ManagedArgoCDProjectSpec
  Status : ManagedArgoCDProjectStatus
deriving DecidableEq, Repr

/-- An `unstructured.Unstructured`: the `Object` map. -/
structure Unstructured where
  Object : GoMap

/-! ## Constants -/

def finalizerName : String := "argocd.platform.io/finalizer"
def conditionTypeReady : String := "Ready"
def phasePending : String := "Pending"
def phaseReady : String := "Ready"
def phaseFailed : String := "Failed"

/-! ## The template catalog -/

/-- The map literal `templates` of `loadTemplate`. -/
def templates : List (String × GoMap) :=
  [ ("standard",
      [ ("clusterResourceWhitelist", Value.stringMaps
          [ [("group", "*"), ("kind", "Namespace")] ]),
        ("namespaceResourceWhitelist", Value.stringMaps
          [ [("group", "apps"), ("kind", "*")],
            [("group", ""), ("kind", "*")],
            [("group", "batch"), ("kind", "*")],
            [("group", "networking.k8s.io"), ("kind", "*")],
            [("group", "autoscaling"), ("kind", "*")] ]),
        ("sourceNamespaces", Value.strings []),
        ("roles", Value.maps
          [ [ ("name", Value.str "read-only"),
              ("description", Value.str "Read-only access to applications"),
              ("policies", Value.strings
                [ "p, proj:{{PROJECT}}:read-only, applications, get, {{PROJECT}}/*, allow" ]) ],
            [ ("name", Value.str "developer"),
              ("description", Value.str "Developer access with sync capabilities"),
              ("policies", Value.strings
                [ "p, proj:{{PROJECT}}:developer, applications, get, {{PROJECT}}/*, allow",
                  "p, proj:{{PROJECT}}:developer, applications, sync, {{PROJECT}}/*, allow" ]) ],
            [ ("name", Value.str "admin"),
              ("description", Value.str "Full administrative access"),
              ("policies", Value.strings
                [ "p, proj:{{PROJECT}}:admin, applications, *, {{PROJECT}}/*, allow" ]) ] ]),
        ("orphanedResources", Value.map [ ("warn", Value.bool true) ]) ]),
    ("privileged",
      [ ("clusterResourceWhitelist", Value.stringMaps
          [ [("group", "*"), ("kind", "*")] ]),
        ("namespaceResourceWhitelist", Value.stringMaps
          [ [("group", "*"), ("kind", "*")] ]),
        ("sourceNamespaces", Value.strings []),
        ("roles", Value.maps
          [ [ ("name", Value.str "platform-admin"),
              ("description", Value.str "Platform team full access"),
              ("policies", Value.strings
                [ "p, proj:{{PROJECT}}:platform-admin, applications, *, {{PROJECT}}/*, allow",
                  "p, proj:{{PROJECT}}:platform-admin, clusters, *, *, allow",
                  "p, proj:{{PROJECT}}:platform-admin, repositories, *, *, allow" ]) ] ]),
        ("orphanedResources", Value.map [ ("warn", Value.bool false) ]) ]),
    ("restricted",
      [ ("clusterResourceWhitelist", Value.stringMaps []),
        ("namespaceResourceWhitelist", Value.stringMaps
          [ [("group", "apps"), ("kind", "Deployment")],
            [("group", "apps"), ("kind", "StatefulSet")],
            [("group", "apps"), ("kind", "DaemonSet")],
            [("group", ""), ("kind", "Service")],
            [("group", ""), ("kind", "ConfigMap")],
            [("group", ""), ("kind", "Secret")],
            [("group", "networking.k8s.io"), ("kind", "Ingress")],
            [("group", "networking.k8s.io"), ("kind", "NetworkPolicy")] ]),
        ("sourceNamespaces", Value.strings []),
        ("roles", Value.maps
          [ [ ("name", Value.str "read-only"),
              ("description", Value.str "Read-only access only"),
              ("policies", Value.strings
                [ "p, proj:{{PROJECT}}:read-only, applications, get, {{PROJECT}}/*, allow" ]) ] ]),
        ("orphanedResources", Value.map [ ("warn", Value.bool true) ]) ]) ]

/-- The lookup `templates[templateName]` in its comma-ok form. -/
def templatesLookup (ts : List (String × GoMap)) (name : String) : Option GoMap :=
  match ts with
  | [] => none
  | (k, t) :: rest => if k = name then some t else templatesLookup rest name

/-- The function `loadTemplate`: the template named `templateName`, where the
empty name stands for `standard`, or the error `template <name> not found`. -/
def loadTemplate (templateName : String) : Except GoError GoMap :=
  let templateName := if templateName = "" then "standard" else templateName
  match templatesLookup templates templateName with
  | none => Except.error (GoError.errorf ("template " ++ templateName ++ " not found"))
  | some template => Except.ok template

/-! ## Rendering -/

/-- The first loop of `renderArgoCDProject`: one `map[string]string` per
destination, with the key `name` only for a non-empty name. -/
def renderDestinations : List ApplicationDestination → List (List (String × String))
  | [] => []
  | dest :: rest =>
    let destMap := [("server", dest.Server), ("namespace", dest.Namespace)]
    let destMap := if dest.Name ≠ "" then destMap ++ [("name", dest.Name)] else destMap
    destMap :: renderDestinations rest

/-- The inner loop of `renderArgoCDProject` over the policies of one role. -/
def processPolicies (projectName : String) : List String → Run (List String)
  | [] => Run.done []
  | policy :: rest =>
    match strings.ReplaceAll policy "{{PROJECT}}" projectName with
    | none => Run.panic "slice bounds out of range"
    | some processed =>
      match processPolicies projectName rest with
      | Run.done ps => Run.done (processed :: ps)
      | Run.panic what => Run.panic what

/-- The body of the loop over roles in `renderArgoCDProject`. -/
def processRole (projectName : String) (role : GoMap) : Run GoMap :=
  let processedRole : GoMap := [("name", role.index "name")]
  let processedRole :=
    match role.lookup "description" with
    | some desc => processedRole.set "description" desc
    | none => processedRole
  match role.index "policies" with
  | Value.strings policies =>
    match processPolicies projectName policies with
    | Run.done processedPolicies =>
      Run.done (processedRole.set "policies" (Value.strings processedPolicies))
    | Run.panic what => Run.panic what
  | _ => Run.panic "interface conversion: interface {} is not []string"

/-- The loop over roles in `renderArgoCDProject`. -/
def processRoles (projectName : String) : List GoMap → Run (List GoMap)
  | [] => Run.done []
  | role :: rest =>
    match processRole projectName role with
    | Run.panic what => Run.panic what
    | Run.done processedRole =>
      match processRoles projectName rest with
      | Run.done rs => Run.done (processedRole :: rs)
      | Run.panic what => Run.panic what

/-- The function `renderArgoCDProject`: the derived document and the returned
`error` (always nil), or a panic of one of the two type assertions. -/
def renderArgoCDProject (managedProject : ManagedArgoCDProject) (template : GoMap) :
    Run (Unstructured × Option GoError) :=
  let destinations := renderDestinations managedProject.Spec.Destinations
  match template.index "roles" with
  | Value.maps roles =>
    match processRoles managedProject.Spec.ProjectName roles with
    | Run.panic what => Run.panic what
    | Run.done processedRoles =>
      let spec : GoMap :=
        [ ("sourceRepos", Value.strings managedProject.Spec.Repositories),
          ("destinations", Value.stringMaps destinations),
          ("clusterResourceWhitelist", template.index "clusterResourceWhitelist"),
          ("namespaceResourceWhitelist", template.index "namespaceResourceWhitelist"),
          ("sourceNamespaces", template.index "sourceNamespaces"),
          ("roles", Value.maps processedRoles),
          ("orphanedResources", template.index "orphanedResources") ]
      let spec :=
        if managedProject.Spec.Description ≠ "" then
          spec.set "description" (Value.str managedProject.Spec.Description)
        else spec
      let appProject : Unstructured :=
        { Object :=
            [ ("apiVersion", Value.str "argoproj.io/v1alpha1"),
              ("kind", Value.str "AppProject"),
              ("metadata", Value.map
                [ ("name", Value.str managedProject.Spec.ProjectName),
                  ("namespace", Value.str managedProject.Namespace),
                  ("labels", Value.map
                    [ ("managed-by", Value.str "argocd-project-operator"),
                      ("argocd.platform.io/template", Value.str managedProject.Spec.Template) ]) ]),
              ("spec", Value.map spec) ] }
      Run.done (appProject, none)
  | _ => Run.panic "interface conversion: interface {} is not []map[string]interface {}"

/-! ## Library helpers on objects -/

/-- A `types.NamespacedName`. -/
structure NamespacedName where
  Namespace : String
  Name : String
deriving DecidableEq, Repr

/-- A `ctrl.Request`. -/
structure Request where
  NamespacedName : NamespacedName
deriving DecidableEq, Repr

/-- A `ctrl.Result`. -/
structure Result where
  Requeue : Bool := false
  RequeueAfter : Nat := 0
deriving DecidableEq, Repr

/-- A `schema.GroupVersionKind`. -/
structure GroupVersionKind where
  Group : String
  Version : String
  Kind : String
deriving DecidableEq, Repr

/-- A `metav1.OwnerReference`. -/
structure OwnerReference where
  APIVersion : String
  Kind : String
  Name : String
  UID : String
  Controller : Option Bool
  BlockOwnerDeletion : Option Bool
deriving DecidableEq, Repr

/-- The reason string of a NotFound status error. -/
def StatusReasonNotFound : String := "NotFound"

/-- The reason string of a Conflict status error. -/
def StatusReasonConflict : String := "Conflict"

/-- The reason string of an AlreadyExists status error. -/
def StatusReasonAlreadyExists : String := "AlreadyExists"

/-- The function `errors.IsNotFound`. -/
def IsNotFound : GoError → Bool
  | GoError.status reason _ => reason = StatusReasonNotFound
  | GoError.errorf _ => false

/-- The function `errors.IsConflict`. -/
def IsConflict : GoError → Bool
  | GoError.status reason _ => reason = StatusReasonConflict
  | GoError.errorf _ => false

/-- The method `IsZero` of `*metav1.Time`: nil or the zero time. -/
def IsZero : Option Time → Bool
  | none => true
  | some t => t.ticks = 0

/-- The function `controllerutil.ContainsFinalizer`. -/
def ContainsFinalizer (o : ManagedArgoCDProject) (finalizer : String) : Bool :=
  o.Finalizers.contains finalizer

/-- The function `controllerutil.AddFinalizer`. -/
def AddFinalizer (o : ManagedArgoCDProject) (finalizer : String) : ManagedArgoCDProject :=
  if o.Finalizers.contains finalizer then o
  else { o with Finalizers := o.Finalizers ++ [finalizer] }

/-- The function `controllerutil.RemoveFinalizer`. -/
def RemoveFinalizer (o : ManagedArgoCDProject) (finalizer : String) : ManagedArgoCDProject :=
  { o with Finalizers := o.Finalizers.filter (fun f => f ≠ finalizer) }

/-- The function `schema.ParseGroupVersion`; `none` is its error. -/
def ParseGroupVersion (gv : String) : Option (String × String) :=
  if gv.data = [] ∨ gv = "/" then some ("", "")
  else
    match strings.Count gv.data ['/'] with
    | 0 => some ("", gv)
    | 1 =>
      match strings.Index gv.data ['/'] with
      | some i => some (String.mk (gv.data.take i), String.mk (gv.data.drop (i + 1)))
      | none => none
    | _ => none

/-- The method `GroupVersion.String`. -/
def GroupVersionString (group version : String) : String :=
  if group.data ≠ [] then group ++ "/" ++ version else version

namespace Unstructured

/-- The string at `metadata.<field>`, or `""` (the helper `getNestedString`). -/
def getMetadataString (u : Unstructured) (field : String) : String :=
  match u.Object.lookup "metadata" with
  | some (Value.map md) =>
    match GoMap.lookup md field with
    | some (Value.str s) => s
    | _ => ""
  | _ => ""

/-- The helper `setNestedField(value, "metadata", field)`: the metadata map is
created when absent, and nothing is written when `metadata` is not a map. -/
def setMetadataField (u : Unstructured) (field : String) (value : Value) : Unstructured :=
  match u.Object.lookup "metadata" with
  | some (Value.map md) => { Object := u.Object.set "metadata" (Value.map (GoMap.set md field value)) }
  | some _ => u
  | none => { Object := u.Object.set "metadata" (Value.map [(field, value)]) }

/-- The method `GetName`. -/
def GetName (u : Unstructured) : String := u.getMetadataString "name"

/-- The method `GetNamespace`. -/
def GetNamespace (u : Unstructured) : String := u.getMetadataString "namespace"

/-- The method `GetResourceVersion`. -/
def GetResourceVersion (u : Unstructured) : String := u.getMetadataString "resourceVersion"

/-- The helper `RemoveNestedField(u.Object, "metadata", field)`: nothing
happens when `metadata` is not a map. -/
def removeMetadataField (u : Unstructured) (field : String) : Unstructured :=
  match u.Object.lookup "metadata" with
  | some (Value.map md) => { Object := u.Object.set "metadata" (Value.map (GoMap.erase md field)) }
  | _ => u

/-- The method `SetResourceVersion`: the empty version removes the field. -/
def SetResourceVersion (u : Unstructured) (resourceVersion : String) : Unstructured :=
  if resourceVersion.data = [] then u.removeMetadataField "resourceVersion"
  else u.setMetadataField "resourceVersion" (Value.str resourceVersion)

/-- The method `GetAPIVersion`. -/
def GetAPIVersion (u : Unstructured) : String :=
  match u.Object.lookup "apiVersion" with
  | some (Value.str s) => s
  | _ => ""

/-- The method `GetKind`. -/
def GetKind (u : Unstructured) : String :=
  match u.Object.lookup "kind" with
  | some (Value.str s) => s
  | _ => ""

/-- The method `GroupVersionKind`: the parsed `apiVersion` with the `kind`, or
the empty value when `apiVersion` does not parse. -/
def GroupVersionKind (u : Unstructured) : GroupVersionKind :=
  match ParseGroupVersion u.GetAPIVersion with
  | some (group, version) => { Group := group, Version := version, Kind := u.GetKind }
  | none => { Group := "", Version := "", Kind := "" }

/-- The method `SetGroupVersionKind`. -/
def SetGroupVersionKind (u : Unstructured) (gvk : Controller.GroupVersionKind) : Unstructured :=
  { Object := (u.Object.set "apiVersion"
      (Value.str (GroupVersionString gvk.Group gvk.Version))).set "kind" (Value.str gvk.Kind) }

/-- The helper `extractOwnerReference`. -/
def extractOwnerReference (v : GoMap) : OwnerReference :=
  let str := fun (k : String) => match GoMap.lookup v k with
    | some (Value.str s) => s
    | _ => ""
  let flag := fun (k : String) => match GoMap.lookup v k with
    | some (Value.bool b) => some b
    | _ => none
  { APIVersion := str "apiVersion", Kind := str "kind", Name := str "name", UID := str "uid",
    Controller := flag "controller", BlockOwnerDeletion := flag "blockOwnerDeletion" }

/-- The loop of `GetOwnerReferences`: `none` when an element is not a map. -/
def extractOwnerReferences : List Value → Option (List OwnerReference)
  | [] => some []
  | Value.map o :: rest =>
    match extractOwnerReferences rest with
    | some refs => some (extractOwnerReference o :: refs)
    | none => none
  | _ :: _ => none

/-- The method `GetOwnerReferences`. -/
def GetOwnerReferences (u : Unstructured) : List OwnerReference :=
  match u.Object.lookup "metadata" with
  | some (Value.map md) =>
    match GoMap.lookup md "ownerReferences" with
    | some (Value.slice original) =>
      match extractOwnerReferences original with
      | some refs => refs
      | none => []
    | _ => []
  | _ => []

/-- The unstructured form of one owner reference (`ToUnstructured`): the two
pointer fields are omitted when nil. -/
def ownerReferenceToValue (ref : OwnerReference) : Value :=
  let m : GoMap :=
    [ ("apiVersion", Value.str ref.APIVersion), ("kind", Value.str ref.Kind),
      ("name", Value.str ref.Name), ("uid", Value.str ref.UID) ]
  let m := match ref.Controller with
    | some b => m ++ [("controller", Value.bool b)]
    | none => m
  let m := match ref.BlockOwnerDeletion with
    | some b => m ++ [("blockOwnerDeletion", Value.bool b)]
    | none => m
  Value.map m

/-- The method `SetOwnerReferences` for a non-nil slice. -/
def SetOwnerReferences (u : Unstructured) (references : List OwnerReference) : Unstructured :=
  u.setMetadataField "ownerReferences" (Value.slice (references.map ownerReferenceToValue))

end Unstructured

/-- The `*runtime.Scheme` of the reconciler, as far as the controller uses it:
the answer of `apiutil.GVKForObject` for a `ManagedArgoCDProject`. -/
structure Scheme where
  GVKForObject : Except GoError GroupVersionKind

/-- The helper `referSameObject` of controllerutil: same group, kind and name. -/
def referSameObject (a b : OwnerReference) : Bool :=
  match ParseGroupVersion a.APIVersion, ParseGroupVersion b.APIVersion with
  | some (aGroup, _), some (bGroup, _) => aGroup = bGroup ∧ a.Kind = b.Kind ∧ a.Name = b.Name
  | _, _ => false

/-- The helper `upsertOwnerRef` of controllerutil: replace the reference to the
same object, or append. -/
def upsertOwnerRef (ref : OwnerReference) : List OwnerReference → List OwnerReference
  | [] => [ref]
  | r :: rest => if referSameObject r ref then ref :: rest else r :: upsertOwnerRef ref rest

/-- The function `controllerutil.SetControllerReference(owner, controlled, scheme)`
for a `ManagedArgoCDProject` owner and an unstructured controlled object. -/
def SetControllerReference (owner : ManagedArgoCDProject) (controlled : Unstructured)
    (scheme : Scheme) : Except GoError Unstructured :=
  if owner.Namespace ≠ "" ∧ controlled.GetNamespace = "" then
    Except.error (GoError.errorf
      ("cluster-scoped resource must not have a namespace-scoped owner, owner's namespace "
        ++ owner.Namespace))
  else if owner.Namespace ≠ "" ∧ owner.Namespace ≠ controlled.GetNamespace then
    Except.error (GoError.errorf
      ("cross-namespace owner references are disallowed, owner's namespace "
        ++ owner.Namespace ++ ", obj's namespace " ++ controlled.GetNamespace))
  else
    match scheme.GVKForObject with
    | Except.error err => Except.error err
    | Except.ok gvk =>
      let ref : OwnerReference :=
        { APIVersion := GroupVersionString gvk.Group gvk.Version, Kind := gvk.Kind,
          Name := owner.Name, UID := owner.UID,
          Controller := some true, BlockOwnerDeletion := some true }
      let existing := controlled.GetOwnerReferences
      match existing.find? (fun o => o.Controller = some true) with
      | some other =>
        if referSameObject other ref then
          Except.ok (controlled.SetOwnerReferences (upsertOwnerRef ref existing))
        else Except.error (GoError.errorf "Object is already owned by another controller")
      | none => Except.ok (controlled.SetOwnerReferences (upsertOwnerRef ref existing))

/-! ## The reconciler and its store client -/

/-- One call of the reconciler to the resource store, with the error it
returned (`none` for nil).  The list of calls of an invocation is a ghost
trace: the code does not read it. -/
inductive Call where
  /-- The call `r.Get` for the managed record. -/
  | get (key : NamespacedName) (err : Option GoError)
  /-- The call `r.Update` for the managed record. -/
  | update (obj : ManagedArgoCDProject) (err : Option GoError)
  /-- The call `r.Status().Update` for the managed record. -/
  | statusUpdate (obj : ManagedArgoCDProject) (err : Option GoError)
  /-- The call `r.Get` for the derived document. -/
  | getProject (gvk : GroupVersionKind) (key : NamespacedName) (err : Option GoError)
  /-- The call `r.Create` for the derived document. -/
  | createProject (obj : Unstructured) (err : Option GoError)
  /-- The call `r.Update` for the derived document. -/
  | updateProject (obj : Unstructured) (err : Option GoError)
  /-- The call `r.Delete` for the derived document. -/
  | deleteProject (obj : Unstructured) (err : Option GoError)

namespace Call

/-- Whether the call is a lookup of the derived document. -/
def isProjectLookup : Call → Bool
  | getProject _ _ _ => true
  | _ => false

/-- Whether the call is a create or an update of the derived document. -/
def isProjectWrite : Call → Bool
  | createProject _ _ => true
  | updateProject _ _ => true
  | _ => false

/-- Whether the call is an update (other than of the status) of the managed
record. -/
def isManagedUpdate : Call → Bool
  | update _ _ => true
  | _ => false

/-- Whether the call is a status update of the managed record. -/
def isStatusUpdate : Call → Bool
  | statusUpdate _ _ => true
  | _ => false

end Call

/-- The type `ManagedArgoCDProjectReconciler`: the embedded `client.Client`
over a store state `σ`, the `Scheme`, and the two library functions whose
results the controller does not control (`yaml.Marshal` and `metav1.Now`).
A write that succeeds answers with the new resource version of the object;
the object in memory is otherwise what was sent. -/
structure ManagedArgoCDProjectReconciler (σ : Type) where
  Get : NamespacedName → σ → Except GoError ManagedArgoCDProject × σ
  Update : ManagedArgoCDProject → σ → Except GoError String × σ
  StatusUpdate : ManagedArgoCDProject → σ → Except GoError String × σ
  GetProject : GroupVersionKind → NamespacedName → σ → Except GoError Unstructured × σ
  CreateProject : Unstructured → σ → Option GoError × σ
  UpdateProject : Unstructured → σ → Option GoError × σ
  DeleteProject : Unstructured → σ → Option GoError × σ
  Scheme : Scheme
  Marshal : GoMap → Except GoError String
  Now : σ → Time × σ

/-- What one invocation of `Reconcile` leaves behind: the returned pair, the
managed record in memory, the store state, the calls made, and the document
the invocation rendered, if it reached `renderArgoCDProject` (the last two are
ghost fields: the code does not read them). -/
structure Outcome (σ : Type) where
  result : Result
  err : Option GoError
  managedProject : ManagedArgoCDProject
  state : σ
  calls : List Call
  rendered : Option Unstructured

/-- The zero value `&ManagedArgoCDProject{}`. -/
def ManagedArgoCDProject.zero : ManagedArgoCDProject :=
  { Name := "", Namespace := "", UID := "", ResourceVersion := "", Generation := 0,
    DeletionTimestamp := none, Finalizers := [],
    Spec := { ProjectName := "", Repositories := [], Destinations := [],
              Template := "", Description := "" },
    Status := { Conditions := [], ProjectName := "", Phase := "", ObservedGeneration := 0,
                LastSyncTime := none, RenderedYAML := "" } }

/-- The constant `metav1.ConditionTrue`. -/
def ConditionTrue : String := "True"

/-- The constant `metav1.ConditionFalse`. -/
def ConditionFalse : String := "False"

/-- The loop of `updateStatus` over the conditions: the first entry of type
`Ready` is overwritten; `none` when the loop ends with `found` still false. -/
def replaceReady (condition : Condition) : List Condition → Option (List Condition)
  | [] => none
  | c :: rest =>
    if c.Type_ = conditionTypeReady then some (condition :: rest)
    else match replaceReady condition rest with
      | some rest' => some (c :: rest')
      | none => none

/-- The part of `updateStatus` that needs no store call: the status fields and
the Ready condition, given the two clock readings. -/
def setStatus (managedProject : ManagedArgoCDProject) (phase message renderedYAML : String)
    (syncTime transitionTime : Time) : ManagedArgoCDProject :=
  let status := managedProject.Status
  let status := { status with Phase := phase }
  let status := { status with ProjectName := managedProject.Spec.ProjectName }
  let status := { status with ObservedGeneration := managedProject.Generation }
  let status := { status with RenderedYAML := renderedYAML }
  let status :=
    if phase = phaseReady then { status with LastSyncTime := some syncTime } else status
  let condition : Condition :=
    { Type_ := conditionTypeReady, Status := ConditionTrue,
      ObservedGeneration := managedProject.Generation,
      LastTransitionTime := transitionTime, Reason := phase, Message := message }
  let condition :=
    if phase = phaseFailed then { condition with Status := ConditionFalse } else condition
  let status :=
    match replaceReady condition status.Conditions with
    | some conditions => { status with Conditions := conditions }
    | none => { status with Conditions := status.Conditions ++ [condition] }
  { managedProject with Status := status }

/-- The function `updateStatus`: it returns nothing; the result here is the
managed record in memory, the store state and the calls made. -/
def updateStatus {σ : Type} (r : ManagedArgoCDProjectReconciler σ)
    (managedProject : ManagedArgoCDProject) (phase message renderedYAML : String) (w : σ) :
    ManagedArgoCDProject × σ × List Call :=
  let sync := if phase = phaseReady then r.Now w else (Time.mk 0, w)
  let transition := r.Now sync.2
  let managedProject :=
    setStatus managedProject phase message renderedYAML sync.1 transition.1
  match r.StatusUpdate managedProject transition.2 with
  | (Except.error err, w) => (managedProject, w, [Call.statusUpdate managedProject (some err)])
  | (Except.ok rv, w) =>
    ({ managedProject with ResourceVersion := rv }, w, [Call.statusUpdate managedProject none])

/-- The GroupVersionKind literal of `deleteArgoCDProject`. -/
def appProjectGVK : GroupVersionKind :=
  { Group := "argoproj.io", Version := "v1alpha1", Kind := "AppProject" }

/-- The function `deleteArgoCDProject`: the returned error, the store state and
the calls made. -/
def deleteArgoCDProject {σ : Type} (r : ManagedArgoCDProjectReconciler σ)
    (managedProject : ManagedArgoCDProject) (w : σ) : Option GoError × σ × List Call :=
  let appProject : Unstructured := { Object := [] }
  let appProject := appProject.SetGroupVersionKind appProjectGVK
  let gvk := appProject.GroupVersionKind
  let key : NamespacedName :=
    { Name := managedProject.Spec.ProjectName, Namespace := managedProject.Namespace }
  match r.GetProject gvk key w with
  | (Except.error err, w) =>
    if IsNotFound err then (none, w, [Call.getProject gvk key (some err)])
    else (some err, w, [Call.getProject gvk key (some err)])
  | (Except.ok appProject, w) =>
    let deleted := r.DeleteProject appProject w
    (deleted.1, deleted.2,
      [Call.getProject gvk key none, Call.deleteProject appProject deleted.1])

/-- Lines 137 to 173 of `Reconcile`: create or update the derived document
and report the outcome. -/
def syncArgoCDProject {σ : Type} (r : ManagedArgoCDProjectReconciler σ)
    (managedProject : ManagedArgoCDProject) (appProject : Unstructured) (renderedYAML : String)
    (w : σ) (calls : List Call) : Outcome σ :=
  let rendered := appProject
  let foundProject : Unstructured := { Object := [] }
  let foundProject := foundProject.SetGroupVersionKind appProject.GroupVersionKind
  let gvk := foundProject.GroupVersionKind
  let key : NamespacedName :=
    { Name := managedProject.Spec.ProjectName, Namespace := managedProject.Namespace }
  match r.GetProject gvk key w with
  | (Except.error err, w) =>
    let calls := calls ++ [Call.getProject gvk key (some err)]
    if IsNotFound err then
      match r.CreateProject appProject w with
      | (some err, w) =>
        let calls := calls ++ [Call.createProject appProject (some err)]
        let reported := updateStatus r managedProject phaseFailed
            ("Failed to create project: " ++ err.Error) "" w
        { result := {}, err := some err, managedProject := reported.1, state := reported.2.1,
          calls := calls ++ reported.2.2, rendered := some rendered }
      | (none, w) =>
        let calls := calls ++ [Call.createProject appProject none]
        let reported := updateStatus r managedProject phaseReady
            "ArgoCD AppProject created successfully" renderedYAML w
        { result := {}, err := none, managedProject := reported.1, state := reported.2.1,
          calls := calls ++ reported.2.2, rendered := some rendered }
    else
      { result := {}, err := some err, managedProject := managedProject, state := w,
        calls := calls, rendered := some rendered }
  | (Except.ok foundProject, w) =>
    let calls := calls ++ [Call.getProject gvk key none]
    let appProject := appProject.SetResourceVersion foundProject.GetResourceVersion
    match r.UpdateProject appProject w with
    | (some err, w) =>
      let calls := calls ++ [Call.updateProject appProject (some err)]
      let reported := updateStatus r managedProject phaseFailed
          ("Failed to update project: " ++ err.Error) "" w
      { result := {}, err := some err, managedProject := reported.1, state := reported.2.1,
        calls := calls ++ reported.2.2, rendered := some rendered }
    | (none, w) =>
      let calls := calls ++ [Call.updateProject appProject none]
      let reported := updateStatus r managedProject phaseReady
          "ArgoCD AppProject updated successfully" renderedYAML w
      { result := {}, err := none, managedProject := reported.1, state := reported.2.1,
        calls := calls ++ reported.2.2, rendered := some rendered }

/-- Lines 108 to 173 of `Reconcile`: what follows the finalizer handling for a
record that is not being deleted. -/
def renderAndSync {σ : Type} (r : ManagedArgoCDProjectReconciler σ)
    (managedProject : ManagedArgoCDProject) (w : σ) (calls : List Call) : Run (Outcome σ) :=
  match loadTemplate managedProject.Spec.Template with
  | Except.error err =>
    let reported := updateStatus r managedProject phaseFailed
        ("Failed to load template: " ++ err.Error) "" w
    Run.done
      { result := {}, err := some err, managedProject := reported.1,
        state := reported.2.1, calls := calls ++ reported.2.2, rendered := none }
  | Except.ok template =>
    match renderArgoCDProject managedProject template with
    | Run.panic what => Run.panic what
    | Run.done (appProject, some err) =>
      let reported := updateStatus r managedProject phaseFailed
          ("Failed to render project: " ++ err.Error) "" w
      Run.done
        { result := {}, err := some err, managedProject := reported.1,
          state := reported.2.1, calls := calls ++ reported.2.2,
          rendered := some appProject }
    | Run.done (appProject, none) =>
      let renderedYAML :=
        match r.Marshal appProject.Object with
        | Except.ok bytes => bytes
        | Except.error _ => "# Error marshaling YAML"
      match SetControllerReference managedProject appProject r.Scheme with
      | Except.error err =>
        Run.done { result := {}, err := some err, managedProject := managedProject, state := w,
                   calls := calls, rendered := some appProject }
      | Except.ok appProject =>
        Run.done (syncArgoCDProject r managedProject appProject renderedYAML w calls)

/-- The function `Reconcile`. -/
def Reconcile {σ : Type} (r : ManagedArgoCDProjectReconciler σ) (req : Request) (w : σ) :
    Run (Outcome σ) :=
  match r.Get req.NamespacedName w with
  | (Except.error err, w) =>
    let calls := [Call.get req.NamespacedName (some err)]
    if IsNotFound err then
      Run.done { result := {}, err := none, managedProject := ManagedArgoCDProject.zero,
                 state := w, calls := calls, rendered := none }
    else
      Run.done { result := {}, err := some err, managedProject := ManagedArgoCDProject.zero,
                 state := w, calls := calls, rendered := none }
  | (Except.ok managedProject, w) =>
    let calls := [Call.get req.NamespacedName none]
    if IsZero managedProject.DeletionTimestamp then
      if !ContainsFinalizer managedProject finalizerName then
        let managedProject := AddFinalizer managedProject finalizerName
        match r.Update managedProject w with
        | (Except.error err, w) =>
          Run.done { result := {}, err := some err, managedProject := managedProject, state := w,
                     calls := calls ++ [Call.update managedProject (some err)],
                     rendered := none }
        | (Except.ok rv, w) =>
          renderAndSync r { managedProject with ResourceVersion := rv } w
            (calls ++ [Call.update managedProject none])
      else renderAndSync r managedProject w calls
    else
      if ContainsFinalizer managedProject finalizerName then
        match deleteArgoCDProject r managedProject w with
        | (some err, w, cs) =>
          Run.done { result := {}, err := some err, managedProject := managedProject, state := w,
                     calls := calls ++ cs, rendered := none }
        | (none, w, cs) =>
          let managedProject := RemoveFinalizer managedProject finalizerName
          match r.Update managedProject w with
          | (Except.error err, w) =>
            Run.done { result := {}, err := some err, managedProject := managedProject,
                       state := w,
                       calls := calls ++ cs ++ [Call.update managedProject (some err)],
                       rendered := none }
          | (Except.ok rv, w) =>
            Run.done { result := {}, err := none,
                       managedProject := { managedProject with ResourceVersion := rv },
                       state := w,
                       calls := calls ++ cs ++ [Call.update managedProject none],
                       rendered := none }
      else
        Run.done { result := {}, err := none, managedProject := managedProject, state := w,
                   calls := calls, rendered := none }

/-! ## Specification vocabulary for the renderer -/

namespace strings

/-- The list `p₁ ++ sep ++ p₂ ++ sep ++ … ++ pₙ ++ sep ++ tail`. -/
def assemble (sep : List Char) : List (List Char) → List Char → List Char
  | [], tail => tail
  | p :: ps, tail => p ++ sep ++ assemble sep ps tail

/-- The words "every non-overlapping occurrence of `old` in `s`, taken from left
to right, is replaced by `new`, and every other character is unchanged": `s`
is cut as `p₁ old p₂ old … pₙ old tail`, where each displayed `old` is the
first occurrence behind the previous one (no occurrence starts inside
`pᵢ`, that is `old` is not a segment of `pᵢ ++ old.dropLast`), `tail` holds no
occurrence, and `out` is `p₁ new p₂ new … pₙ new tail`. -/
def ReplacesEvery (old new s out : List Char) : Prop :=
  ∃ (ps : List (List Char)) (tail : List Char),
    s = assemble old ps tail ∧ out = assemble new ps tail ∧
    (∀ p ∈ ps, ¬ old <:+: p ++ old.dropLast) ∧ ¬ old <:+: tail

end strings

/-- The rendered policy string `processed` is the template policy string
`policy` with every occurrence of the placeholder replaced by `projectName`. -/
def PolicyRendered (projectName policy processed : String) : Prop :=
  strings.ReplacesEvery "{{PROJECT}}".data projectName.data policy.data processed.data

/-- The rendered role `processed` has the name and the description of the
template role `role`, and its policies are those of `role`, one for one and in
order, each with the placeholder replaced. -/
def RoleRendered (projectName : String) (role processed : GoMap) : Prop :=
  GoMap.index processed "name" = GoMap.index role "name" ∧
  GoMap.lookup processed "description" = GoMap.lookup role "description" ∧
  ∃ policies processedPolicies,
    GoMap.index role "policies" = Value.strings policies ∧
    GoMap.index processed "policies" = Value.strings processedPolicies ∧
    List.Forall₂ (PolicyRendered projectName) policies processedPolicies

/-! ## Example data -/

/-- The managed record of the worked example: project `team-a` in namespace
`argocd`, with the empty template name. -/
def exampleProject : ManagedArgoCDProject :=
  { Name := "team-a-project", Namespace := "argocd", UID := "uid-1", ResourceVersion := "1",
    Generation := 1, DeletionTimestamp := none, Finalizers := [],
    Spec := { ProjectName := "team-a", Repositories := ["https://git/x"],
              Destinations := [{ Server := "https://cluster1", Namespace := "ns1", Name := "" }],
              Template := "", Description := "" },
    Status := { Conditions := [], ProjectName := "", Phase := "", ObservedGeneration := 0,
                LastSyncTime := none, RenderedYAML := "" } }

/-- The template `standard` of the catalog. -/
def standardTemplate : GoMap :=
  match templatesLookup templates "standard" with
  | some t => t
  | none => []

/-- The roles of the template `standard`. -/
def standardRoles : List GoMap :=
  match standardTemplate.index "roles" with
  | Value.maps roles => roles
  | _ => []


/-! ## A resource store

The store behind the client is not part of the controller.  `Cluster` is a
model of what the API server does with the calls the controller makes, for one
managed record and the derived documents: reads are consistent, a write bumps
the resource version, an update of the managed record leaves its status alone
and a status update leaves everything else alone, and a managed record that
is marked for deletion disappears when its last finalizer is removed.  Each
call first takes the next entry of `faults`; an entry `some err` makes the call
fail with `err` and leaves the store as it was. -/

/-- The store state. -/
structure Cluster where
  managed : Option ManagedArgoCDProject
  projects : List Unstructured
  version : Nat
  clock : Nat
  faults : List (Option GoError)

namespace Cluster

/-- The status error of reason NotFound. -/
def notFound : GoError := GoError.status StatusReasonNotFound "not found"

/-- The status error of reason Conflict. -/
def conflict : GoError :=
  GoError.status StatusReasonConflict "the object has been modified"

/-- The status error of reason AlreadyExists. -/
def alreadyExists : GoError := GoError.status StatusReasonAlreadyExists "already exists"

/-- Take the fault entry of the next call. -/
def popFault (c : Cluster) : Option GoError × Cluster :=
  match c.faults with
  | [] => (none, c)
  | f :: rest => (f, { c with faults := rest })

/-- The resource version handed out by the next write. -/
def nextVersion (c : Cluster) : String := toString (c.version + 1)

/-- Whether the document `u` is the one of kind `gvk` stored under `key`. -/
def isAt (gvk : GroupVersionKind) (key : NamespacedName) (u : Unstructured) : Bool :=
  u.GroupVersionKind = gvk ∧ u.GetNamespace = key.Namespace ∧ u.GetName = key.Name

/-- The key under which the document `u` is stored. -/
def keyOf (u : Unstructured) : NamespacedName :=
  { Namespace := u.GetNamespace, Name := u.GetName }

/-- Read the managed record. -/
def Get (key : NamespacedName) (c : Cluster) : Except GoError ManagedArgoCDProject × Cluster :=
  match c.popFault with
  | (some err, c) => (Except.error err, c)
  | (none, c) =>
    match c.managed with
    | some m =>
      if m.Namespace = key.Namespace ∧ m.Name = key.Name then (Except.ok m, c)
      else (Except.error notFound, c)
    | none => (Except.error notFound, c)

/-- Update the managed record: finalizers and spec are taken from `obj`, the
status is kept; the record is removed when it is marked for deletion and no
finalizer is left. -/
def Update (obj : ManagedArgoCDProject) (c : Cluster) : Except GoError String × Cluster :=
  match c.popFault with
  | (some err, c) => (Except.error err, c)
  | (none, c) =>
    match c.managed with
    | some m =>
      if m.Namespace = obj.Namespace ∧ m.Name = obj.Name then
        if obj.ResourceVersion ≠ "" ∧ obj.ResourceVersion ≠ m.ResourceVersion then
          (Except.error conflict, c)
        else
          let stored : ManagedArgoCDProject :=
            { m with Finalizers := obj.Finalizers, Spec := obj.Spec,
                     ResourceVersion := c.nextVersion,
                     Generation := if obj.Spec = m.Spec then m.Generation else m.Generation + 1 }
          if IsZero stored.DeletionTimestamp = false ∧ stored.Finalizers = [] then
            (Except.ok c.nextVersion, { c with managed := none, version := c.version + 1 })
          else
            (Except.ok c.nextVersion, { c with managed := some stored, version := c.version + 1 })
      else (Except.error notFound, c)
    | none => (Except.error notFound, c)

/-- Update the status of the managed record. -/
def StatusUpdate (obj : ManagedArgoCDProject) (c : Cluster) : Except GoError String × Cluster :=
  match c.popFault with
  | (some err, c) => (Except.error err, c)
  | (none, c) =>
    match c.managed with
    | some m =>
      if m.Namespace = obj.Namespace ∧ m.Name = obj.Name then
        if obj.ResourceVersion ≠ "" ∧ obj.ResourceVersion ≠ m.ResourceVersion then
          (Except.error conflict, c)
        else
          (Except.ok c.nextVersion,
            { c with managed := some { m with Status := obj.Status,
                                              ResourceVersion := c.nextVersion },
                     version := c.version + 1 })
      else (Except.error notFound, c)
    | none => (Except.error notFound, c)

/-- Read a derived document. -/
def GetProject (gvk : GroupVersionKind) (key : NamespacedName) (c : Cluster) :
    Except GoError Unstructured × Cluster :=
  match c.popFault with
  | (some err, c) => (Except.error err, c)
  | (none, c) =>
    match c.projects.find? (isAt gvk key) with
    | some u => (Except.ok u, c)
    | none => (Except.error notFound, c)

/-- Create a derived document. -/
def CreateProject (obj : Unstructured) (c : Cluster) : Option GoError × Cluster :=
  match c.popFault with
  | (some err, c) => (some err, c)
  | (none, c) =>
    match c.projects.find? (isAt obj.GroupVersionKind (keyOf obj)) with
    | some _ => (some alreadyExists, c)
    | none =>
      (none, { c with projects := c.projects ++ [obj.SetResourceVersion c.nextVersion],
                      version := c.version + 1 })

/-- Replace the first stored document that `p` selects by `u`. -/
def replaceFirst (p : Unstructured → Bool) (u : Unstructured) :
    List Unstructured → List Unstructured
  | [] => []
  | x :: rest => if p x then u :: rest else x :: replaceFirst p u rest

/-- Remove the first stored document that `p` selects. -/
def removeFirst (p : Unstructured → Bool) : List Unstructured → List Unstructured
  | [] => []
  | x :: rest => if p x then rest else x :: removeFirst p rest

/-- Update a derived document: the stored document is replaced by `obj`, under
optimistic concurrency on the resource version. -/
def UpdateProject (obj : Unstructured) (c : Cluster) : Option GoError × Cluster :=
  match c.popFault with
  | (some err, c) => (some err, c)
  | (none, c) =>
    match c.projects.find? (isAt obj.GroupVersionKind (keyOf obj)) with
    | none => (some notFound, c)
    | some existing =>
      if obj.GetResourceVersion ≠ "" ∧ obj.GetResourceVersion ≠ existing.GetResourceVersion then
        (some conflict, c)
      else
        (none, { c with projects := replaceFirst (isAt obj.GroupVersionKind (keyOf obj))
                                      (obj.SetResourceVersion c.nextVersion) c.projects,
                        version := c.version + 1 })

/-- Delete a derived document. -/
def DeleteProject (obj : Unstructured) (c : Cluster) : Option GoError × Cluster :=
  match c.popFault with
  | (some err, c) => (some err, c)
  | (none, c) =>
    match c.projects.find? (isAt obj.GroupVersionKind (keyOf obj)) with
    | none => (some notFound, c)
    | some _ =>
      (none, { c with projects := removeFirst (isAt obj.GroupVersionKind (keyOf obj)) c.projects })

/-- Read the clock, which advances with every reading. -/
def Now (c : Cluster) : Time × Cluster :=
  (Time.mk (c.clock + 1), { c with clock := c.clock + 1 })

/-- The GroupVersionKind under which the scheme registers the managed
record. -/
def managedGVK : GroupVersionKind :=
  { Group := "argocd.platform.io", Version := "v1alpha1", Kind := "ManagedArgoCDProject" }

/-- The reconciler that talks to the store `Cluster`; `marshal` stands for
`yaml.Marshal`. -/
def reconciler (marshal : GoMap → Except GoError String) :
    ManagedArgoCDProjectReconciler Cluster :=
  { Get := Get, Update := Update, StatusUpdate := StatusUpdate, GetProject := GetProject,
    CreateProject := CreateProject, UpdateProject := UpdateProject,
    DeleteProject := DeleteProject,
    Scheme := { GVKForObject := Except.ok managedGVK },
    Marshal := marshal, Now := Now }

end Cluster

/-- A stand-in for `yaml.Marshal` in the examples. -/
def exampleMarshal : GoMap → Except GoError String := fun _ => Except.ok "rendered"

/-- The request for the example record. -/
def exampleRequest : Request :=
  { NamespacedName := { Namespace := "argocd", Name := "team-a-project" } }

/-- A store that holds the example record and nothing else. -/
def exampleCluster : Cluster :=
  { managed := some exampleProject, projects := [], version := 1, clock := 0, faults := [] }


/-- The example record as it would be in the namespace `team-b`. -/
def exampleProjectElsewhere : ManagedArgoCDProject :=
  { exampleProject with Namespace := "team-b" }

/-- The example record with the same spec and namespace under another name,
uid, generation and status. -/
def exampleProjectRenamed : ManagedArgoCDProject :=
  { exampleProject with
    Name := "other", UID := "uid-2", Generation := 7, Finalizers := [finalizerName],
    Status := { exampleProject.Status with Phase := phaseFailed } }

/-- The namespace written in the metadata of a rendered document. -/
def renderedNamespace : Run (Unstructured × Option GoError) → String
  | Run.done (appProject, _) => appProject.GetNamespace
  | Run.panic _ => ""


/-! ## Specification vocabulary for the deletion path -/

/-- The key under which the derived document of a managed record is stored. -/
def projectKey (managedProject : ManagedArgoCDProject) : NamespacedName :=
  { Namespace := managedProject.Namespace, Name := managedProject.Spec.ProjectName }

/-- The cleanup of `deleteArgoCDProject` succeeds from the store state `w`: the
lookup of the derived document reports NotFound, or it finds the document and
the delete of that document returns nil. -/
def CleanupSucceeded {σ : Type} (r : ManagedArgoCDProjectReconciler σ)
    (managedProject : ManagedArgoCDProject) (w : σ) : Prop :=
  (∃ err, (r.GetProject appProjectGVK (projectKey managedProject) w).1 = Except.error err ∧
    IsNotFound err = true) ∨
  (∃ doc, (r.GetProject appProjectGVK (projectKey managedProject) w).1 = Except.ok doc ∧
    (r.DeleteProject doc (r.GetProject appProjectGVK (projectKey managedProject) w).2).1 = none)

/-- The cleanup of `deleteArgoCDProject` fails with `err` from the store state
`w`: the lookup fails with `err`, which is not NotFound, or it finds the
document and the delete of that document fails with `err`. -/
def CleanupFailed {σ : Type} (r : ManagedArgoCDProjectReconciler σ)
    (managedProject : ManagedArgoCDProject) (w : σ) (err : GoError) : Prop :=
  ((r.GetProject appProjectGVK (projectKey managedProject) w).1 = Except.error err ∧
    IsNotFound err = false) ∨
  (∃ doc, (r.GetProject appProjectGVK (projectKey managedProject) w).1 = Except.ok doc ∧
    (r.DeleteProject doc (r.GetProject appProjectGVK (projectKey managedProject) w).2).1
      = some err)

/-- The answer of the store to the update that removes the finalizer, issued
in the state the cleanup leaves behind. -/
def finalizerRemoval {σ : Type} (r : ManagedArgoCDProjectReconciler σ)
    (managedProject : ManagedArgoCDProject) (w : σ) : Except GoError String :=
  (r.Update (RemoveFinalizer managedProject finalizerName)
    (deleteArgoCDProject r managedProject w).2.1).1

/-- The example record, marked for deletion and holding the finalizer. -/
def deletingProject : ManagedArgoCDProject :=
  { exampleProject with DeletionTimestamp := some (Time.mk 5), Finalizers := [finalizerName] }

/-- A transient store error. -/
def unavailable : GoError := GoError.status "ServiceUnavailable" "the server is unavailable"

/-- A store that holds the record marked for deletion and no derived document;
the third call (the update that removes the finalizer) will fail. -/
def deletingCluster : Cluster :=
  { managed := some deletingProject, projects := [], version := 1, clock := 0,
    faults := [none, none, some unavailable] }

/-- A store that holds the record marked for deletion and no derived
document, where every call succeeds. -/
def deletingClusterHealthy : Cluster :=
  { managed := some deletingProject, projects := [], version := 1, clock := 0, faults := [] }


/-! ## Specification vocabulary for the status -/

/-- The Ready condition of a conditions list: its first entry of type
`Ready`. -/
def readyCondition (conditions : List Condition) : Option Condition :=
  conditions.find? (fun c => c.Type_ = conditionTypeReady)

/-- The managed record is marked Failed: phase `Failed` and a Ready condition
of status `False`. -/
def MarkedFailed (managedProject : ManagedArgoCDProject) : Prop :=
  managedProject.Status.Phase = phaseFailed ∧
  ∃ c, readyCondition managedProject.Status.Conditions = some c ∧ c.Status = ConditionFalse

/-- The rendered document with its `spec` map left open. -/
def documentWith (managedProject : ManagedArgoCDProject) (spec : GoMap) : Unstructured :=
  { Object :=
      [ ("apiVersion", Value.str "argoproj.io/v1alpha1"),
        ("kind", Value.str "AppProject"),
        ("metadata", Value.map
          [ ("name", Value.str managedProject.Spec.ProjectName),
            ("namespace", Value.str managedProject.Namespace),
            ("labels", Value.map
              [ ("managed-by", Value.str "argocd-project-operator"),
                ("argocd.platform.io/template", Value.str managedProject.Spec.Template) ]) ]),
        ("spec", Value.map spec) ] }


/-! ## Example stores for the synchronizer -/

/-- The store state an invocation leaves behind (the given one after a
panic). -/
def stateAfter (c : Cluster) : Run (Outcome Cluster) → Cluster
  | Run.done out => out.state
  | Run.panic _ => c

/-- The store after a first, successful `Reconcile` of the example record: the
record holds the finalizer and is Ready, and its derived document exists. -/
def syncedCluster : Cluster :=
  stateAfter exampleCluster
    (Reconcile (Cluster.reconciler exampleMarshal) exampleRequest exampleCluster)

/-- The synced store, where the third call (the update of the derived
document) will be rejected with a version conflict. -/
def conflictCluster : Cluster :=
  { syncedCluster with faults := [none, none, some Cluster.conflict] }

/-- The synced store, where the second call (the lookup of the derived
document) will fail with a transient error. -/
def lookupFailureCluster : Cluster :=
  { syncedCluster with faults := [none, some unavailable] }

/-- The example record with a template name outside the catalog. -/
def unknownTemplateProject : ManagedArgoCDProject :=
  { exampleProject with Spec := { exampleProject.Spec with Template := "custom" } }

/-- A store that holds the record with the unknown template, without
finalizer; the second call (the update that adds the finalizer) will fail. -/
def unknownTemplateCluster : Cluster :=
  { managed := some unknownTemplateProject, projects := [], version := 1, clock := 0,
    faults := [none, some unavailable] }

/-- A store that holds the record with the unknown template, where every call
succeeds. -/
def unknownTemplateClusterHealthy : Cluster :=
  { managed := some unknownTemplateProject, projects := [], version := 1, clock := 0,
    faults := [] }


/-! ## The store as a transition system -/

namespace Cluster

/-- A fault script is consistent when no injected failure claims NotFound: a
store with consistent reads reports NotFound only for an object it does not
hold, which is what the calls without injected failure do. -/
def FaultsConsistent (faults : List (Option GoError)) : Prop :=
  ∀ err, some err ∈ faults → IsNotFound err = false

/-- A user asks the store to delete the managed record: a record without
finalizers is removed at once, any other record gets the deletion marker. -/
def requestDeletion (t : Time) (c : Cluster) : Cluster :=
  match c.managed with
  | none => c
  | some m =>
    if m.Finalizers = [] then { c with managed := none }
    else if IsZero m.DeletionTimestamp then
      { c with managed := some { m with DeletionTimestamp := some t,
                                        ResourceVersion := c.nextVersion },
               version := c.version + 1 }
    else c

/-- One step of the system: an invocation of `Reconcile` for any request under
any consistent fault script, or a deletion request of the user. -/
inductive Step (marshal : GoMap → Except GoError String) : Cluster → Cluster → Prop where
  | reconcile (c : Cluster) (req : Request) (faults : List (Option GoError))
      (out : Outcome Cluster) (hfaults : FaultsConsistent faults)
      (hrun : Reconcile (reconciler marshal) req { c with faults := faults } = Run.done out) :
      Step marshal c out.state
  | requestDeletion (c : Cluster) (t : Time) : Step marshal c (requestDeletion t c)

/-- The store states reachable from a store without derived documents. -/
inductive Reachable (marshal : GoMap → Except GoError String) : Cluster → Prop where
  | init (c : Cluster) (hempty : c.projects = []) : Reachable marshal c
  | step (c c' : Cluster) (hc : Reachable marshal c) (hstep : Step marshal c c') :
      Reachable marshal c'

/-- What the finalizer invariant reads of the managed record: its finalizers
and the key of its derived document. -/
def coreOf (c : Cluster) : Option (List String × NamespacedName) :=
  c.managed.map (fun m => (m.Finalizers, projectKey m))

/-- The inductive form of the finalizer invariant: the store holds no derived
document, or it holds exactly one, stored under the key of the managed record,
and the managed record holds the finalizer. -/
def Inv (c : Cluster) : Prop :=
  c.projects = [] ∨
  ∃ finalizers key d, coreOf c = some (finalizers, key) ∧
    finalizers.contains finalizerName = true ∧ c.projects = [d] ∧
    isAt appProjectGVK key d = true

end Cluster


/-! ## Specification vocabulary for repeated reconciliation -/

namespace Unstructured

/-- The value at `metadata.<field>`, if any. -/
def metadataField (u : Unstructured) (field : String) : Option Value :=
  match u.Object.lookup "metadata" with
  | some (Value.map md) => GoMap.lookup md field
  | _ => none

/-- The object has a `metadata` map. -/
def HasMetadata (u : Unstructured) : Prop :=
  ∃ md, u.Object.lookup "metadata" = some (Value.map md)

end Unstructured

/-- The documents `a` and `b` differ at most in the version token: every
top-level entry other than `metadata` and every entry of `metadata` other than
`resourceVersion` is the same. -/
def SameContent (a b : Unstructured) : Prop :=
  (∀ k, k ≠ "metadata" → a.Object.lookup k = b.Object.lookup k) ∧
  (∀ field, field ≠ "resourceVersion" → a.metadataField field = b.metadataField field)

/-- The documents `a` and `b` agree in apiVersion, kind, name, namespace,
labels, owner references and spec. -/
def SameDocument (a b : Unstructured) : Prop :=
  a.GetAPIVersion = b.GetAPIVersion ∧ a.GetKind = b.GetKind ∧ a.GetName = b.GetName ∧
  a.GetNamespace = b.GetNamespace ∧ a.metadataField "labels" = b.metadataField "labels" ∧
  a.GetOwnerReferences = b.GetOwnerReferences ∧ a.Object.lookup "spec" = b.Object.lookup "spec"

namespace Cluster

/-- The controller reference to the managed record `m`. -/
def ownerReferenceOf (m : ManagedArgoCDProject) : OwnerReference :=
  { APIVersion := GroupVersionString managedGVK.Group managedGVK.Version,
    Kind := managedGVK.Kind, Name := m.Name, UID := m.UID,
    Controller := some true, BlockOwnerDeletion := some true }

/-- The rendered document with spec `spec`, owned by `m`. -/
def desired (m : ManagedArgoCDProject) (spec : GoMap) : Unstructured :=
  (documentWith m spec).SetOwnerReferences [ownerReferenceOf m]

/-- What the rendered and owned document reads of the stored managed record,
together with its deletion marker. -/
def identOf (c : Cluster) :
    Option (String × String × String × ManagedArgoCDProjectSpec × Option Time) :=
  c.managed.map (fun m => (m.Namespace, m.Name, m.UID, m.Spec, m.DeletionTimestamp))

/-- The derived documents of kind AppProject stored under `key`. -/
def documentsAt (key : NamespacedName) (c : Cluster) : List Unstructured :=
  c.projects.filter (isAt appProjectGVK key)

end Cluster

/-- A store that holds the example record, marked for deletion and holding the
finalizer, together with its derived document; every call succeeds. -/
def deletingSyncedCluster : Cluster :=
  Cluster.requestDeletion (Time.mk 5) syncedCluster


/-- The error a call returned (`none` for nil). -/
def Call.err : Call → Option GoError
  | Call.get _ e => e
  | Call.update _ e => e
  | Call.statusUpdate _ e => e
  | Call.getProject _ _ e => e
  | Call.createProject _ e => e
  | Call.updateProject _ e => e
  | Call.deleteProject _ e => e


/-! ## Specification vocabulary for the conditions -/

/-- Whether a condition has type `Ready`. -/
def isReadyCondition (c : Condition) : Bool := c.Type_ = conditionTypeReady

/-- The number of entries of type `Ready` in a conditions list. -/
def readyCount (conditions : List Condition) : Nat :=
  (conditions.filter isReadyCondition).length


/-! ## Specification vocabulary for the rendered fields -/

/-- What the destinations loop makes of one destination: a map with `server`
and `namespace` copied, with `name` present exactly for a non-empty name and
then equal to it, and with no other key. -/
def DestinationRendered (dest : ApplicationDestination) (destMap : List (String × String)) :
    Prop :=
  destMap.lookup "server" = some dest.Server ∧
  destMap.lookup "namespace" = some dest.Namespace ∧
  (destMap.lookup "name" ≠ none ↔ dest.Name ≠ "") ∧
  (dest.Name ≠ "" → destMap.lookup "name" = some dest.Name) ∧
  ∀ k, k ≠ "server" → k ≠ "namespace" → k ≠ "name" → destMap.lookup k = none


/-! ## The schema pattern of `spec.projectName` -/

/-- The character class `[a-z0-9]`. -/
def isLowerAlphanumeric (c : Char) : Bool :=
  (decide ('a' ≤ c) && decide (c ≤ 'z')) || (decide ('0' ≤ c) && decide (c ≤ '9'))

/-- The character class `[-a-z0-9]`. -/
def isNameChar (c : Char) : Bool := c = '-' || isLowerAlphanumeric c

/-- The validation marker `Pattern=^[a-z0-9]([-a-z0-9]*[a-z0-9])?$` on
`ProjectName`: the string is not empty, its first and its last character are
in `[a-z0-9]` and every character is in `[-a-z0-9]`. -/
def matchesProjectNamePattern (s : String) : Bool :=
  match s.data.head?, s.data.getLast? with
  | some first, some last =>
    isLowerAlphanumeric first && isLowerAlphanumeric last && s.data.all isNameChar
  | _, _ => false


/-! ## Specification vocabulary for the identity of the derived document -/

/-- A call that concerns a derived document concerns the one of kind `gvk`
stored under `key`: a lookup asks for that kind and key, and a create, an
update or a delete sends a document of that kind, namespace and name. -/
def Call.Concerns (gvk : GroupVersionKind) (key : NamespacedName) : Call → Prop
  | Call.getProject g k _ => g = gvk ∧ k = key
  | Call.createProject obj _ => Cluster.isAt gvk key obj = true
  | Call.updateProject obj _ => Cluster.isAt gvk key obj = true
  | Call.deleteProject obj _ => Cluster.isAt gvk key obj = true
  | _ => True

/-- The contract of `client.Get` that the deletion relies on: an object that a
lookup returns is of the kind, namespace and name that were asked for. -/
def ManagedArgoCDProjectReconciler.GetReturnsRequested {σ : Type}
    (r : ManagedArgoCDProjectReconciler σ) : Prop :=
  ∀ gvk key w obj w1, r.GetProject gvk key w = (Except.ok obj, w1) →
    Cluster.isAt gvk key obj = true


/-! ## Specification vocabulary for the source of a returned error -/

/-- A step other than the status write failed with the error `e`: the call is
not a status update and it returned `e`; a lookup of the derived document
that reports NotFound is not a failure. -/
def Call.FailedWith (e : GoError) (c : Call) : Prop :=
  c.isStatusUpdate = false ∧ c.err = some e ∧ (c.isProjectLookup = true → IsNotFound e = false)


/-- A status write that always fails with a transient error and leaves the
store as it was. -/
def failingStatusUpdate : ManagedArgoCDProject → Cluster → Except GoError String × Cluster :=
  fun _ c => (Except.error unavailable, c)


/-! ## Specification vocabulary for a run without failures -/

/-- The store call succeeded: it returned nil, or it is the lookup of the
derived document and it reported NotFound (the document does not exist yet,
which is how the lookup ends before a create). -/
def Call.Succeeded (c : Call) : Prop :=
  ∀ e, c.err = some e → c.isProjectLookup = true ∧ IsNotFound e = true


/-- The conditions hold at most one entry per type. -/
def AtMostOnePerType (conditions : List Condition) : Prop :=
  ∀ ty : String, (conditions.filter (fun c => c.Type_ = ty)).length ≤ 1

/-- The status of a record of generation `generation` after a successful
reconcile: the phase is `Ready`, exactly one condition has type `Ready`, that
condition has status `True`, and the observed generation is `generation`. -/
def ReadyStatus (status : ManagedArgoCDProjectStatus) (generation : Int) : Prop :=
  status.Phase = phaseReady ∧
  readyCount status.Conditions = 1 ∧
  (∀ c ∈ status.Conditions, c.Type_ = conditionTypeReady → c.Status = ConditionTrue) ∧
  status.ObservedGeneration = generation


/-! ## Specification vocabulary for the render-failure branch -/

/-- The prefix of the status message that only the render-failure branch of
`Reconcile` (lines 118 to 122) writes. -/
def renderFailurePrefix : String := "Failed to render project: "

/-- The call is the status write of the render-failure branch: a status update
whose Ready condition carries a message that starts with
`Failed to render project: `. -/
def Call.ReportsRenderFailure : Call → Prop
  | Call.statusUpdate sent _ =>
    ∃ condition, readyCondition sent.Status.Conditions = some condition ∧
      renderFailurePrefix.data <+: condition.Message.data
  | _ => False


/-! ## Specification vocabulary for the status writes of `Reconcile` -/

/-- A status update in the trace comes from a call of `updateStatus` with the
phase `Ready` or `Failed` (the only phases the call sites pass). -/
def Call.FromUpdateStatus {σ : Type} (r : ManagedArgoCDProjectReconciler σ) (c : Call) : Prop :=
  c.isStatusUpdate = true →
    ∃ managedProject phase message renderedYAML w,
      (phase = phaseReady ∨ phase = phaseFailed) ∧
      c ∈ (updateStatus r managedProject phase message renderedYAML w).2.2


/-! # Theorems -/

/-! ## `strings.Index` and `strings.Replace` -/

namespace strings

theorem Index_eq_none_of_not_infix (sub : List Char) :
    ∀ s : List Char, ¬ sub <:+: s → Index s sub = none
  | [], h => by
    have hne : sub ≠ [] := by
      rintro rfl
      exact h List.nil_infix
    simp [Index, hne]
  | c :: s, h => by
    rw [List.infix_cons_iff, not_or] at h
    have h1 : sub.isPrefixOf (c :: s) = false := by
      rw [Bool.eq_false_iff]
      intro hp
      exact h.1 (List.isPrefixOf_iff_prefix.mp hp)
    simp [Index, h1, Index_eq_none_of_not_infix sub s h.2]

theorem not_infix_of_Index_eq_none (sub : List Char) :
    ∀ s : List Char, Index s sub = none → ¬ sub <:+: s
  | [], h => by
    by_cases hs : sub = []
    · simp [Index, hs] at h
    · intro hi
      exact hs (List.eq_nil_of_infix_nil hi)
  | c :: s, h => by
    unfold Index at h
    split at h
    · simp at h
    · rename_i hp
      split at h
      · simp at h
      · rename_i hn
        rw [List.infix_cons_iff, not_or]
        refine ⟨fun hpre => hp (List.isPrefixOf_iff_prefix.mpr hpre), not_infix_of_Index_eq_none sub s hn⟩

theorem not_infix_dropLast (sub : List Char) (h : sub ≠ []) : ¬ sub <:+: sub.dropLast := by
  intro hi
  have h1 := hi.length_le
  have h2 : 0 < sub.length := List.length_pos.mpr h
  simp at h1
  omega

theorem Index_append (sub : List Char) (hsub : sub ≠ []) (rest : List Char) :
    ∀ p : List Char, ¬ sub <:+: p ++ sub.dropLast → Index (p ++ sub ++ rest) sub = some p.length
  | [], _ => by
    obtain ⟨c, t, rfl⟩ := List.exists_cons_of_ne_nil hsub
    have : (c :: t).isPrefixOf (c :: t ++ rest) = true :=
      List.isPrefixOf_iff_prefix.mpr (List.prefix_append _ _)
    simp only [List.nil_append, List.cons_append, List.length_nil] at this ⊢
    simp [Index, this]
  | c :: p, h => by
    rw [List.cons_append, List.infix_cons_iff, not_or] at h
    have h1 : sub.isPrefixOf (c :: p ++ sub ++ rest) = false := by
      rw [Bool.eq_false_iff]
      intro hp
      have hp := List.isPrefixOf_iff_prefix.mp hp
      apply h.1
      have h2 : (c :: (p ++ sub.dropLast)) <+: (c :: p ++ sub ++ rest) := by
        obtain ⟨l, hl⟩ := List.dropLast_prefix sub
        refine ⟨l ++ rest, ?_⟩
        simp only [List.cons_append, List.append_assoc]
        rw [← List.append_assoc sub.dropLast, hl]
      refine List.prefix_of_prefix_length_le hp h2 ?_
      simp
      omega
    have ih := Index_append sub hsub rest p h.2
    simp only [List.cons_append] at h1 ⊢
    simp only [List.append_assoc] at ih h1 ⊢
    simp [Index, h1, ih]


theorem Index_some_split (sub : List Char) (hsub : sub ≠ []) :
    ∀ (s : List Char) (i : Nat), Index s sub = some i →
      ∃ p rest, s = p ++ sub ++ rest ∧ ¬ sub <:+: p ++ sub.dropLast
  | [], i, h => by simp [Index, hsub] at h
  | c :: s, i, h => by
    unfold Index at h
    split at h
    · rename_i hp
      obtain ⟨t, ht⟩ := List.isPrefixOf_iff_prefix.mp hp
      exact ⟨[], t, by simpa using ht.symm, by simpa using not_infix_dropLast sub hsub⟩
    · rename_i hp
      split at h
      · rename_i j hj
        obtain ⟨p, rest, hs, hleft⟩ := Index_some_split sub hsub s j hj
        refine ⟨c :: p, rest, by simp [hs], ?_⟩
        rw [List.cons_append, List.infix_cons_iff, not_or]
        refine ⟨fun hpre => hp (List.isPrefixOf_iff_prefix.mpr ?_), hleft⟩
        refine hpre.trans ?_
        obtain ⟨l, hl⟩ := List.dropLast_prefix sub
        refine ⟨l ++ rest, ?_⟩
        rw [hs]
        simp only [List.cons_append, List.append_assoc]
        rw [← List.append_assoc sub.dropLast, hl]
      · simp at h

theorem exists_segmentation (old : List Char) (hold : old ≠ []) :
    ∀ (n : Nat) (s : List Char), s.length ≤ n →
      ∃ ps tail, s = assemble old ps tail ∧
        (∀ p ∈ ps, ¬ old <:+: p ++ old.dropLast) ∧ ¬ old <:+: tail := by
  intro n
  induction n with
  | zero =>
    intro s hs
    have : s = [] := List.length_eq_zero.mp (Nat.le_zero.mp hs)
    subst this
    refine ⟨[], [], rfl, by simp, ?_⟩
    intro hi
    exact hold (List.eq_nil_of_infix_nil hi)
  | succ n ih =>
    intro s hs
    cases hidx : Index s old with
    | none =>
      exact ⟨[], s, rfl, by simp, not_infix_of_Index_eq_none old s hidx⟩
    | some i =>
      obtain ⟨p, rest, hsplit, hleft⟩ := Index_some_split old hold s i hidx
      have hlen : rest.length ≤ n := by
        have h1 : 0 < old.length := List.length_pos.mpr hold
        have h2 : s.length = p.length + old.length + rest.length := by
          rw [hsplit]; simp [Nat.add_assoc]
        omega
      obtain ⟨ps, tail, hrest, hps, htail⟩ := ih rest hlen
      refine ⟨p :: ps, tail, ?_, ?_, htail⟩
      · rw [hsplit, hrest]; rfl
      · intro q hq
        rcases List.mem_cons.mp hq with rfl | hq
        · exact hleft
        · exact hps q hq

theorem countLoop_assemble (old : List Char) (hold : old ≠ []) (tail : List Char)
    (htail : ¬ old <:+: tail) :
    ∀ (ps : List (List Char)) (fuel n : Nat),
      (∀ p ∈ ps, ¬ old <:+: p ++ old.dropLast) →
      (assemble old ps tail).length < fuel →
      countLoop old fuel (assemble old ps tail) n = n + ps.length
  | [], fuel, n, _, hfuel => by
    obtain ⟨f, rfl⟩ : ∃ f, fuel = f + 1 := ⟨fuel - 1, by omega⟩
    simp [countLoop, assemble, Index_eq_none_of_not_infix old tail htail]
  | p :: ps, fuel, n, hps, hfuel => by
    obtain ⟨f, rfl⟩ : ∃ f, fuel = f + 1 := ⟨fuel - 1, by omega⟩
    have hidx := Index_append old hold (assemble old ps tail) p (hps p (List.mem_cons_self _ _))
    have hdrop : (p ++ old ++ assemble old ps tail).drop (p.length + old.length)
        = assemble old ps tail := by
      rw [← List.length_append]
      exact List.drop_left _ _
    have hlen : (assemble old ps tail).length < f := by
      have h1 : 0 < old.length := List.length_pos.mpr hold
      simp only [assemble, List.length_append] at hfuel
      omega
    have ih := countLoop_assemble old hold tail htail ps f (n + 1)
      (fun q hq => hps q (List.mem_cons_of_mem _ hq)) hlen
    simp only [assemble, countLoop, hidx, hdrop, ih, List.length_cons]
    omega

theorem replaceLoop_assemble (old new : List Char) (hold : old ≠ []) (tail : List Char) :
    ∀ (ps : List (List Char)) (first : Bool) (b : List Char),
      (∀ p ∈ ps, ¬ old <:+: p ++ old.dropLast) →
      replaceLoop old new ps.length first (assemble old ps tail) b
        = some (b ++ assemble new ps tail)
  | [], first, b, _ => by simp [replaceLoop, assemble]
  | p :: ps, first, b, hps => by
    have hidx := Index_append old hold (assemble old ps tail) p (hps p (List.mem_cons_self _ _))
    have hdrop : (p ++ old ++ assemble old ps tail).drop (p.length + old.length)
        = assemble old ps tail := by
      rw [← List.length_append]
      exact List.drop_left _ _
    have htake : (p ++ old ++ assemble old ps tail).take p.length = p := by
      rw [List.append_assoc]
      exact List.take_left _ _
    have ih := replaceLoop_assemble old new hold tail ps false (b ++ p ++ new)
      (fun q hq => hps q (List.mem_cons_of_mem _ hq))
    simp only [assemble, List.length_cons, replaceLoop, hold, if_false, hidx, hdrop, htake, ih]
    simp

theorem Replace_assemble (old new : List Char) (hold : old ≠ []) (ps : List (List Char))
    (tail : List Char) (hps : ∀ p ∈ ps, ¬ old <:+: p ++ old.dropLast)
    (htail : ¬ old <:+: tail) :
    Replace (assemble old ps tail) old new (-1) = some (assemble new ps tail) := by
  unfold Replace
  by_cases heq : old = new
  · subst heq
    simp
  · have hcount : Count (assemble old ps tail) old = ps.length := by
      unfold Count
      rw [if_neg hold, countLoop_assemble old hold tail htail ps _ 0 hps (Nat.lt_succ_self _)]
      simp
    simp only [heq, false_or, hcount]
    rw [if_neg (by decide)]
    cases ps with
    | nil => simp [assemble]
    | cons p ps =>
      have h := replaceLoop_assemble old new hold tail (p :: ps) true [] hps
      simpa using h

/-- For a non-empty pattern, `Replace` with `n = -1` does not panic and replaces
every occurrence. -/
theorem Replace_spec (s old new : List Char) (hold : old ≠ []) :
    ∃ out, Replace s old new (-1) = some out ∧ ReplacesEvery old new s out := by
  obtain ⟨ps, tail, hs, hps, htail⟩ := exists_segmentation old hold s.length s (le_refl _)
  refine ⟨assemble new ps tail, ?_, ps, tail, hs, rfl, hps, htail⟩
  rw [hs]
  exact Replace_assemble old new hold ps tail hps htail

end strings

/-! ## Rendering -/

theorem ReplaceAll_spec (policy projectName : String) :
    ∃ processed, strings.ReplaceAll policy "{{PROJECT}}" projectName = some processed ∧
      PolicyRendered projectName policy processed := by
  obtain ⟨out, hout, hspec⟩ :=
    strings.Replace_spec policy.data "{{PROJECT}}".data projectName.data (by decide)
  exact ⟨String.mk out, by simp [strings.ReplaceAll, hout], hspec⟩

theorem processPolicies_spec (projectName : String) :
    ∀ policies : List String, ∃ processedPolicies,
      processPolicies projectName policies = Run.done processedPolicies ∧
      List.Forall₂ (PolicyRendered projectName) policies processedPolicies
  | [] => ⟨[], rfl, List.Forall₂.nil⟩
  | policy :: rest => by
    obtain ⟨processed, hp, hspec⟩ := ReplaceAll_spec policy projectName
    obtain ⟨ps, hps, hrest⟩ := processPolicies_spec projectName rest
    exact ⟨processed :: ps, by simp [processPolicies, hp, hps], List.Forall₂.cons hspec hrest⟩

theorem processRole_spec (projectName : String) (role : GoMap) (policies : List String)
    (h : role.index "policies" = Value.strings policies) :
    ∃ processed, processRole projectName role = Run.done processed ∧
      RoleRendered projectName role processed := by
  obtain ⟨ps, hps, hspec⟩ := processPolicies_spec projectName policies
  cases hdesc : role.lookup "description" with
  | none =>
    refine ⟨[("name", role.index "name"), ("policies", Value.strings ps)], ?_, ?_, ?_, ?_⟩
    · simp [processRole, h, hps, hdesc, GoMap.set]
    · simp [GoMap.index, GoMap.lookup]
    · simp [GoMap.lookup, hdesc]
    · exact ⟨policies, ps, h, by simp [GoMap.index, GoMap.lookup], hspec⟩
  | some desc =>
    refine ⟨[("name", role.index "name"), ("description", desc),
      ("policies", Value.strings ps)], ?_, ?_, ?_, ?_⟩
    · simp [processRole, h, hps, hdesc, GoMap.set]
    · simp [GoMap.index, GoMap.lookup]
    · simp [GoMap.lookup, hdesc]
    · exact ⟨policies, ps, h, by simp [GoMap.index, GoMap.lookup], hspec⟩

theorem processRoles_spec (projectName : String) :
    ∀ roles : List GoMap,
      (∀ role ∈ roles, ∃ policies, GoMap.index role "policies" = Value.strings policies) →
      ∃ processedRoles, processRoles projectName roles = Run.done processedRoles ∧
        List.Forall₂ (RoleRendered projectName) roles processedRoles
  | [], _ => ⟨[], rfl, List.Forall₂.nil⟩
  | role :: rest, h => by
    obtain ⟨policies, hpol⟩ := h role (List.mem_cons_self _ _)
    obtain ⟨processed, hp, hspec⟩ := processRole_spec projectName role policies hpol
    obtain ⟨rs, hrs, hrest⟩ :=
      processRoles_spec projectName rest (fun r hr => h r (List.mem_cons_of_mem _ hr))
    exact ⟨processed :: rs, by simp [processRoles, hp, hrs], List.Forall₂.cons hspec hrest⟩

theorem renderArgoCDProject_spec (managedProject : ManagedArgoCDProject) (template : GoMap)
    (roles : List GoMap)
    (hroles : template.index "roles" = Value.maps roles)
    (hpolicies : ∀ role ∈ roles, ∃ policies,
      GoMap.index role "policies" = Value.strings policies) :
    ∃ (appProject : Unstructured) (spec : GoMap) (processedRoles : List GoMap),
      renderArgoCDProject managedProject template = Run.done (appProject, none) ∧
      appProject.Object.index "spec" = Value.map spec ∧
      spec.index "roles" = Value.maps processedRoles ∧
      List.Forall₂ (RoleRendered managedProject.Spec.ProjectName) roles processedRoles := by
  obtain ⟨processedRoles, hrun, hspec⟩ :=
    processRoles_spec managedProject.Spec.ProjectName roles hpolicies
  simp only [renderArgoCDProject, hroles, hrun]
  by_cases hdesc : managedProject.Spec.Description = ""
  · rw [if_neg (by simpa using hdesc)]
    exact ⟨_, _, processedRoles, rfl, rfl, rfl, hspec⟩
  · rw [if_pos (by simpa using hdesc)]
    exact ⟨_, _, processedRoles, rfl, rfl, rfl, hspec⟩

/-- C1: for a template whose `roles` value is a `[]map[string]interface{}` and
whose roles each hold a `[]string` under `policies`, `renderArgoCDProject`
returns a document without panicking; its `spec.roles` holds one role per
template role, in the same order, with the same name and description, and the
policies of each role are those of the template role, one for one and in
order, each with every non-overlapping occurrence of `{{PROJECT}}`, taken from
left to right, replaced by `spec.projectName` and every other character kept. -/
theorem renderArgoCDProject_roles (managedProject : ManagedArgoCDProject) (template : GoMap)
    (roles : List GoMap)
    (hroles : template.index "roles" = Value.maps roles)
    (hpolicies : ∀ role ∈ roles, ∃ policies,
      GoMap.index role "policies" = Value.strings policies) :
    ∃ (appProject : Unstructured) (spec : GoMap) (processedRoles : List GoMap),
      renderArgoCDProject managedProject template = Run.done (appProject, none) ∧
      appProject.Object.index "spec" = Value.map spec ∧
      spec.index "roles" = Value.maps processedRoles ∧
      List.Forall₂ (RoleRendered managedProject.Spec.ProjectName) roles processedRoles :=
  renderArgoCDProject_spec managedProject template roles hroles hpolicies

/-- C1 at the example record and the template `standard`. -/
theorem renderArgoCDProject_roles_witness :
    ∃ (appProject : Unstructured) (spec : GoMap) (processedRoles : List GoMap),
      renderArgoCDProject exampleProject standardTemplate = Run.done (appProject, none) ∧
      appProject.Object.index "spec" = Value.map spec ∧
      spec.index "roles" = Value.maps processedRoles ∧
      List.Forall₂ (RoleRendered exampleProject.Spec.ProjectName) standardRoles processedRoles :=
  renderArgoCDProject_roles exampleProject standardTemplate standardRoles rfl
    (by
      intro role hrole
      simp only [standardRoles, standardTemplate, templates, templatesLookup, GoMap.index,
        GoMap.lookup] at hrole
      simp at hrole
      rcases hrole with rfl | rfl | rfl <;> exact ⟨_, rfl⟩)


/-! ## The template catalog -/

theorem templatesLookup_templates (name : String) :
    templatesLookup templates name =
      if "standard" = name then templatesLookup templates "standard"
      else if "privileged" = name then templatesLookup templates "privileged"
      else if "restricted" = name then templatesLookup templates "restricted"
      else none := by
  by_cases h1 : "standard" = name
  · subst h1; simp
  · by_cases h2 : "privileged" = name
    · subst h2; simp
    · by_cases h3 : "restricted" = name
      · subst h3; simp
      · simp [templates, templatesLookup, h1, h2, h3]

theorem loadTemplate_error_iff_aux (templateName : String) :
    (∃ err, loadTemplate templateName = Except.error err ∧
        ∀ template, loadTemplate templateName ≠ Except.ok template) ↔
      templateName ∉ ["", "standard", "privileged", "restricted"] := by
  by_cases h0 : templateName = ""
  · subst h0
    simp [loadTemplate, templatesLookup, templates]
  · by_cases h1 : "standard" = templateName
    · subst h1
      simp [loadTemplate, templatesLookup, templates]
    · by_cases h2 : "privileged" = templateName
      · subst h2
        simp [loadTemplate, templatesLookup, templates]
      · by_cases h3 : "restricted" = templateName
        · subst h3
          simp [loadTemplate, templatesLookup, templates]
        · have hl : templatesLookup templates templateName = none := by
            rw [templatesLookup_templates]; simp [h1, h2, h3]
          simp [loadTemplate, h0, hl, Ne.symm h1, Ne.symm h2, Ne.symm h3]

/-- C2: `loadTemplate` returns an error, and no template, exactly for the names
other than `""`, `standard`, `privileged` and `restricted`. -/
theorem loadTemplate_error_iff (templateName : String) :
    (∃ err, loadTemplate templateName = Except.error err ∧
        ∀ template, loadTemplate templateName ≠ Except.ok template) ↔
      templateName ∉ ["", "standard", "privileged", "restricted"] :=
  loadTemplate_error_iff_aux templateName

/-- C3: `loadTemplate ""` succeeds and returns what `loadTemplate "standard"`
returns. -/
theorem loadTemplate_empty_eq_standard :
    loadTemplate "" = loadTemplate "standard" ∧
      ∃ template, loadTemplate "" = Except.ok template :=
  ⟨rfl, _, rfl⟩


/-! ## Rendering is a function of spec, namespace and template -/

/-- C4, as stated, fails: two records with the same spec in different
namespaces render to different documents from the same template. -/
theorem renderArgoCDProject_namespace_counterexample :
    exampleProject.Spec = exampleProjectElsewhere.Spec ∧
      renderArgoCDProject exampleProject standardTemplate
        ≠ renderArgoCDProject exampleProjectElsewhere standardTemplate := by
  refine ⟨rfl, fun h => ?_⟩
  have hns := congrArg renderedNamespace h
  revert hns
  decide

theorem renderArgoCDProject_congr_aux (a b : ManagedArgoCDProject) (template : GoMap)
    (hspec : a.Spec = b.Spec) (hns : a.Namespace = b.Namespace) :
    renderArgoCDProject a template = renderArgoCDProject b template := by
  simp only [renderArgoCDProject, hspec, hns]

/-- C4, amended: the rendered document is a function of the spec, the namespace
of the record and the template; nothing else in the record is read. -/
theorem renderArgoCDProject_congr (a b : ManagedArgoCDProject) (template : GoMap)
    (hspec : a.Spec = b.Spec) (hns : a.Namespace = b.Namespace) :
    renderArgoCDProject a template = renderArgoCDProject b template :=
  renderArgoCDProject_congr_aux a b template hspec hns

/-- C4, amended, at two records that differ in name, uid, generation,
finalizers and status. -/
theorem renderArgoCDProject_congr_witness :
    exampleProject.Spec = exampleProjectRenamed.Spec ∧
      exampleProject.Namespace = exampleProjectRenamed.Namespace ∧
      exampleProject ≠ exampleProjectRenamed ∧
      renderArgoCDProject exampleProject standardTemplate
        = renderArgoCDProject exampleProjectRenamed standardTemplate :=
  ⟨rfl, rfl, by decide,
    renderArgoCDProject_congr exampleProject exampleProjectRenamed standardTemplate rfl rfl⟩


/-! ## The deletion path of `Reconcile` -/

theorem emptyProject_gvk :
    (Unstructured.SetGroupVersionKind { Object := [] } appProjectGVK).GroupVersionKind
      = appProjectGVK := rfl

theorem contains_filter_ne (finalizers : List String) (finalizer : String) :
    (finalizers.filter (fun f => f ≠ finalizer)).contains finalizer = false := by
  simp

/-- C5, as stated, fails: the lookup of the derived document reports NotFound,
so the cleanup succeeded, but the update that removes the finalizer fails;
`Reconcile` returns that error and the store still holds the finalizer. -/
theorem Reconcile_deleting_counterexample :
    ∃ out, Reconcile (Cluster.reconciler exampleMarshal) exampleRequest deletingCluster
        = Run.done out ∧
      CleanupSucceeded (Cluster.reconciler exampleMarshal) deletingProject
        { deletingCluster with faults := [none, some unavailable] } ∧
      out.err = some unavailable ∧
      out.state.managed = some deletingProject :=
  ⟨_, rfl, Or.inl ⟨Cluster.notFound, rfl, rfl⟩, rfl, rfl⟩

theorem Reconcile_deleting_aux {σ : Type} (r : ManagedArgoCDProjectReconciler σ) (req : Request)
    (w w1 : σ) (managedProject : ManagedArgoCDProject)
    (hget : r.Get req.NamespacedName w = (Except.ok managedProject, w1))
    (hdel : IsZero managedProject.DeletionTimestamp = false)
    (hfin : ContainsFinalizer managedProject finalizerName = true) :
    ∃ out, Reconcile r req w = Run.done out ∧
      out.rendered = none ∧ (∀ c ∈ out.calls, c.isProjectWrite = false) ∧
      ((out.err = none ∧ ContainsFinalizer out.managedProject finalizerName = false ∧
          Call.update (RemoveFinalizer managedProject finalizerName) none ∈ out.calls) ↔
        (CleanupSucceeded r managedProject w1 ∧
          ∃ rv, finalizerRemoval r managedProject w1 = Except.ok rv)) ∧
      (∀ err, CleanupFailed r managedProject w1 err →
        out.err = some err ∧ out.managedProject = managedProject ∧
          ∀ c ∈ out.calls, c.isManagedUpdate = false) ∧
      (CleanupSucceeded r managedProject w1 →
        ∀ err, finalizerRemoval r managedProject w1 = Except.error err →
          out.err = some err) := by
  simp only [Reconcile, hget, hdel, hfin, CleanupSucceeded, CleanupFailed, finalizerRemoval,
    deleteArgoCDProject, projectKey, emptyProject_gvk]
  rcases hlookup : r.GetProject appProjectGVK
      { Namespace := managedProject.Namespace, Name := managedProject.Spec.ProjectName } w1
    with ⟨lookup, w2⟩
  rcases lookup with err | doc
  · by_cases hnf : IsNotFound err = true
    · simp only [hnf, if_true]
      rcases hupd : r.Update (RemoveFinalizer managedProject finalizerName) w2 with ⟨upd, w3⟩
      rcases upd with uerr | rv
      · simp [Call.isProjectWrite, hnf]
      · simp [Call.isProjectWrite, hnf, ContainsFinalizer, RemoveFinalizer, contains_filter_ne]
    · simp [Call.isProjectWrite, Call.isManagedUpdate, hnf]
  · dsimp only
    rcases hdelete : r.DeleteProject doc w2 with ⟨derr, w3⟩
    rcases derr with _ | derr
    · dsimp only
      rcases hupd : r.Update (RemoveFinalizer managedProject finalizerName) w3 with ⟨upd, w4⟩
      rcases upd with uerr | rv
      · simp [Call.isProjectWrite, hdelete, hupd]
      · simp [Call.isProjectWrite, ContainsFinalizer, RemoveFinalizer, contains_filter_ne,
          hdelete, hupd]
    · simp [Call.isProjectWrite, Call.isManagedUpdate, hdelete]


/-! ## Status reporting -/

theorem readyCondition_replaceReady (condition : Condition)
    (hc : condition.Type_ = conditionTypeReady) :
    ∀ (conditions replaced : List Condition),
      replaceReady condition conditions = some replaced →
      readyCondition replaced = some condition
  | [], _, h => by simp [replaceReady] at h
  | c :: rest, replaced, h => by
    unfold replaceReady at h
    split at h
    · simp only [Option.some.injEq] at h
      subst h
      simp [readyCondition, hc]
    · rename_i hne
      split at h
      · rename_i rest' hrest
        simp only [Option.some.injEq] at h
        subst h
        have ih := readyCondition_replaceReady condition hc rest rest' hrest
        simpa [readyCondition, hne] using ih
      · simp at h

theorem readyCondition_append_of_none (condition : Condition)
    (hc : condition.Type_ = conditionTypeReady) :
    ∀ conditions : List Condition, replaceReady condition conditions = none →
      readyCondition (conditions ++ [condition]) = some condition
  | [], _ => by simp [readyCondition, hc]
  | c :: rest, h => by
    unfold replaceReady at h
    split at h
    · simp at h
    · rename_i hne
      split at h
      · simp at h
      · rename_i hrest
        have ih := readyCondition_append_of_none condition hc rest hrest
        simpa [readyCondition, hne] using ih

theorem setStatus_phase (managedProject : ManagedArgoCDProject)
    (phase message renderedYAML : String) (syncTime transitionTime : Time) :
    (setStatus managedProject phase message renderedYAML syncTime transitionTime).Status.Phase
      = phase := by
  unfold setStatus
  dsimp only
  split <;> split <;> rfl

theorem setStatus_readyCondition (managedProject : ManagedArgoCDProject)
    (phase message renderedYAML : String) (syncTime transitionTime : Time) :
    readyCondition
        (setStatus managedProject phase message renderedYAML syncTime transitionTime).Status.Conditions
      = some { Type_ := conditionTypeReady,
               Status := if phase = phaseFailed then ConditionFalse else ConditionTrue,
               ObservedGeneration := managedProject.Generation,
               LastTransitionTime := transitionTime, Reason := phase, Message := message } := by
  unfold setStatus
  dsimp only
  split
  · rename_i conditions h
    refine (readyCondition_replaceReady _ ?_ _ _ h).trans ?_
    · split <;> rfl
    · split <;> rfl
  · rename_i h
    refine (readyCondition_append_of_none _ ?_ _ h).trans ?_
    · split <;> rfl
    · split <;> rfl


/-! ## Rendering from the catalog never panics -/

theorem loadTemplate_wellTyped (templateName : String) (template : GoMap)
    (h : loadTemplate templateName = Except.ok template) :
    ∃ roles, template.index "roles" = Value.maps roles ∧
      ∀ role ∈ roles, ∃ policies, GoMap.index role "policies" = Value.strings policies := by
  have key : ∀ name : String, ("standard" = name ∨ "privileged" = name ∨ "restricted" = name) →
      ∀ t, templatesLookup templates name = some t →
      ∃ roles, GoMap.index t "roles" = Value.maps roles ∧
        ∀ role ∈ roles, ∃ policies, GoMap.index role "policies" = Value.strings policies := by
    intro name hname t ht
    rcases hname with rfl | rfl | rfl
    all_goals
      simp only [templates, templatesLookup] at ht
      simp at ht
      subst ht
      refine ⟨_, rfl, ?_⟩
      intro role hrole
      simp at hrole
      rcases hrole with rfl | rfl | rfl <;> exact ⟨_, rfl⟩
  have hlookup : templatesLookup templates
      (if templateName = "" then "standard" else templateName) = some template := by
    unfold loadTemplate at h
    dsimp only at h
    cases hl : templatesLookup templates (if templateName = "" then "standard" else templateName)
      with
    | none => rw [hl] at h; simp at h
    | some t => rw [hl] at h; simp only [Except.ok.injEq] at h; rw [h]
  generalize (if templateName = "" then "standard" else templateName) = name at hlookup
  by_cases h1 : "standard" = name
  · exact key name (Or.inl h1) template hlookup
  · by_cases h2 : "privileged" = name
    · exact key name (Or.inr (Or.inl h2)) template hlookup
    · by_cases h3 : "restricted" = name
      · exact key name (Or.inr (Or.inr h3)) template hlookup
      · rw [templatesLookup_templates] at hlookup
        simp [h1, h2, h3] at hlookup

theorem renderArgoCDProject_catalog (managedProject : ManagedArgoCDProject)
    (templateName : String) (template : GoMap)
    (h : loadTemplate templateName = Except.ok template) :
    ∃ spec, renderArgoCDProject managedProject template
      = Run.done (documentWith managedProject spec, none) := by
  obtain ⟨roles, hroles, hpolicies⟩ := loadTemplate_wellTyped templateName template h
  obtain ⟨processedRoles, hrun, -⟩ :=
    processRoles_spec managedProject.Spec.ProjectName roles hpolicies
  simp only [renderArgoCDProject, hroles, hrun]
  exact ⟨_, rfl⟩


/-! ## What `updateStatus` does -/

theorem setStatus_markedFailed (managedProject : ManagedArgoCDProject)
    (message renderedYAML : String) (syncTime transitionTime : Time) :
    MarkedFailed (setStatus managedProject phaseFailed message renderedYAML syncTime
      transitionTime) :=
  ⟨setStatus_phase _ _ _ _ _ _, _, setStatus_readyCondition _ _ _ _ _ _, by simp⟩

theorem updateStatus_spec {σ : Type} (r : ManagedArgoCDProjectReconciler σ)
    (managedProject : ManagedArgoCDProject) (phase message renderedYAML : String) (w : σ) :
    ∃ (syncTime transitionTime : Time) (e : Option GoError),
      (updateStatus r managedProject phase message renderedYAML w).2.2
        = [Call.statusUpdate
            (setStatus managedProject phase message renderedYAML syncTime transitionTime) e] ∧
      (updateStatus r managedProject phase message renderedYAML w).1.Status
        = (setStatus managedProject phase message renderedYAML syncTime transitionTime).Status := by
  unfold updateStatus
  dsimp only
  split
  · exact ⟨_, _, _, rfl, rfl⟩
  · exact ⟨_, _, _, rfl, rfl⟩

theorem updateStatus_failed {σ : Type} (r : ManagedArgoCDProjectReconciler σ)
    (managedProject : ManagedArgoCDProject) (message renderedYAML : String) (w : σ) :
    MarkedFailed (updateStatus r managedProject phaseFailed message renderedYAML w).1 ∧
      ∃ sent e, (updateStatus r managedProject phaseFailed message renderedYAML w).2.2
          = [Call.statusUpdate sent e] ∧ MarkedFailed sent := by
  obtain ⟨t1, t2, e, hcalls, hstatus⟩ :=
    updateStatus_spec r managedProject phaseFailed message renderedYAML w
  have hm := setStatus_markedFailed managedProject message renderedYAML t1 t2
  refine ⟨?_, _, e, hcalls, hm⟩
  unfold MarkedFailed at hm ⊢
  rw [hstatus]
  exact hm

/-! ## A rejected update of the derived document -/

theorem syncArgoCDProject_update_rejected {σ : Type} (r : ManagedArgoCDProjectReconciler σ)
    (managedProject : ManagedArgoCDProject) (appProject : Unstructured) (renderedYAML : String)
    (w : σ) (calls : List Call) (obj : Unstructured) (err : GoError)
    (hcalls : ∀ c ∈ calls, c.isProjectWrite = false)
    (hcall : Call.updateProject obj (some err)
      ∈ (syncArgoCDProject r managedProject appProject renderedYAML w calls).calls) :
    (syncArgoCDProject r managedProject appProject renderedYAML w calls).err = some err ∧
      MarkedFailed (syncArgoCDProject r managedProject appProject renderedYAML w calls).managedProject ∧
      ∃ sent e, Call.statusUpdate sent e
          ∈ (syncArgoCDProject r managedProject appProject renderedYAML w calls).calls ∧
        MarkedFailed sent := by
  have hnot : Call.updateProject obj (some err) ∉ calls := fun h => by
    simpa [Call.isProjectWrite] using hcalls _ h
  unfold syncArgoCDProject at hcall ⊢
  dsimp only at hcall ⊢
  split at hcall
  · split at hcall
    · split at hcall
      · rename_i err' w' hcreate
        obtain ⟨-, sent, e, hs, -⟩ := updateStatus_failed r managedProject
          ("Failed to create project: " ++ err'.Error) "" w'
        simp [hs, hnot] at hcall
      · rename_i w' hcreate
        obtain ⟨t1, t2, e, hs, -⟩ := updateStatus_spec r managedProject phaseReady
          "ArgoCD AppProject created successfully" renderedYAML w'
        simp [hs, hnot] at hcall
    · simp [hnot] at hcall
  · rename_i foundProject w' hget
    split at hcall
    · rename_i err' w'' hupd
      simp only [hget, hupd]
      obtain ⟨hfailed, sent, e, hs, hsent⟩ := updateStatus_failed r managedProject
        ("Failed to update project: " ++ err'.Error) "" w''
      simp only [hs] at hcall ⊢
      simp [hnot] at hcall
      refine ⟨by rw [hcall.2], hfailed, sent, e, by simp, hsent⟩
    · rename_i w'' hupd
      obtain ⟨t1, t2, e, hs, -⟩ := updateStatus_spec r managedProject phaseReady
        "ArgoCD AppProject updated successfully" renderedYAML w''
      simp [hs, hnot] at hcall


/-! ## The paths of `Reconcile` -/

theorem updateStatus_calls_noProject {σ : Type} (r : ManagedArgoCDProjectReconciler σ)
    (managedProject : ManagedArgoCDProject) (phase message renderedYAML : String) (w : σ) :
    ∀ c ∈ (updateStatus r managedProject phase message renderedYAML w).2.2,
      c.isProjectWrite = false ∧ c.isProjectLookup = false ∧ c.isManagedUpdate = false := by
  obtain ⟨t1, t2, e, hs, -⟩ := updateStatus_spec r managedProject phase message renderedYAML w
  rw [hs]
  simp [Call.isProjectWrite, Call.isProjectLookup, Call.isManagedUpdate]

theorem deleteArgoCDProject_calls {σ : Type} (r : ManagedArgoCDProjectReconciler σ)
    (managedProject : ManagedArgoCDProject) (w : σ) :
    ∀ c ∈ (deleteArgoCDProject r managedProject w).2.2,
      c.isProjectWrite = false ∧ c.isManagedUpdate = false := by
  unfold deleteArgoCDProject
  dsimp only
  split
  · split <;> simp [Call.isProjectWrite, Call.isManagedUpdate]
  · simp [Call.isProjectWrite, Call.isManagedUpdate]

theorem renderAndSync_cases {σ : Type} (r : ManagedArgoCDProjectReconciler σ)
    (managedProject : ManagedArgoCDProject) (w : σ) (calls : List Call) (out : Outcome σ)
    (h : renderAndSync r managedProject w calls = Run.done out)
    (hcalls : ∀ c ∈ calls, c.isProjectWrite = false ∧ c.isProjectLookup = false) :
    (∀ c ∈ out.calls, c.isProjectWrite = false ∧ c.isProjectLookup = false) ∨
      ∃ appProject renderedYAML,
        out = syncArgoCDProject r managedProject appProject renderedYAML w calls := by
  unfold renderAndSync at h
  split at h
  · simp only [Run.done.injEq] at h
    subst h
    left
    intro c hc
    rcases List.mem_append.mp hc with hc | hc
    · exact hcalls c hc
    · exact ⟨(updateStatus_calls_noProject _ _ _ _ _ _ c hc).1,
        (updateStatus_calls_noProject _ _ _ _ _ _ c hc).2.1⟩
  · split at h
    · simp at h
    · simp only [Run.done.injEq] at h
      subst h
      left
      intro c hc
      rcases List.mem_append.mp hc with hc | hc
      · exact hcalls c hc
      · exact ⟨(updateStatus_calls_noProject _ _ _ _ _ _ c hc).1,
          (updateStatus_calls_noProject _ _ _ _ _ _ c hc).2.1⟩
    · dsimp only at h
      split at h
      · simp only [Run.done.injEq] at h
        subst h
        exact Or.inl hcalls
      · simp only [Run.done.injEq] at h
        exact Or.inr ⟨_, _, h.symm⟩

theorem Reconcile_cases {σ : Type} (r : ManagedArgoCDProjectReconciler σ) (req : Request)
    (w : σ) (out : Outcome σ) (h : Reconcile r req w = Run.done out) :
    (∀ c ∈ out.calls, c.isProjectWrite = false) ∨
      ∃ fetched w1 managedProject appProject renderedYAML w2 calls,
        r.Get req.NamespacedName w = (Except.ok fetched, w1) ∧
        IsZero fetched.DeletionTimestamp = true ∧
        out = syncArgoCDProject r managedProject appProject renderedYAML w2 calls ∧
        ((ContainsFinalizer fetched finalizerName = true ∧ managedProject = fetched ∧
            w2 = w1 ∧ calls = [Call.get req.NamespacedName none]) ∨
          (ContainsFinalizer fetched finalizerName = false ∧
            ∃ rv, r.Update (AddFinalizer fetched finalizerName) w1 = (Except.ok rv, w2) ∧
              managedProject
                = { AddFinalizer fetched finalizerName with ResourceVersion := rv } ∧
              calls = [Call.get req.NamespacedName none,
                Call.update (AddFinalizer fetched finalizerName) none])) := by
  unfold Reconcile at h
  split at h
  · left
    split at h <;>
    · simp only [Run.done.injEq] at h
      subst h
      simp [Call.isProjectWrite]
  · rename_i fetched w1 hget
    dsimp only at h
    split at h
    · rename_i hlive
      split at h
      · rename_i hfin
        split at h
        · simp only [Run.done.injEq] at h
          subst h
          left
          simp [Call.isProjectWrite]
        · rename_i rv w2 hupd
          rcases renderAndSync_cases r _ w2 _ out h
              (by simp [Call.isProjectWrite, Call.isProjectLookup]) with hno | ⟨doc, yaml, hout⟩
          · exact Or.inl fun c hc => (hno c hc).1
          · refine Or.inr ⟨fetched, w1, _, doc, yaml, w2, _, hget, hlive, hout, Or.inr ⟨?_, rv, hupd, rfl, rfl⟩⟩
            simpa using hfin
      · rename_i hfin
        rcases renderAndSync_cases r _ w1 _ out h
            (by simp [Call.isProjectWrite, Call.isProjectLookup]) with hno | ⟨doc, yaml, hout⟩
        · exact Or.inl fun c hc => (hno c hc).1
        · refine Or.inr ⟨fetched, w1, _, doc, yaml, w1, _, hget, hlive, hout, Or.inl ⟨?_, rfl, rfl, rfl⟩⟩
          simpa using hfin
    · left
      split at h
      · split at h
        · rename_i err w2 cs hdelete
          simp only [Run.done.injEq] at h
          subst h
          have hcs := deleteArgoCDProject_calls r fetched w1
          rw [hdelete] at hcs
          intro c hc
          rcases List.mem_append.mp hc with hc | hc
          · simp at hc; subst hc; rfl
          · exact (hcs c hc).1
        · rename_i w2 cs hdelete
          have hcs := deleteArgoCDProject_calls r fetched w1
          rw [hdelete] at hcs
          split at h <;>
          · simp only [Run.done.injEq] at h
            subst h
            intro c hc
            rcases List.mem_append.mp hc with hc | hc
            · rcases List.mem_append.mp hc with hc | hc
              · simp at hc; subst hc; rfl
              · exact (hcs c hc).1
            · simp at hc; subst hc; rfl
      · simp only [Run.done.injEq] at h
        subst h
        simp [Call.isProjectWrite]


/-! ## `Reconcile` never panics -/

theorem renderAndSync_done {σ : Type} (r : ManagedArgoCDProjectReconciler σ)
    (managedProject : ManagedArgoCDProject) (w : σ) (calls : List Call) :
    ∃ out, renderAndSync r managedProject w calls = Run.done out := by
  unfold renderAndSync
  cases hload : loadTemplate managedProject.Spec.Template with
  | error err => exact ⟨_, rfl⟩
  | ok template =>
    obtain ⟨spec, hrender⟩ := renderArgoCDProject_catalog managedProject _ template hload
    simp only [hrender]
    split <;> exact ⟨_, rfl⟩

theorem Reconcile_done {σ : Type} (r : ManagedArgoCDProjectReconciler σ) (req : Request)
    (w : σ) : ∃ out, Reconcile r req w = Run.done out := by
  unfold Reconcile
  split
  · split <;> exact ⟨_, rfl⟩
  · dsimp only
    split
    · split
      · split
        · exact ⟨_, rfl⟩
        · exact renderAndSync_done _ _ _ _
      · exact renderAndSync_done _ _ _ _
    · split
      · split
        · exact ⟨_, rfl⟩
        · split <;> exact ⟨_, rfl⟩
      · exact ⟨_, rfl⟩

/-! ## A version conflict on the update of the derived document -/

/-- C8, as stated, fails: the record is Ready, the update of its existing
derived document is rejected with a version conflict, and `Reconcile` returns
the conflict and marks the record Failed, in memory and in the store. -/
theorem Reconcile_conflict_counterexample :
    ∃ before out after obj,
      conflictCluster.managed = some before ∧
      before.Status.Phase = phaseReady ∧
      (readyCondition before.Status.Conditions).map (fun c => c.Status) = some ConditionTrue ∧
      Reconcile (Cluster.reconciler exampleMarshal) exampleRequest conflictCluster
        = Run.done out ∧
      Call.updateProject obj (some Cluster.conflict) ∈ out.calls ∧
      IsConflict Cluster.conflict = true ∧
      out.err = some Cluster.conflict ∧
      out.managedProject.Status.Phase = phaseFailed ∧
      out.state.managed = some after ∧
      after.Status.Phase = phaseFailed ∧
      (readyCondition after.Status.Conditions).map (fun c => c.Status) = some ConditionFalse :=
  ⟨_, _, _, _, rfl, rfl, rfl, rfl, List.Mem.tail _ (List.Mem.tail _ (List.Mem.head _)), rfl, rfl,
    rfl, rfl, rfl, rfl⟩

/-- C8, amended: when the update of an existing derived document is rejected
with a version conflict, `Reconcile` returns that error and marks the managed
record Failed, as for any other error of the update: the record in memory has
phase `Failed` and a Ready condition of status `False`, and a status update
with such a record is issued. -/
theorem Reconcile_conflict_marks_failed {σ : Type} (r : ManagedArgoCDProjectReconciler σ)
    (req : Request) (w : σ) (out : Outcome σ) (obj : Unstructured) (err : GoError)
    (hrun : Reconcile r req w = Run.done out)
    (hcall : Call.updateProject obj (some err) ∈ out.calls)
    (hconflict : IsConflict err = true) :
    IsConflict err = true ∧ out.err = some err ∧ MarkedFailed out.managedProject ∧
      ∃ sent e, Call.statusUpdate sent e ∈ out.calls ∧ MarkedFailed sent := by
  refine ⟨hconflict, ?_⟩
  rcases Reconcile_cases r req w out hrun with hno | ⟨fetched, w1, mp, doc, yaml, w2, calls,
    -, -, hout, hcalls⟩
  · have := hno _ hcall
    simp [Call.isProjectWrite] at this
  · subst hout
    refine syncArgoCDProject_update_rejected r mp doc yaml w2 calls obj err ?_ hcall
    rcases hcalls with ⟨-, -, -, rfl⟩ | ⟨-, rv, -, -, rfl⟩ <;> simp [Call.isProjectWrite]

/-- C8, amended, at the synced store with a conflict on the update. -/
theorem Reconcile_conflict_marks_failed_witness :
    ∃ out obj,
      Reconcile (Cluster.reconciler exampleMarshal) exampleRequest conflictCluster
        = Run.done out ∧
      Call.updateProject obj (some Cluster.conflict) ∈ out.calls ∧
      IsConflict Cluster.conflict = true ∧ out.err = some Cluster.conflict ∧
      MarkedFailed out.managedProject ∧
      ∃ sent e, Call.statusUpdate sent e ∈ out.calls ∧ MarkedFailed sent :=
  ⟨_, _, rfl, List.Mem.tail _ (List.Mem.tail _ (List.Mem.head _)),
    Reconcile_conflict_marks_failed (Cluster.reconciler exampleMarshal) exampleRequest
      conflictCluster _ _ Cluster.conflict rfl
      (List.Mem.tail _ (List.Mem.tail _ (List.Mem.head _))) rfl⟩


/-! ## A failed lookup in the synchronizer step -/

/-- C9 at the failing input: the lookup of the derived document fails with a
transient error that is not NotFound; `Reconcile` returns that error but calls
no status update, and the record stays Ready in memory and in the store. -/
theorem Reconcile_lookup_failure_not_reported :
    ∃ out,
      Reconcile (Cluster.reconciler exampleMarshal) exampleRequest lookupFailureCluster
        = Run.done out ∧
      IsNotFound unavailable = false ∧
      (∃ gvk key, out.calls
        = [Call.get exampleRequest.NamespacedName none, Call.getProject gvk key (some unavailable)]) ∧
      out.err = some unavailable ∧
      (∀ c ∈ out.calls, c.isStatusUpdate = false) ∧
      out.managedProject.Status.Phase = phaseReady ∧
      out.state.managed = lookupFailureCluster.managed :=
  ⟨_, rfl, rfl, ⟨_, _, rfl⟩, rfl,
    (by
      intro c hc
      rcases hc with _ | ⟨_, _ | ⟨_, hc⟩⟩
      · rfl
      · rfl
      · cases hc),
    rfl, rfl⟩

/-! ## An unknown template -/

/-- C10, as stated, fails: the record has no deletion marker, no finalizer and
a template outside the catalog; the update that adds the finalizer fails, and
`Reconcile` returns that error without touching the status. -/
theorem Reconcile_unknown_template_counterexample :
    ∃ out,
      IsZero unknownTemplateProject.DeletionTimestamp = true ∧
      unknownTemplateProject.Spec.Template ∉ ["", "standard", "privileged", "restricted"] ∧
      Reconcile (Cluster.reconciler exampleMarshal) exampleRequest unknownTemplateCluster
        = Run.done out ∧
      out.err = some unavailable ∧
      out.managedProject.Status.Phase ≠ phaseFailed ∧
      out.managedProject.Status = unknownTemplateProject.Status ∧
      readyCondition out.managedProject.Status.Conditions = none ∧
      out.state.managed = some unknownTemplateProject :=
  ⟨_, rfl, by decide, rfl, rfl, by decide, rfl, rfl, rfl⟩

theorem AddFinalizer_Spec (o : ManagedArgoCDProject) (finalizer : String) :
    (AddFinalizer o finalizer).Spec = o.Spec := by
  unfold AddFinalizer
  split <;> rfl

theorem renderAndSync_unknown_template {σ : Type} (r : ManagedArgoCDProjectReconciler σ)
    (managedProject : ManagedArgoCDProject) (w : σ) (calls : List Call)
    (htemplate : managedProject.Spec.Template ∉ ["", "standard", "privileged", "restricted"])
    (hcalls : ∀ c ∈ calls, c.isProjectLookup = false ∧ c.isProjectWrite = false) :
    ∃ out err, renderAndSync r managedProject w calls = Run.done out ∧ out.err = some err ∧
      (∀ c ∈ out.calls, c.isProjectLookup = false ∧ c.isProjectWrite = false) ∧
      MarkedFailed out.managedProject ∧
      ∃ sent e, Call.statusUpdate sent e ∈ out.calls ∧ MarkedFailed sent := by
  obtain ⟨err, herr, -⟩ := (loadTemplate_error_iff_aux managedProject.Spec.Template).mpr htemplate
  obtain ⟨hfailed, sent, e, hs, hsent⟩ := updateStatus_failed r managedProject
    ("Failed to load template: " ++ err.Error) "" w
  simp only [renderAndSync, herr]
  refine ⟨_, err, rfl, rfl, ?_, hfailed, sent, e, ?_, hsent⟩
  · intro c hc
    rcases List.mem_append.mp hc with hc | hc
    · exact hcalls c hc
    · have := updateStatus_calls_noProject _ _ _ _ _ _ c hc
      exact ⟨this.2.1, this.1⟩
  · exact List.mem_append.mpr (Or.inr (by rw [hs]; simp))

/-- C10, amended: for a managed record without deletion marker whose template
is outside the catalog, `Reconcile` returns a non-nil error and issues no
lookup, create or update of the derived document; and when the record carries
the finalizer, or the update that adds the finalizer succeeds, it sets the
phase to `Failed` with a Ready condition of status `False` and issues a status
update with that status. -/
theorem Reconcile_unknown_template {σ : Type} (r : ManagedArgoCDProjectReconciler σ)
    (req : Request) (w w1 : σ) (managedProject : ManagedArgoCDProject)
    (hget : r.Get req.NamespacedName w = (Except.ok managedProject, w1))
    (hlive : IsZero managedProject.DeletionTimestamp = true)
    (htemplate : managedProject.Spec.Template ∉ ["", "standard", "privileged", "restricted"]) :
    ∃ out err, Reconcile r req w = Run.done out ∧ out.err = some err ∧
      (∀ c ∈ out.calls, c.isProjectLookup = false ∧ c.isProjectWrite = false) ∧
      ((ContainsFinalizer managedProject finalizerName = true ∨
          ∃ rv, (r.Update (AddFinalizer managedProject finalizerName) w1).1 = Except.ok rv) →
        MarkedFailed out.managedProject ∧
          ∃ sent e, Call.statusUpdate sent e ∈ out.calls ∧ MarkedFailed sent) := by
  simp only [Reconcile, hget, hlive, if_true]
  by_cases hfin : ContainsFinalizer managedProject finalizerName = true
  · simp only [hfin, Bool.not_true, Bool.false_eq_true, if_false]
    obtain ⟨out, err, hrun, herr, hcalls, hfailed⟩ :=
      renderAndSync_unknown_template r managedProject w1 [Call.get req.NamespacedName none]
        htemplate (by simp [Call.isProjectLookup, Call.isProjectWrite])
    exact ⟨out, err, hrun, herr, hcalls, fun _ => hfailed⟩
  · simp only [Bool.not_eq_true] at hfin
    simp only [hfin, Bool.not_false, if_true]
    rcases hupd : r.Update (AddFinalizer managedProject finalizerName) w1 with ⟨res, w2⟩
    rcases res with uerr | rv
    · refine ⟨_, uerr, rfl, rfl, by simp [Call.isProjectLookup, Call.isProjectWrite], ?_⟩
      simp [hfin]
    · dsimp only
      have htemplate' : ({ AddFinalizer managedProject finalizerName with
          ResourceVersion := rv } : ManagedArgoCDProject).Spec.Template
            ∉ ["", "standard", "privileged", "restricted"] := by
        show (AddFinalizer managedProject finalizerName).Spec.Template ∉ _
        rw [AddFinalizer_Spec]
        exact htemplate
      obtain ⟨out, err, hrun, herr, hcalls, hfailed⟩ :=
        renderAndSync_unknown_template r _ w2
          ([Call.get req.NamespacedName none]
            ++ [Call.update (AddFinalizer managedProject finalizerName) none])
          htemplate' (by simp [Call.isProjectLookup, Call.isProjectWrite])
      exact ⟨out, err, hrun, herr, hcalls, fun _ => hfailed⟩

/-- C10, amended, at the record with the unknown template in a store where
every call succeeds. -/
theorem Reconcile_unknown_template_witness :
    IsZero unknownTemplateProject.DeletionTimestamp = true ∧
      unknownTemplateProject.Spec.Template ∉ ["", "standard", "privileged", "restricted"] ∧
      ∃ out err,
        Reconcile (Cluster.reconciler exampleMarshal) exampleRequest unknownTemplateClusterHealthy
          = Run.done out ∧ out.err = some err ∧
        (∀ c ∈ out.calls, c.isProjectLookup = false ∧ c.isProjectWrite = false) ∧
        MarkedFailed out.managedProject := by
  obtain ⟨out, err, hrun, herr, hcalls, hfailed⟩ :=
    Reconcile_unknown_template (Cluster.reconciler exampleMarshal) exampleRequest
      unknownTemplateClusterHealthy unknownTemplateClusterHealthy unknownTemplateProject
      rfl rfl (by decide)
  exact ⟨rfl, by decide, out, err, hrun, herr, hcalls, (hfailed (Or.inr ⟨_, rfl⟩)).1⟩


/-! ## Maps and documents -/

namespace GoMap

theorem lookup_set_same (m : GoMap) (k : String) (v : Value) :
    lookup (set m k v) k = some v := by
  induction m with
  | nil => simp [set, lookup]
  | cons kv rest ih =>
    obtain ⟨k', v'⟩ := kv
    by_cases h : k' = k
    · simp [set, lookup, h]
    · simp [set, lookup, h, ih]

theorem lookup_set_ne (m : GoMap) (k k' : String) (v : Value) (h : k ≠ k') :
    lookup (set m k v) k' = lookup m k' := by
  induction m with
  | nil => simp [set, lookup, h]
  | cons kv rest ih =>
    obtain ⟨k'', v''⟩ := kv
    by_cases h1 : k'' = k
    · subst h1
      simp [set, lookup, h]
    · by_cases h2 : k'' = k'
      · subst h2
        simp [set, lookup, h1]
      · simp [set, lookup, h1, h2, ih]

theorem lookup_erase_same (m : GoMap) (k : String) : lookup (erase m k) k = none := by
  induction m with
  | nil => simp [erase, lookup]
  | cons kv rest ih =>
    obtain ⟨k', v'⟩ := kv
    by_cases h : k' = k
    · simp [erase, h, ih]
    · simp [erase, lookup, h, ih]

theorem lookup_erase_ne (m : GoMap) (k k' : String) (h : k ≠ k') :
    lookup (erase m k) k' = lookup m k' := by
  induction m with
  | nil => simp [erase, lookup]
  | cons kv rest ih =>
    obtain ⟨k'', v''⟩ := kv
    by_cases h1 : k'' = k
    · subst h1
      simp [erase, lookup, h, ih]
    · by_cases h2 : k'' = k'
      · subst h2
        simp [erase, lookup, h1]
      · simp [erase, lookup, h1, h2, ih]

end GoMap

namespace Unstructured

theorem lookup_removeMetadataField_ne (u : Unstructured) (field k : String)
    (hk : "metadata" ≠ k) :
    (u.removeMetadataField field).Object.lookup k = u.Object.lookup k := by
  unfold removeMetadataField
  split
  · exact GoMap.lookup_set_ne _ _ _ _ hk
  · rfl

theorem getMetadataString_removeMetadataField_ne (u : Unstructured) (field g : String)
    (h : field ≠ g) :
    (u.removeMetadataField field).getMetadataString g = u.getMetadataString g := by
  cases hmd : u.Object.lookup "metadata" with
  | none => simp [removeMetadataField, hmd]
  | some x =>
    cases x with
    | map md =>
      simp [removeMetadataField, getMetadataString, hmd, GoMap.lookup_set_same,
        GoMap.lookup_erase_ne _ _ _ h]
    | _ => simp [removeMetadataField, hmd]

theorem GroupVersionKind_removeMetadataField (u : Unstructured) (field : String) :
    (u.removeMetadataField field).GroupVersionKind = u.GroupVersionKind := by
  unfold GroupVersionKind GetAPIVersion GetKind
  rw [lookup_removeMetadataField_ne u field "apiVersion" (by decide),
    lookup_removeMetadataField_ne u field "kind" (by decide)]

theorem lookup_setMetadataField_ne (u : Unstructured) (field k : String) (value : Value)
    (hk : "metadata" ≠ k) :
    (u.setMetadataField field value).Object.lookup k = u.Object.lookup k := by
  unfold setMetadataField
  split
  · exact GoMap.lookup_set_ne _ _ _ _ hk
  · rfl
  · exact GoMap.lookup_set_ne _ _ _ _ hk

theorem getMetadataString_setMetadataField_ne (u : Unstructured) (field g : String)
    (value : Value) (h : field ≠ g) :
    (u.setMetadataField field value).getMetadataString g = u.getMetadataString g := by
  cases hmd : u.Object.lookup "metadata" with
  | none =>
    simp [setMetadataField, getMetadataString, hmd, GoMap.lookup_set_same, GoMap.lookup, h]
  | some x =>
    cases x with
    | map md =>
      simp [setMetadataField, getMetadataString, hmd, GoMap.lookup_set_same,
        GoMap.lookup_set_ne _ _ _ _ h]
    | _ => simp [setMetadataField, hmd]

theorem GetAPIVersion_setMetadataField (u : Unstructured) (field : String) (value : Value) :
    (u.setMetadataField field value).GetAPIVersion = u.GetAPIVersion := by
  unfold GetAPIVersion
  rw [lookup_setMetadataField_ne u field "apiVersion" value (by decide)]

theorem GetKind_setMetadataField (u : Unstructured) (field : String) (value : Value) :
    (u.setMetadataField field value).GetKind = u.GetKind := by
  unfold GetKind
  rw [lookup_setMetadataField_ne u field "kind" value (by decide)]

theorem GroupVersionKind_setMetadataField (u : Unstructured) (field : String) (value : Value) :
    (u.setMetadataField field value).GroupVersionKind = u.GroupVersionKind := by
  unfold GroupVersionKind
  rw [GetAPIVersion_setMetadataField, GetKind_setMetadataField]

end Unstructured

namespace Cluster

theorem isAt_setMetadataField (gvk : GroupVersionKind) (key : NamespacedName)
    (u : Unstructured) (field : String) (value : Value)
    (h1 : field ≠ "name") (h2 : field ≠ "namespace") :
    isAt gvk key (u.setMetadataField field value) = isAt gvk key u := by
  unfold isAt Unstructured.GetName Unstructured.GetNamespace
  rw [Unstructured.GroupVersionKind_setMetadataField,
    Unstructured.getMetadataString_setMetadataField_ne _ _ _ _ h1,
    Unstructured.getMetadataString_setMetadataField_ne _ _ _ _ h2]

theorem isAt_documentWith (managedProject : ManagedArgoCDProject) (spec : GoMap) :
    isAt appProjectGVK (projectKey managedProject) (documentWith managedProject spec) = true := by
  have hgvk : (documentWith managedProject spec).GroupVersionKind = appProjectGVK := rfl
  have hname : (documentWith managedProject spec).GetName = managedProject.Spec.ProjectName := by
    simp [documentWith, Unstructured.GetName, Unstructured.getMetadataString, GoMap.lookup]
  have hns : (documentWith managedProject spec).GetNamespace = managedProject.Namespace := by
    simp [documentWith, Unstructured.GetNamespace, Unstructured.getMetadataString, GoMap.lookup]
  simp [isAt, hgvk, hname, hns, projectKey]

theorem isAt_eq_of_isAt (gvk : GroupVersionKind) (key : NamespacedName) (u : Unstructured)
    (h : isAt gvk key u = true) : isAt u.GroupVersionKind (keyOf u) = isAt gvk key := by
  simp only [isAt, Bool.decide_and, Bool.and_eq_true, decide_eq_true_eq] at h
  obtain ⟨h1, h2, h3⟩ := h
  funext d
  simp [isAt, keyOf, h1, h2, h3]

end Cluster

theorem SetControllerReference_isAt (owner : ManagedArgoCDProject) (controlled result : Unstructured)
    (scheme : Scheme) (gvk : GroupVersionKind) (key : NamespacedName)
    (h : SetControllerReference owner controlled scheme = Except.ok result) :
    Cluster.isAt gvk key result = Cluster.isAt gvk key controlled := by
  unfold SetControllerReference at h
  split at h
  · simp at h
  · split at h
    · simp at h
    · split at h
      · simp at h
      · dsimp only at h
        split at h
        · split at h
          · simp only [Except.ok.injEq] at h
            subst h
            exact Cluster.isAt_setMetadataField _ _ _ _ _ (by decide) (by decide)
          · simp at h
        · simp only [Except.ok.injEq] at h
          subst h
          exact Cluster.isAt_setMetadataField _ _ _ _ _ (by decide) (by decide)


/-! ## What the store calls change -/

namespace Cluster

theorem FaultsConsistent_tail (f : Option GoError) (rest : List (Option GoError))
    (h : FaultsConsistent (f :: rest)) : FaultsConsistent rest :=
  fun err herr => h err (List.mem_cons_of_mem _ herr)

theorem popFault_spec (c : Cluster) :
    (c.popFault).2.managed = c.managed ∧ (c.popFault).2.projects = c.projects ∧
      (c.popFault).2.version = c.version ∧
      (FaultsConsistent c.faults → FaultsConsistent (c.popFault).2.faults) ∧
      (∀ err, (c.popFault).1 = some err → FaultsConsistent c.faults → IsNotFound err = false) := by
  unfold popFault
  cases hf : c.faults with
  | nil => simp [hf]
  | cons f rest =>
    refine ⟨rfl, rfl, rfl, fun h => FaultsConsistent_tail f rest h, ?_⟩
    intro err herr h
    simp only at herr
    subst herr
    exact h err (List.mem_cons_self _ _)

theorem Get_frame (key : NamespacedName) (c : Cluster) :
    (Get key c).2.managed = c.managed ∧ (Get key c).2.projects = c.projects ∧
      (FaultsConsistent c.faults → FaultsConsistent (Get key c).2.faults) ∧
      (∀ m, (Get key c).1 = Except.ok m → c.managed = some m) := by
  obtain ⟨h1, h2, -, h4, -⟩ := popFault_spec c
  unfold Get
  rcases hp : c.popFault with ⟨f, c'⟩
  rw [hp] at h1 h2 h4
  simp only at h1 h2 h4
  cases f with
  | some err => exact ⟨h1, h2, h4, by simp⟩
  | none =>
    dsimp only
    cases hm : c'.managed with
    | none => exact ⟨h1, h2, h4, by simp⟩
    | some m =>
      dsimp only
      split
      · refine ⟨h1, h2, h4, ?_⟩
        intro m' hm'
        simp only [Except.ok.injEq] at hm'
        rw [← h1, hm, hm']
      · exact ⟨h1, h2, h4, by simp⟩

theorem Now_frame (c : Cluster) :
    (Now c).2.managed = c.managed ∧ (Now c).2.projects = c.projects ∧
      (Now c).2.faults = c.faults :=
  ⟨rfl, rfl, rfl⟩

theorem GetProject_frame (gvk : GroupVersionKind) (key : NamespacedName) (c : Cluster) :
    (GetProject gvk key c).2.managed = c.managed ∧
      (GetProject gvk key c).2.projects = c.projects ∧
      (FaultsConsistent c.faults → FaultsConsistent (GetProject gvk key c).2.faults) ∧
      (∀ d, (GetProject gvk key c).1 = Except.ok d → c.projects.find? (isAt gvk key) = some d) ∧
      (∀ e, (GetProject gvk key c).1 = Except.error e → IsNotFound e = true →
        FaultsConsistent c.faults → c.projects.find? (isAt gvk key) = none) := by
  obtain ⟨h1, h2, -, h4, h5⟩ := popFault_spec c
  unfold GetProject
  rcases hp : c.popFault with ⟨f, c'⟩
  rw [hp] at h1 h2 h4 h5
  simp only at h1 h2 h4 h5
  cases f with
  | some err =>
    refine ⟨h1, h2, h4, by simp, ?_⟩
    intro e he hnf hfc
    simp only [Except.error.injEq] at he
    subst he
    have := h5 err rfl hfc
    rw [this] at hnf
    cases hnf
  | none =>
    dsimp only
    rw [h2]
    cases hfind : c.projects.find? (isAt gvk key) with
    | none => exact ⟨h1, h2, h4, by simp, by simp⟩
    | some d => exact ⟨h1, h2, h4, by simp, by simp⟩

end Cluster


namespace Cluster

theorem Update_frame (obj : ManagedArgoCDProject) (c : Cluster) :
    (Update obj c).2.projects = c.projects ∧
      (FaultsConsistent c.faults → FaultsConsistent (Update obj c).2.faults) ∧
      (∀ e, (Update obj c).1 = Except.error e → (Update obj c).2.managed = c.managed) ∧
      (∀ rv, (Update obj c).1 = Except.ok rv →
        (Update obj c).2.managed = none ∨
          coreOf (Update obj c).2 = some (obj.Finalizers, projectKey obj)) ∧
      (∀ rv m, (Update obj c).1 = Except.ok rv → c.managed = some m →
        IsZero m.DeletionTimestamp = true →
        coreOf (Update obj c).2 = some (obj.Finalizers, projectKey obj)) := by
  obtain ⟨h1, h2, -, h4, -⟩ := popFault_spec c
  unfold Update
  rcases hp : c.popFault with ⟨f, c'⟩
  rw [hp] at h1 h2 h4
  simp only at h1 h2 h4
  cases f with
  | some err => exact ⟨h2, h4, fun _ _ => h1, by simp, by simp⟩
  | none =>
    dsimp only
    cases hm : c'.managed with
    | none =>
      refine ⟨h2, h4, fun _ _ => ?_, by simp, by simp⟩
      rw [← h1, hm]
    | some m =>
      dsimp only
      by_cases hkey : m.Namespace = obj.Namespace ∧ m.Name = obj.Name
      · rw [if_pos hkey]
        by_cases hrv : obj.ResourceVersion ≠ "" ∧ obj.ResourceVersion ≠ m.ResourceVersion
        · rw [if_pos hrv]
          refine ⟨h2, h4, fun _ _ => ?_, by simp, by simp⟩
          rw [← h1, hm]
        · rw [if_neg hrv]
          by_cases hgone : IsZero m.DeletionTimestamp = false ∧ obj.Finalizers = []
          · rw [if_pos hgone]
            refine ⟨h2, h4, by simp, fun _ _ => Or.inl rfl, ?_⟩
            intro rv m' _ hm' hlive
            rw [← h1, hm] at hm'
            simp only [Option.some.injEq] at hm'
            subst hm'
            rw [hgone.1] at hlive
            cases hlive
          · rw [if_neg hgone]
            have hcore : coreOf
                { c' with
                  managed := some
                    { m with Finalizers := obj.Finalizers, Spec := obj.Spec,
                             ResourceVersion := c'.nextVersion,
                             Generation :=
                               if obj.Spec = m.Spec then m.Generation else m.Generation + 1 },
                  version := c'.version + 1 }
                = some (obj.Finalizers, projectKey obj) := by
              simp [coreOf, projectKey, hkey.1]
            exact ⟨h2, h4, by simp, fun _ _ => Or.inr hcore, fun _ _ _ _ _ => hcore⟩
      · rw [if_neg hkey]
        refine ⟨h2, h4, fun _ _ => ?_, by simp, by simp⟩
        rw [← h1, hm]

theorem StatusUpdate_frame (obj : ManagedArgoCDProject) (c : Cluster) :
    (StatusUpdate obj c).2.projects = c.projects ∧
      (FaultsConsistent c.faults → FaultsConsistent (StatusUpdate obj c).2.faults) ∧
      coreOf (StatusUpdate obj c).2 = coreOf c := by
  obtain ⟨h1, h2, -, h4, -⟩ := popFault_spec c
  unfold StatusUpdate
  rcases hp : c.popFault with ⟨f, c'⟩
  rw [hp] at h1 h2 h4
  simp only at h1 h2 h4
  have hsame : coreOf c' = coreOf c := by simp [coreOf, h1]
  cases f with
  | some err => exact ⟨h2, h4, hsame⟩
  | none =>
    dsimp only
    cases hm : c'.managed with
    | none => exact ⟨h2, h4, hsame⟩
    | some m =>
      dsimp only
      split
      · split
        · exact ⟨h2, h4, hsame⟩
        · refine ⟨h2, h4, ?_⟩
          rw [← hsame]
          simp [coreOf, hm, projectKey]
      · exact ⟨h2, h4, hsame⟩

theorem CreateProject_frame (obj : Unstructured) (c : Cluster) :
    (CreateProject obj c).2.managed = c.managed ∧
      (FaultsConsistent c.faults → FaultsConsistent (CreateProject obj c).2.faults) ∧
      ((CreateProject obj c).2.projects = c.projects ∨
        (c.projects.find? (isAt obj.GroupVersionKind (keyOf obj)) = none ∧
          ∃ rv, (CreateProject obj c).2.projects = c.projects ++ [obj.SetResourceVersion rv])) := by
  obtain ⟨h1, h2, -, h4, -⟩ := popFault_spec c
  unfold CreateProject
  rcases hp : c.popFault with ⟨f, c'⟩
  rw [hp] at h1 h2 h4
  simp only at h1 h2 h4
  cases f with
  | some err => exact ⟨h1, h4, Or.inl h2⟩
  | none =>
    dsimp only
    rw [h2]
    cases hfind : c.projects.find? (isAt obj.GroupVersionKind (keyOf obj)) with
    | some d => exact ⟨h1, h4, Or.inl h2⟩
    | none => exact ⟨h1, h4, Or.inr ⟨rfl, _, rfl⟩⟩

theorem UpdateProject_frame (obj : Unstructured) (c : Cluster) :
    (UpdateProject obj c).2.managed = c.managed ∧
      (FaultsConsistent c.faults → FaultsConsistent (UpdateProject obj c).2.faults) ∧
      ((UpdateProject obj c).2.projects = c.projects ∨
        ∃ rv, (UpdateProject obj c).2.projects
          = replaceFirst (isAt obj.GroupVersionKind (keyOf obj)) (obj.SetResourceVersion rv)
              c.projects) := by
  obtain ⟨h1, h2, -, h4, -⟩ := popFault_spec c
  unfold UpdateProject
  rcases hp : c.popFault with ⟨f, c'⟩
  rw [hp] at h1 h2 h4
  simp only at h1 h2 h4
  cases f with
  | some err => exact ⟨h1, h4, Or.inl h2⟩
  | none =>
    dsimp only
    rw [h2]
    cases hfind : c.projects.find? (isAt obj.GroupVersionKind (keyOf obj)) with
    | none => exact ⟨h1, h4, Or.inl h2⟩
    | some d =>
      dsimp only
      split
      · exact ⟨h1, h4, Or.inl h2⟩
      · exact ⟨h1, h4, Or.inr ⟨_, rfl⟩⟩

theorem DeleteProject_frame (obj : Unstructured) (c : Cluster) :
    (DeleteProject obj c).2.managed = c.managed ∧
      (FaultsConsistent c.faults → FaultsConsistent (DeleteProject obj c).2.faults) ∧
      (∀ e, (DeleteProject obj c).1 = some e → (DeleteProject obj c).2.projects = c.projects) ∧
      ((DeleteProject obj c).1 = none → (DeleteProject obj c).2.projects
        = removeFirst (isAt obj.GroupVersionKind (keyOf obj)) c.projects) := by
  obtain ⟨h1, h2, -, h4, -⟩ := popFault_spec c
  unfold DeleteProject
  rcases hp : c.popFault with ⟨f, c'⟩
  rw [hp] at h1 h2 h4
  simp only at h1 h2 h4
  cases f with
  | some err => exact ⟨h1, h4, fun _ _ => h2, by simp⟩
  | none =>
    dsimp only
    rw [h2]
    cases hfind : c.projects.find? (isAt obj.GroupVersionKind (keyOf obj)) with
    | none => exact ⟨h1, h4, fun _ _ => h2, by simp⟩
    | some d => exact ⟨h1, h4, by simp, fun _ => rfl⟩

end Cluster


/-! ## The finalizer invariant -/

namespace Cluster

theorem Inv_congr (c c' : Cluster) (hcore : coreOf c' = coreOf c)
    (hprojects : c'.projects = c.projects) (h : Inv c) : Inv c' := by
  unfold Inv at h ⊢
  rw [hcore, hprojects]
  exact h

theorem Inv_of_empty (c : Cluster) (h : c.projects = []) : Inv c := Or.inl h

theorem projects_empty_of_find_none (c : Cluster) (finalizers : List String)
    (key : NamespacedName) (hinv : Inv c) (hcore : coreOf c = some (finalizers, key))
    (hfind : c.projects.find? (isAt appProjectGVK key) = none) : c.projects = [] := by
  rcases hinv with h | ⟨fs, key', d, hcore', -, hprojects, hat⟩
  · exact h
  · rw [hcore] at hcore'
    simp only [Option.some.injEq, Prod.mk.injEq] at hcore'
    obtain ⟨-, rfl⟩ := hcore'
    rw [hprojects] at hfind
    simp [List.find?, hat] at hfind

theorem Inv_after_write (c c' : Cluster) (finalizers : List String) (key : NamespacedName)
    (obj : Unstructured) (hinv : Inv c) (hcore : coreOf c = some (finalizers, key))
    (hfin : finalizers.contains finalizerName = true) (hcore' : coreOf c' = coreOf c)
    (hobj : isAt appProjectGVK key obj = true)
    (h : c'.projects = c.projects ∨
      (c.projects.find? (isAt appProjectGVK key) = none ∧ c'.projects = c.projects ++ [obj]) ∨
      c'.projects = replaceFirst (isAt appProjectGVK key) obj c.projects) : Inv c' := by
  rcases h with h | ⟨hfind, h⟩ | h
  · exact Inv_congr c c' hcore' h hinv
  · have hempty := projects_empty_of_find_none c finalizers key hinv hcore hfind
    rw [hempty] at h
    exact Or.inr ⟨finalizers, key, obj, by rw [hcore', hcore], hfin, by simpa using h, hobj⟩
  · rcases hinv with hempty | ⟨fs, key', d, hcore2, -, hprojects, hat⟩
    · rw [hempty] at h
      exact Or.inl (by simpa [replaceFirst] using h)
    · rw [hcore] at hcore2
      simp only [Option.some.injEq, Prod.mk.injEq] at hcore2
      obtain ⟨-, rfl⟩ := hcore2
      rw [hprojects] at h
      simp only [replaceFirst, hat, if_true] at h
      exact Or.inr ⟨finalizers, key, obj, by rw [hcore', hcore], hfin, h, hobj⟩

theorem coreOf_eq_of_managed (c c' : Cluster) (h : c'.managed = c.managed) :
    coreOf c' = coreOf c := by
  simp [coreOf, h]

theorem updateStatus_frame (marshal : GoMap → Except GoError String)
    (managedProject : ManagedArgoCDProject) (phase message renderedYAML : String) (c : Cluster) :
    (updateStatus (reconciler marshal) managedProject phase message renderedYAML c).2.1.projects
        = c.projects ∧
      (FaultsConsistent c.faults → FaultsConsistent
        (updateStatus (reconciler marshal) managedProject phase message renderedYAML c).2.1.faults) ∧
      coreOf (updateStatus (reconciler marshal) managedProject phase message renderedYAML c).2.1
        = coreOf c := by
  unfold updateStatus
  dsimp only
  have key : ∀ (obj : ManagedArgoCDProject) (c1 : Cluster), c1.projects = c.projects →
      c1.faults = c.faults → coreOf c1 = coreOf c →
      (StatusUpdate obj c1).2.projects = c.projects ∧
        (FaultsConsistent c.faults → FaultsConsistent (StatusUpdate obj c1).2.faults) ∧
        coreOf (StatusUpdate obj c1).2 = coreOf c := by
    intro obj c1 h1 h2 h3
    obtain ⟨f1, f2, f3⟩ := StatusUpdate_frame obj c1
    exact ⟨f1.trans h1, fun h => f2 (h2 ▸ h), f3.trans h3⟩
  split
  · rename_i err w heq
    have hw := congrArg Prod.snd heq
    simp only at hw
    rw [← hw]
    by_cases hp : phase = phaseReady
    · simp only [hp, if_true]
      exact key _ _ rfl rfl rfl
    · simp only [hp, if_false]
      exact key _ _ rfl rfl rfl
  · rename_i rv w heq
    have hw := congrArg Prod.snd heq
    simp only at hw
    rw [← hw]
    by_cases hp : phase = phaseReady
    · simp only [hp, if_true]
      exact key _ _ rfl rfl rfl
    · simp only [hp, if_false]
      exact key _ _ rfl rfl rfl

end Cluster


namespace Cluster

theorem isAt_SetResourceVersion (gvk : GroupVersionKind) (key : NamespacedName)
    (u : Unstructured) (rv : String) :
    isAt gvk key (u.SetResourceVersion rv) = isAt gvk key u := by
  unfold Unstructured.SetResourceVersion
  split
  · unfold isAt Unstructured.GetName Unstructured.GetNamespace
    rw [Unstructured.GroupVersionKind_removeMetadataField,
      Unstructured.getMetadataString_removeMetadataField_ne _ _ _ (by decide),
      Unstructured.getMetadataString_removeMetadataField_ne _ _ _ (by decide)]
  · exact isAt_setMetadataField gvk key u "resourceVersion" (Value.str rv) (by decide)
      (by decide)

theorem syncArgoCDProject_Inv (marshal : GoMap → Except GoError String)
    (managedProject : ManagedArgoCDProject) (appProject : Unstructured) (renderedYAML : String)
    (c : Cluster) (calls : List Call) (finalizers : List String)
    (hfc : FaultsConsistent c.faults)
    (hcore : coreOf c = some (finalizers, projectKey managedProject))
    (hfin : finalizers.contains finalizerName = true)
    (hdoc : isAt appProjectGVK (projectKey managedProject) appProject = true)
    (hinv : Inv c) :
    Inv (syncArgoCDProject (reconciler marshal) managedProject appProject renderedYAML c
      calls).state := by
  have hgvk : appProject.GroupVersionKind = appProjectGVK := by
    simp only [isAt, Bool.decide_and, Bool.and_eq_true, decide_eq_true_eq] at hdoc
    exact hdoc.1
  have hpred := isAt_eq_of_isAt _ _ _ hdoc
  unfold syncArgoCDProject
  dsimp only [reconciler]
  rw [hgvk, emptyProject_gvk]
  rw [show ({ Namespace := managedProject.Namespace, Name := managedProject.Spec.ProjectName }
    : NamespacedName) = projectKey managedProject from rfl]
  obtain ⟨g1, g2, g3, g4, g5⟩ := GetProject_frame appProjectGVK (projectKey managedProject) c
  rcases hg : GetProject appProjectGVK (projectKey managedProject) c with ⟨res, c1⟩
  rw [hg] at g1 g2 g3 g4 g5
  simp only at g1 g2 g3 g4 g5
  have hcore1 : coreOf c1 = coreOf c := coreOf_eq_of_managed c c1 g1
  have hinv1 : Inv c1 := Inv_congr c c1 hcore1 g2 hinv
  cases res with
  | error err =>
    dsimp only
    by_cases hnf : IsNotFound err = true
    · rw [if_pos hnf]
      have hfind := g5 err rfl hnf hfc
      obtain ⟨k1, k2, k3⟩ := CreateProject_frame appProject c1
      have hinv2 : Inv (CreateProject appProject c1).2 := by
        rcases k3 with k3 | ⟨hf, rv, k3⟩
        · exact Inv_congr c1 _ (coreOf_eq_of_managed _ _ k1) k3 hinv1
        · rw [hpred] at hf
          exact Inv_after_write c1 _ finalizers (projectKey managedProject)
            (appProject.SetResourceVersion rv) hinv1 (hcore1.trans hcore) hfin
            (coreOf_eq_of_managed _ _ k1) (by rw [isAt_SetResourceVersion]; exact hdoc)
            (Or.inr (Or.inl ⟨hf, k3⟩))
      rcases hc : CreateProject appProject c1 with ⟨cres, c2⟩
      rw [hc] at hinv2
      simp only at hinv2
      cases cres with
      | some cerr =>
        dsimp only
        obtain ⟨u1, -, u3⟩ := updateStatus_frame marshal managedProject phaseFailed
          ("Failed to create project: " ++ cerr.Error) "" c2
        exact Inv_congr c2 _ u3 u1 hinv2
      | none =>
        dsimp only
        obtain ⟨u1, -, u3⟩ := updateStatus_frame marshal managedProject phaseReady
          "ArgoCD AppProject created successfully" renderedYAML c2
        exact Inv_congr c2 _ u3 u1 hinv2
    · rw [if_neg hnf]
      exact hinv1
  | ok found =>
    dsimp only
    obtain ⟨k1, k2, k3⟩ :=
      UpdateProject_frame (appProject.SetResourceVersion found.GetResourceVersion) c1
    have hobj : isAt appProjectGVK (projectKey managedProject)
        (appProject.SetResourceVersion found.GetResourceVersion) = true := by
      rw [isAt_SetResourceVersion]; exact hdoc
    have hpred2 := isAt_eq_of_isAt _ _ _ hobj
    rw [hpred2] at k3
    have hinv2 : Inv (UpdateProject (appProject.SetResourceVersion found.GetResourceVersion) c1).2 := by
      rcases k3 with k3 | ⟨rv, k3⟩
      · exact Inv_congr c1 _ (coreOf_eq_of_managed _ _ k1) k3 hinv1
      · exact Inv_after_write c1 _ finalizers (projectKey managedProject)
          ((appProject.SetResourceVersion found.GetResourceVersion).SetResourceVersion rv)
          hinv1 (hcore1.trans hcore) hfin (coreOf_eq_of_managed _ _ k1)
          (by rw [isAt_SetResourceVersion]; exact hobj) (Or.inr (Or.inr k3))
    rcases hu : UpdateProject (appProject.SetResourceVersion found.GetResourceVersion) c1
      with ⟨ures, c2⟩
    rw [hu] at hinv2
    simp only at hinv2
    cases ures with
    | some uerr =>
      dsimp only
      obtain ⟨u1, -, u3⟩ := updateStatus_frame marshal managedProject phaseFailed
        ("Failed to update project: " ++ uerr.Error) "" c2
      exact Inv_congr c2 _ u3 u1 hinv2
    | none =>
      dsimp only
      obtain ⟨u1, -, u3⟩ := updateStatus_frame marshal managedProject phaseReady
        "ArgoCD AppProject updated successfully" renderedYAML c2
      exact Inv_congr c2 _ u3 u1 hinv2

end Cluster


theorem AddFinalizer_contains (o : ManagedArgoCDProject) (finalizer : String) :
    (AddFinalizer o finalizer).Finalizers.contains finalizer = true := by
  unfold AddFinalizer
  split
  · assumption
  · simp

namespace Cluster

theorem renderAndSync_Inv (marshal : GoMap → Except GoError String)
    (managedProject : ManagedArgoCDProject) (c : Cluster) (calls : List Call)
    (out : Outcome Cluster) (finalizers : List String)
    (hrun : renderAndSync (reconciler marshal) managedProject c calls = Run.done out)
    (hfc : FaultsConsistent c.faults)
    (hcore : coreOf c = some (finalizers, projectKey managedProject))
    (hfin : finalizers.contains finalizerName = true)
    (hinv : Inv c) : Inv out.state := by
  unfold renderAndSync at hrun
  cases hload : loadTemplate managedProject.Spec.Template with
  | error err =>
    rw [hload] at hrun
    simp only [Run.done.injEq] at hrun
    subst hrun
    obtain ⟨u1, -, u3⟩ := updateStatus_frame marshal managedProject phaseFailed
      ("Failed to load template: " ++ err.Error) "" c
    exact Inv_congr c _ u3 u1 hinv
  | ok template =>
    obtain ⟨spec, hrender⟩ := renderArgoCDProject_catalog managedProject _ template hload
    rw [hload] at hrun
    simp only [hrender] at hrun
    cases hset : SetControllerReference managedProject (documentWith managedProject spec)
        (reconciler marshal).Scheme with
    | error err =>
      rw [hset] at hrun
      simp only [Run.done.injEq] at hrun
      subst hrun
      exact hinv
    | ok appProject =>
      rw [hset] at hrun
      simp only [Run.done.injEq] at hrun
      subst hrun
      refine syncArgoCDProject_Inv marshal managedProject appProject _ c calls finalizers hfc
        hcore hfin ?_ hinv
      rw [SetControllerReference_isAt _ _ _ _ _ _ hset]
      exact isAt_documentWith managedProject spec

theorem removeFirst_of_find (p : Unstructured → Bool) (d : Unstructured) (h : p d = true) :
    removeFirst p [d] = [] := by
  simp [removeFirst, h]

theorem deleteArgoCDProject_frame (marshal : GoMap → Except GoError String)
    (managedProject : ManagedArgoCDProject) (c : Cluster) (finalizers : List String)
    (hfc : FaultsConsistent c.faults)
    (hcore : coreOf c = some (finalizers, projectKey managedProject))
    (hinv : Inv c) :
    coreOf (deleteArgoCDProject (reconciler marshal) managedProject c).2.1 = coreOf c ∧
      ((deleteArgoCDProject (reconciler marshal) managedProject c).1 = none →
        (deleteArgoCDProject (reconciler marshal) managedProject c).2.1.projects = []) ∧
      (∀ e, (deleteArgoCDProject (reconciler marshal) managedProject c).1 = some e →
        (deleteArgoCDProject (reconciler marshal) managedProject c).2.1.projects = c.projects) := by
  unfold deleteArgoCDProject
  dsimp only [reconciler]
  rw [emptyProject_gvk]
  rw [show ({ Namespace := managedProject.Namespace, Name := managedProject.Spec.ProjectName }
    : NamespacedName) = projectKey managedProject from rfl]
  obtain ⟨g1, g2, g3, g4, g5⟩ := GetProject_frame appProjectGVK (projectKey managedProject) c
  rcases hg : GetProject appProjectGVK (projectKey managedProject) c with ⟨res, c1⟩
  rw [hg] at g1 g2 g3 g4 g5
  simp only at g1 g2 g3 g4 g5
  have hcore1 : coreOf c1 = coreOf c := coreOf_eq_of_managed c c1 g1
  cases res with
  | error err =>
    dsimp only
    by_cases hnf : IsNotFound err = true
    · rw [if_pos hnf]
      have hfind := g5 err rfl hnf hfc
      refine ⟨hcore1, fun _ => ?_, by simp⟩
      rw [g2]
      exact projects_empty_of_find_none c finalizers _ hinv hcore hfind
    · rw [if_neg hnf]
      exact ⟨hcore1, by simp, fun _ _ => g2⟩
  | ok found =>
    dsimp only
    obtain ⟨k1, -, k3, k4⟩ := DeleteProject_frame found c1
    refine ⟨(coreOf_eq_of_managed _ _ k1).trans hcore1, ?_, ?_⟩
    · intro hnone
      rw [k4 hnone, g2]
      have hfind := g4 found rfl
      have hat : isAt appProjectGVK (projectKey managedProject) found = true :=
        List.find?_some hfind
      rw [isAt_eq_of_isAt _ _ _ hat]
      rcases hinv with hempty | ⟨fs, key', d, hcore2, -, hprojects, hd⟩
      · rw [hempty] at hfind
        simp at hfind
      · rw [hprojects]
        rw [hcore] at hcore2
        simp only [Option.some.injEq, Prod.mk.injEq] at hcore2
        obtain ⟨-, rfl⟩ := hcore2
        exact removeFirst_of_find _ _ hd
    · intro e he
      rw [k3 e he, g2]

theorem Reconcile_Inv (marshal : GoMap → Except GoError String) (req : Request) (c : Cluster)
    (out : Outcome Cluster)
    (hrun : Reconcile (reconciler marshal) req c = Run.done out)
    (hfc : FaultsConsistent c.faults) (hinv : Inv c) : Inv out.state := by
  unfold Reconcile at hrun
  dsimp only [reconciler] at hrun
  obtain ⟨g1, g2, g3, g4⟩ := Get_frame req.NamespacedName c
  rcases hg : Get req.NamespacedName c with ⟨res, c1⟩
  rw [hg] at hrun g1 g2 g3 g4
  simp only at g1 g2 g3 g4
  have hcore1 : coreOf c1 = coreOf c := coreOf_eq_of_managed c c1 g1
  have hinv1 : Inv c1 := Inv_congr c c1 hcore1 g2 hinv
  have hfc1 := g3 hfc
  cases res with
  | error err =>
    dsimp only at hrun
    split at hrun <;>
    · simp only [Run.done.injEq] at hrun
      subst hrun
      exact hinv1
  | ok fetched =>
    have hmanaged : c1.managed = some fetched := by rw [g1]; exact g4 fetched rfl
    have hcoreF : coreOf c1 = some (fetched.Finalizers, projectKey fetched) := by
      simp [coreOf, hmanaged]
    dsimp only at hrun
    by_cases hlive : IsZero fetched.DeletionTimestamp = true
    · rw [if_pos hlive] at hrun
      by_cases hfin : ContainsFinalizer fetched finalizerName = true
      · simp only [hfin, Bool.not_true, Bool.false_eq_true, if_false] at hrun
        exact renderAndSync_Inv marshal fetched c1 _ out fetched.Finalizers hrun hfc1 hcoreF
          hfin hinv1
      · simp only [Bool.not_eq_true] at hfin
        simp only [hfin, Bool.not_false, if_true] at hrun
        obtain ⟨k1, k2, k3, -, k5⟩ := Update_frame (AddFinalizer fetched finalizerName) c1
        rcases hu : Update (AddFinalizer fetched finalizerName) c1 with ⟨ures, c2⟩
        rw [hu] at hrun k1 k2 k3 k5
        simp only at k1 k2 k3 k5
        cases ures with
        | error uerr =>
          simp only [Run.done.injEq] at hrun
          subst hrun
          exact Inv_congr c1 c2 (coreOf_eq_of_managed _ _ (k3 uerr rfl)) k1 hinv1
        | ok rv =>
          dsimp only at hrun
          have hcore2 := k5 rv fetched rfl hmanaged hlive
          have hfin2 : (AddFinalizer fetched finalizerName).Finalizers.contains finalizerName
              = true := by
            exact AddFinalizer_contains fetched finalizerName
          have hempty : c1.projects = [] := by
            rcases hinv1 with h | ⟨fs, key, d, hc, hf, -, -⟩
            · exact h
            · rw [hcoreF] at hc
              simp only [Option.some.injEq, Prod.mk.injEq] at hc
              obtain ⟨rfl, -⟩ := hc
              unfold ContainsFinalizer at hfin
              rw [hfin] at hf
              cases hf
          refine renderAndSync_Inv marshal _ c2 _ out
            (AddFinalizer fetched finalizerName).Finalizers hrun (k2 hfc1) ?_ hfin2
            (Inv_of_empty c2 (k1.trans hempty))
          rw [hcore2]
          rfl
    · rw [if_neg hlive] at hrun
      by_cases hfin : ContainsFinalizer fetched finalizerName = true
      · rw [if_pos hfin] at hrun
        obtain ⟨d1, d2, d3⟩ :=
          deleteArgoCDProject_frame marshal fetched c1 fetched.Finalizers hfc1 hcoreF hinv1
        rcases hd : deleteArgoCDProject (reconciler marshal) fetched c1 with ⟨dres, c2, cs⟩
        have hd' : deleteArgoCDProject
            { Get := Get, Update := Update, StatusUpdate := StatusUpdate,
              GetProject := GetProject, CreateProject := CreateProject,
              UpdateProject := UpdateProject, DeleteProject := DeleteProject,
              Scheme := { GVKForObject := Except.ok managedGVK }, Marshal := marshal,
              Now := Now } fetched c1 = (dres, c2, cs) := hd
        rw [hd] at d1 d2 d3
        rw [hd'] at hrun
        simp only at d1 d2 d3
        cases dres with
        | some derr =>
          simp only [Run.done.injEq] at hrun
          subst hrun
          exact Inv_congr c1 c2 d1 (d3 derr rfl) hinv1
        | none =>
          dsimp only at hrun
          have hempty := d2 rfl
          obtain ⟨k1, -, -, -, -⟩ := Update_frame (RemoveFinalizer fetched finalizerName) c2
          split at hrun <;>
          · rename_i heq
            simp only [Run.done.injEq] at hrun
            subst hrun
            have hs := congrArg (fun p => p.2.projects) heq
            simp only at hs
            exact Inv_of_empty _ (by rw [← hs, k1, hempty])
      · rw [if_neg hfin] at hrun
        simp only [Run.done.injEq] at hrun
        subst hrun
        exact hinv1

theorem requestDeletion_Inv (t : Time) (c : Cluster) (hinv : Inv c) :
    Inv (requestDeletion t c) := by
  unfold requestDeletion
  cases hm : c.managed with
  | none => exact hinv
  | some m =>
    dsimp only
    by_cases hnone : m.Finalizers = []
    · rw [if_pos hnone]
      rcases hinv with h | ⟨fs, key, d, hc, hf, -, -⟩
      · exact Or.inl h
      · simp only [coreOf, hm, Option.map_some', Option.some.injEq, Prod.mk.injEq] at hc
        obtain ⟨rfl, -⟩ := hc
        rw [hnone] at hf
        simp at hf
    · rw [if_neg hnone]
      split
      · refine Inv_congr c _ ?_ rfl hinv
        simp [coreOf, hm, projectKey]
      · exact hinv

theorem Reachable_Inv (marshal : GoMap → Except GoError String) (c : Cluster)
    (h : Reachable marshal c) : Inv c := by
  induction h with
  | init c hempty => exact Or.inl hempty
  | step c c' _ hstep ih =>
    cases hstep with
    | reconcile req faults out hfaults hrun =>
      exact Reconcile_Inv marshal req { c with faults := faults } out hrun hfaults
        (Inv_congr c _ rfl rfl ih)
    | requestDeletion t => exact requestDeletion_Inv t c ih

theorem Inv_finalizer (c : Cluster) (hinv : Inv c) :
    ∀ d ∈ c.projects, ∃ m, c.managed = some m ∧ ContainsFinalizer m finalizerName = true ∧
      isAt appProjectGVK (projectKey m) d = true := by
  intro d hd
  rcases hinv with h | ⟨fs, key, d', hc, hf, hp, hat⟩
  · rw [h] at hd
    cases hd
  · rw [hp] at hd
    simp only [List.mem_singleton] at hd
    subst hd
    cases hm : c.managed with
    | none => simp [coreOf, hm] at hc
    | some m =>
      simp only [coreOf, hm, Option.map_some', Option.some.injEq, Prod.mk.injEq] at hc
      obtain ⟨rfl, rfl⟩ := hc
      exact ⟨m, rfl, hf, hat⟩

end Cluster


/-! ## The finalizer is present before a derived document is written -/

theorem syncArgoCDProject_calls {σ : Type} (r : ManagedArgoCDProjectReconciler σ)
    (managedProject : ManagedArgoCDProject) (appProject : Unstructured) (renderedYAML : String)
    (w : σ) (calls : List Call) :
    ∃ extra, (syncArgoCDProject r managedProject appProject renderedYAML w calls).calls
      = calls ++ extra := by
  unfold syncArgoCDProject
  dsimp only
  split
  · split
    · split
      · exact ⟨_, (List.append_assoc _ _ _).trans (List.append_assoc _ _ _)⟩
      · exact ⟨_, (List.append_assoc _ _ _).trans (List.append_assoc _ _ _)⟩
    · exact ⟨_, rfl⟩
  · split
    · exact ⟨_, (List.append_assoc _ _ _).trans (List.append_assoc _ _ _)⟩
    · exact ⟨_, (List.append_assoc _ _ _).trans (List.append_assoc _ _ _)⟩

theorem renderAndSync_calls {σ : Type} (r : ManagedArgoCDProjectReconciler σ)
    (managedProject : ManagedArgoCDProject) (w : σ) (calls : List Call) (out : Outcome σ)
    (h : renderAndSync r managedProject w calls = Run.done out) :
    ∃ extra, out.calls = calls ++ extra := by
  unfold renderAndSync at h
  split at h
  · simp only [Run.done.injEq] at h
    subst h
    exact ⟨_, rfl⟩
  · split at h
    · simp at h
    · simp only [Run.done.injEq] at h
      subst h
      exact ⟨_, rfl⟩
    · dsimp only at h
      split at h
      · simp only [Run.done.injEq] at h
        subst h
        exact ⟨[], by simp⟩
      · simp only [Run.done.injEq] at h
        subst h
        exact syncArgoCDProject_calls _ _ _ _ _ _

theorem Reconcile_finalizer_first {σ : Type} (r : ManagedArgoCDProjectReconciler σ)
    (req : Request) (w w1 : σ) (fetched : ManagedArgoCDProject)
    (hget : r.Get req.NamespacedName w = (Except.ok fetched, w1))
    (hlive : IsZero fetched.DeletionTimestamp = true) :
    ∃ out, Reconcile r req w = Run.done out ∧
      (∀ pre c post, out.calls = pre ++ c :: post → c.isProjectWrite = true →
        ContainsFinalizer fetched finalizerName = true ∨
          (Call.update (AddFinalizer fetched finalizerName) none ∈ pre ∧
            ContainsFinalizer (AddFinalizer fetched finalizerName) finalizerName = true)) ∧
      (ContainsFinalizer fetched finalizerName = false →
        ∃ rest, out.calls
          = Call.get req.NamespacedName none
            :: Call.update (AddFinalizer fetched finalizerName)
                (match (r.Update (AddFinalizer fetched finalizerName) w1).1 with
                  | Except.error err => some err
                  | Except.ok _ => none)
            :: rest) ∧
      (ContainsFinalizer fetched finalizerName = false →
        ∀ err, (r.Update (AddFinalizer fetched finalizerName) w1).1 = Except.error err →
          out.err = some err ∧ ∀ c ∈ out.calls, c.isProjectWrite = false) := by
  obtain ⟨out, hout⟩ := Reconcile_done r req w
  refine ⟨out, hout, ?_, ?_, ?_⟩
  · intro pre c post hcalls hwrite
    rcases Reconcile_cases r req w out hout with hno | ⟨fetched', w1', mp, doc, yaml, w2, calls,
      hget', -, hsync, hshape⟩
    · have hc : c ∈ out.calls := by rw [hcalls]; simp
      rw [hno c hc] at hwrite
      cases hwrite
    · rw [hget] at hget'
      simp only [Prod.mk.injEq, Except.ok.injEq] at hget'
      obtain ⟨rfl, rfl⟩ := hget'
      rcases hshape with ⟨hfin, -⟩ | ⟨hfin, rv, -, -, hc⟩
      · exact Or.inl hfin
      · right
        refine ⟨?_, AddFinalizer_contains fetched finalizerName⟩
        obtain ⟨extra, hextra⟩ := syncArgoCDProject_calls r mp doc yaml w2 calls
        rw [← hsync, hcalls, hc] at hextra
        match pre, hextra with
        | [], hextra =>
          simp only [List.nil_append, List.cons_append, List.cons.injEq] at hextra
          rw [hextra.1] at hwrite
          cases hwrite
        | [x], hextra =>
          simp only [List.cons_append, List.nil_append, List.cons.injEq] at hextra
          rw [hextra.2.1] at hwrite
          cases hwrite
        | x :: y :: pre', hextra =>
          simp only [List.cons_append, List.nil_append, List.cons.injEq] at hextra
          rw [hextra.2.1]
          simp
  · intro hfin
    simp only [Reconcile, hget, hlive, hfin, Bool.not_false, if_true] at hout
    rcases hupd : r.Update (AddFinalizer fetched finalizerName) w1 with ⟨ures, w2⟩
    rw [hupd] at hout
    cases ures with
    | error uerr =>
      simp only [Run.done.injEq] at hout
      subst hout
      exact ⟨[], rfl⟩
    | ok rv =>
      dsimp only at hout
      obtain ⟨extra, hextra⟩ := renderAndSync_calls r _ w2 _ out hout
      exact ⟨extra, by rw [hextra]; rfl⟩
  · intro hfin err hupd
    simp only [Reconcile, hget, hlive, hfin, Bool.not_false, if_true] at hout
    rcases hupd' : r.Update (AddFinalizer fetched finalizerName) w1 with ⟨ures, w2⟩
    rw [hupd'] at hout hupd
    simp only at hupd
    subst hupd
    simp only [Run.done.injEq] at hout
    subst hout
    simp [Call.isProjectWrite]

/-- C6: on a managed record without deletion marker, every create or update
of the derived document in the calls of `Reconcile` comes after the record
carried the finalizer in the store, because it was fetched with it or because
a successful update that adds it precedes the write; when the finalizer is
absent, the update that adds it is the first call after the fetch, and when
that update fails `Reconcile` returns its error and issues no create or
update of the derived document.  Consequently, in every store state reachable
from a store without derived documents by `Reconcile` invocations under any
consistent failures (and by deletion requests), every derived document
belongs to a managed record that holds the finalizer. -/
theorem Reconcile_finalizer_before_document {σ : Type} (r : ManagedArgoCDProjectReconciler σ)
    (req : Request) (w w1 : σ) (fetched : ManagedArgoCDProject)
    (hget : r.Get req.NamespacedName w = (Except.ok fetched, w1))
    (hlive : IsZero fetched.DeletionTimestamp = true) :
    (∃ out, Reconcile r req w = Run.done out ∧
      (∀ pre c post, out.calls = pre ++ c :: post → c.isProjectWrite = true →
        ContainsFinalizer fetched finalizerName = true ∨
          (Call.update (AddFinalizer fetched finalizerName) none ∈ pre ∧
            ContainsFinalizer (AddFinalizer fetched finalizerName) finalizerName = true)) ∧
      (ContainsFinalizer fetched finalizerName = false →
        ∃ rest, out.calls
          = Call.get req.NamespacedName none
            :: Call.update (AddFinalizer fetched finalizerName)
                (match (r.Update (AddFinalizer fetched finalizerName) w1).1 with
                  | Except.error err => some err
                  | Except.ok _ => none)
            :: rest) ∧
      (ContainsFinalizer fetched finalizerName = false →
        ∀ err, (r.Update (AddFinalizer fetched finalizerName) w1).1 = Except.error err →
          out.err = some err ∧ ∀ c ∈ out.calls, c.isProjectWrite = false)) ∧
    (∀ (marshal : GoMap → Except GoError String) (c : Cluster), Cluster.Reachable marshal c →
      ∀ d ∈ c.projects, ∃ m, c.managed = some m ∧ ContainsFinalizer m finalizerName = true ∧
        Cluster.isAt appProjectGVK (projectKey m) d = true) :=
  ⟨Reconcile_finalizer_first r req w w1 fetched hget hlive,
    fun marshal c hc => Cluster.Inv_finalizer c (Cluster.Reachable_Inv marshal c hc)⟩


/-- C6 at the example record, which is fetched without finalizer, and at the
store that its first `Reconcile` leaves behind. -/
theorem Reconcile_finalizer_before_document_witness :
    IsZero exampleProject.DeletionTimestamp = true ∧
      ContainsFinalizer exampleProject finalizerName = false ∧
      (∃ out, Reconcile (Cluster.reconciler exampleMarshal) exampleRequest exampleCluster
          = Run.done out ∧
        (∀ pre c post, out.calls = pre ++ c :: post → c.isProjectWrite = true →
          ContainsFinalizer exampleProject finalizerName = true ∨
            (Call.update (AddFinalizer exampleProject finalizerName) none ∈ pre ∧
              ContainsFinalizer (AddFinalizer exampleProject finalizerName) finalizerName
                = true))) ∧
      (∀ d ∈ syncedCluster.projects, ∃ m, syncedCluster.managed = some m ∧
        ContainsFinalizer m finalizerName = true ∧
        Cluster.isAt appProjectGVK (projectKey m) d = true) := by
  obtain ⟨⟨out, hout, hfirst, -⟩, hreach⟩ :=
    Reconcile_finalizer_before_document (Cluster.reconciler exampleMarshal) exampleRequest
      exampleCluster exampleCluster exampleProject rfl rfl
  refine ⟨rfl, rfl, ⟨out, hout, hfirst⟩, hreach exampleMarshal syncedCluster ?_⟩
  obtain ⟨out', hout'⟩ := Reconcile_done (Cluster.reconciler exampleMarshal) exampleRequest
    exampleCluster
  have hstate : syncedCluster = out'.state := by
    unfold syncedCluster
    rw [hout']
    rfl
  rw [hstate]
  exact Cluster.Reachable.step exampleCluster out'.state
    (Cluster.Reachable.init exampleCluster rfl)
    (Cluster.Step.reconcile exampleCluster exampleRequest [] out'
      (fun err herr => by cases herr) hout')


/-! ## Reconciling twice -/

namespace Unstructured

theorem HasMetadata_setMetadataField (u : Unstructured) (field : String) (value : Value)
    (h : u.HasMetadata) : (u.setMetadataField field value).HasMetadata := by
  obtain ⟨md, hmd⟩ := h
  exact ⟨GoMap.set md field value, by simp [setMetadataField, hmd, GoMap.lookup_set_same]⟩

theorem GetResourceVersion_SetResourceVersion (u : Unstructured) (rv : String)
    (h : u.HasMetadata) : (u.SetResourceVersion rv).GetResourceVersion = rv := by
  obtain ⟨md, hmd⟩ := h
  unfold SetResourceVersion
  split
  · rename_i hrv
    have hempty : rv = "" := by
      cases rv
      simp_all
    simp [GetResourceVersion, removeMetadataField, getMetadataString, hmd,
      GoMap.lookup_set_same, GoMap.lookup_erase_same, hempty]
  · simp [GetResourceVersion, setMetadataField, getMetadataString, hmd,
      GoMap.lookup_set_same]

theorem metadataField_removeMetadataField_ne (u : Unstructured) (field g : String)
    (h : field ≠ g) :
    (u.removeMetadataField field).metadataField g = u.metadataField g := by
  cases hmd : u.Object.lookup "metadata" with
  | none => simp [removeMetadataField, hmd]
  | some x =>
    cases x with
    | map md =>
      simp [removeMetadataField, metadataField, hmd, GoMap.lookup_set_same,
        GoMap.lookup_erase_ne _ _ _ h]
    | _ => simp [removeMetadataField, hmd]

theorem metadataField_setMetadataField_ne (u : Unstructured) (field g : String)
    (value : Value) (h : field ≠ g) :
    (u.setMetadataField field value).metadataField g = u.metadataField g := by
  cases hmd : u.Object.lookup "metadata" with
  | none =>
    simp [setMetadataField, metadataField, hmd, GoMap.lookup_set_same, GoMap.lookup, h]
  | some x =>
    cases x with
    | map md =>
      simp [setMetadataField, metadataField, hmd, GoMap.lookup_set_same,
        GoMap.lookup_set_ne _ _ _ _ h]
    | _ => simp [setMetadataField, hmd]

end Unstructured

theorem SameContent_refl (a : Unstructured) : SameContent a a :=
  ⟨fun _ _ => rfl, fun _ _ => rfl⟩

theorem SameContent_trans (a b c : Unstructured) (h1 : SameContent a b)
    (h2 : SameContent b c) : SameContent a c :=
  ⟨fun k hk => (h1.1 k hk).trans (h2.1 k hk), fun f hf => (h1.2 f hf).trans (h2.2 f hf)⟩

theorem SameContent_symm (a b : Unstructured) (h : SameContent a b) : SameContent b a :=
  ⟨fun k hk => (h.1 k hk).symm, fun f hf => (h.2 f hf).symm⟩

theorem SameContent_SetResourceVersion (a : Unstructured) (rv : String) :
    SameContent (a.SetResourceVersion rv) a := by
  unfold Unstructured.SetResourceVersion
  split
  · exact ⟨fun k hk => Unstructured.lookup_removeMetadataField_ne a _ k (Ne.symm hk),
      fun f hf => Unstructured.metadataField_removeMetadataField_ne a _ f (Ne.symm hf)⟩
  · exact ⟨fun k hk => Unstructured.lookup_setMetadataField_ne a _ k _ (Ne.symm hk),
      fun f hf => Unstructured.metadataField_setMetadataField_ne a _ f _ (Ne.symm hf)⟩

theorem getMetadataString_eq_metadataField (u : Unstructured) (field : String) :
    u.getMetadataString field = match u.metadataField field with
      | some (Value.str s) => s
      | _ => "" := by
  unfold Unstructured.getMetadataString Unstructured.metadataField
  split <;> simp_all

theorem GetOwnerReferences_eq_metadataField (u : Unstructured) :
    u.GetOwnerReferences = match u.metadataField "ownerReferences" with
      | some (Value.slice original) =>
        (match Unstructured.extractOwnerReferences original with
          | some refs => refs
          | none => [])
      | _ => [] := by
  unfold Unstructured.GetOwnerReferences Unstructured.metadataField
  split <;> simp_all

theorem SameDocument_of_SameContent (a b : Unstructured) (h : SameContent a b) :
    SameDocument a b := by
  obtain ⟨h1, h2⟩ := h
  refine ⟨?_, ?_, ?_, ?_, h2 "labels" (by decide), ?_, h1 "spec" (by decide)⟩
  · simp only [Unstructured.GetAPIVersion, h1 "apiVersion" (by decide)]
  · simp only [Unstructured.GetKind, h1 "kind" (by decide)]
  · simp only [Unstructured.GetName, getMetadataString_eq_metadataField, h2 "name" (by decide)]
  · simp only [Unstructured.GetNamespace, getMetadataString_eq_metadataField,
      h2 "namespace" (by decide)]
  · simp only [GetOwnerReferences_eq_metadataField, h2 "ownerReferences" (by decide)]


namespace Cluster

theorem popFault_nil (c : Cluster) (h : c.faults = []) : c.popFault = (none, c) := by
  unfold popFault
  rw [h]

theorem Get_exact (key : NamespacedName) (c : Cluster) (m : ManagedArgoCDProject)
    (hf : c.faults = []) (hm : c.managed = some m) (hns : m.Namespace = key.Namespace)
    (hname : m.Name = key.Name) : Get key c = (Except.ok m, c) := by
  unfold Get
  rw [popFault_nil c hf]
  simp [hm, hns, hname]

theorem Update_exact (obj : ManagedArgoCDProject) (c : Cluster) (m : ManagedArgoCDProject)
    (hf : c.faults = []) (hm : c.managed = some m) (hns : obj.Namespace = m.Namespace)
    (hname : obj.Name = m.Name) (hrv : obj.ResourceVersion = m.ResourceVersion)
    (hlive : IsZero m.DeletionTimestamp = true) :
    Update obj c = (Except.ok c.nextVersion,
      { c with
        managed := some
          { m with Finalizers := obj.Finalizers, Spec := obj.Spec,
                   ResourceVersion := c.nextVersion,
                   Generation := if obj.Spec = m.Spec then m.Generation else m.Generation + 1 },
        version := c.version + 1 }) := by
  unfold Update
  rw [popFault_nil c hf]
  simp [hm, hns, hname, hrv, hlive]

theorem StatusUpdate_ident (obj : ManagedArgoCDProject) (c : Cluster) :
    (c.faults = [] → (StatusUpdate obj c).2.faults = []) ∧
      identOf (StatusUpdate obj c).2 = identOf c := by
  unfold StatusUpdate
  cases hfaults : c.faults with
  | nil =>
    rw [popFault_nil c hfaults]
    dsimp only
    cases hm : c.managed with
    | none => exact ⟨fun _ => hfaults, rfl⟩
    | some m =>
      dsimp only
      split
      · split
        · exact ⟨fun _ => hfaults, rfl⟩
        · exact ⟨fun _ => hfaults, by simp [identOf, hm]⟩
      · exact ⟨fun _ => hfaults, rfl⟩
  | cons f rest =>
    have hp : c.popFault = (f, { c with faults := rest }) := by
      unfold popFault
      rw [hfaults]
    rw [hp]
    cases f with
    | some err => exact ⟨by simp, rfl⟩
    | none =>
      dsimp only
      cases hm : c.managed with
      | none => exact ⟨by simp, by simp [identOf, hm]⟩
      | some m =>
        dsimp only
        split
        · split
          · exact ⟨by simp, by simp [identOf, hm]⟩
          · exact ⟨by simp, by simp [identOf, hm]⟩
        · exact ⟨by simp, by simp [identOf, hm]⟩

theorem updateStatus_ident (marshal : GoMap → Except GoError String)
    (managedProject : ManagedArgoCDProject) (phase message renderedYAML : String) (c : Cluster) :
    (c.faults = [] →
      (updateStatus (reconciler marshal) managedProject phase message renderedYAML c).2.1.faults
        = []) ∧
      identOf (updateStatus (reconciler marshal) managedProject phase message renderedYAML c).2.1
        = identOf c := by
  unfold updateStatus
  dsimp only
  have key : ∀ (obj : ManagedArgoCDProject) (c1 : Cluster),
      c1.faults = c.faults → identOf c1 = identOf c →
      (c.faults = [] → (StatusUpdate obj c1).2.faults = []) ∧
        identOf (StatusUpdate obj c1).2 = identOf c := by
    intro obj c1 h1 h2
    obtain ⟨f1, f2⟩ := StatusUpdate_ident obj c1
    exact ⟨fun h => f1 (h1.trans h), f2.trans h2⟩
  split
  · rename_i err w heq
    have hw := congrArg Prod.snd heq
    simp only at hw
    rw [← hw]
    by_cases hp : phase = phaseReady
    · simp only [hp, if_true]
      exact key _ _ rfl rfl
    · simp only [hp, if_false]
      exact key _ _ rfl rfl
  · rename_i rv w heq
    have hw := congrArg Prod.snd heq
    simp only at hw
    rw [← hw]
    by_cases hp : phase = phaseReady
    · simp only [hp, if_true]
      exact key _ _ rfl rfl
    · simp only [hp, if_false]
      exact key _ _ rfl rfl

theorem GetProject_exact (gvk : GroupVersionKind) (key : NamespacedName) (c : Cluster)
    (hf : c.faults = []) :
    GetProject gvk key c
      = (match c.projects.find? (isAt gvk key) with
          | some u => Except.ok u
          | none => Except.error notFound, c) := by
  unfold GetProject
  rw [popFault_nil c hf]
  dsimp only
  split <;> rfl

theorem CreateProject_exact (obj : Unstructured) (c : Cluster) (hf : c.faults = [])
    (hfind : c.projects.find? (isAt obj.GroupVersionKind (keyOf obj)) = none) :
    CreateProject obj c
      = (none, { c with projects := c.projects ++ [obj.SetResourceVersion c.nextVersion],
                        version := c.version + 1 }) := by
  unfold CreateProject
  rw [popFault_nil c hf]
  simp [hfind]

theorem UpdateProject_exact (obj existing : Unstructured) (c : Cluster) (hf : c.faults = [])
    (hfind : c.projects.find? (isAt obj.GroupVersionKind (keyOf obj)) = some existing)
    (hrv : obj.GetResourceVersion = existing.GetResourceVersion) :
    UpdateProject obj c
      = (none, { c with projects := replaceFirst (isAt obj.GroupVersionKind (keyOf obj))
                                      (obj.SetResourceVersion c.nextVersion) c.projects,
                        version := c.version + 1 }) := by
  unfold UpdateProject
  rw [popFault_nil c hf]
  simp [hfind, hrv]

theorem HasMetadata_documentWith (m : ManagedArgoCDProject) (spec : GoMap) :
    (documentWith m spec).HasMetadata :=
  ⟨_, rfl⟩

theorem HasMetadata_desired (m : ManagedArgoCDProject) (spec : GoMap) :
    (desired m spec).HasMetadata :=
  Unstructured.HasMetadata_setMetadataField _ _ _ (HasMetadata_documentWith m spec)

theorem isAt_desired (m : ManagedArgoCDProject) (spec : GoMap) :
    isAt appProjectGVK (projectKey m) (desired m spec) = true := by
  unfold desired Unstructured.SetOwnerReferences
  rw [isAt_setMetadataField _ _ _ _ _ (by decide) (by decide)]
  exact isAt_documentWith m spec

theorem SetControllerReference_exact (marshal : GoMap → Except GoError String)
    (m : ManagedArgoCDProject) (spec : GoMap) :
    SetControllerReference m (documentWith m spec) (reconciler marshal).Scheme
      = Except.ok (desired m spec) := by
  have hns : (documentWith m spec).GetNamespace = m.Namespace := by
    simp [documentWith, Unstructured.GetNamespace, Unstructured.getMetadataString, GoMap.lookup]
  have hrefs : (documentWith m spec).GetOwnerReferences = [] := by
    simp [documentWith, Unstructured.GetOwnerReferences, GoMap.lookup]
  unfold SetControllerReference
  rw [hns, hrefs]
  simp [reconciler, desired, ownerReferenceOf, upsertOwnerRef]

theorem desired_congr (a b : ManagedArgoCDProject) (spec : GoMap)
    (hns : a.Namespace = b.Namespace) (hname : a.Name = b.Name) (huid : a.UID = b.UID)
    (hspec : a.Spec = b.Spec) : desired a spec = desired b spec := by
  simp [desired, documentWith, ownerReferenceOf, hns, hname, huid, hspec]

end Cluster


namespace Cluster

theorem find_append_of_none (p : Unstructured → Bool) (l : List Unstructured) (x : Unstructured)
    (hl : l.find? p = none) (hx : p x = true) :
    (l ++ [x]).find? p = some x ∧ (l ++ [x]).filter p = [x] := by
  have hnone : ∀ y ∈ l, p y = false := by
    intro y hy
    have := List.find?_eq_none.mp hl y hy
    simpa using this
  refine ⟨?_, ?_⟩
  · rw [List.find?_append, hl]
    simp [List.find?, hx]
  · rw [List.filter_append, List.filter_eq_nil_iff.mpr (fun y hy => by simp [hnone y hy])]
    simp [hx]

theorem find_replaceFirst (p : Unstructured → Bool) (y : Unstructured) (hy : p y = true) :
    ∀ (l : List Unstructured) (found : Unstructured), l.find? p = some found →
      (replaceFirst p y l).find? p = some y ∧
        ((replaceFirst p y l).filter p).length = (l.filter p).length
  | [], _, h => by simp at h
  | x :: rest, found, h => by
    by_cases hx : p x = true
    · simp [replaceFirst, hx, hy, List.find?, List.filter]
    · simp only [Bool.not_eq_true] at hx
      have hrest : rest.find? p = some found := by
        simpa [List.find?, hx] using h
      obtain ⟨h1, h2⟩ := find_replaceFirst p y hy rest found hrest
      simp [replaceFirst, hx, List.find?, List.filter, h1, h2]

theorem filter_length_pos_of_find (p : Unstructured → Bool) (l : List Unstructured)
    (found : Unstructured) (h : l.find? p = some found) : 0 < (l.filter p).length := by
  have hmem : found ∈ l.filter p :=
    List.mem_filter.mpr ⟨List.mem_of_find?_eq_some h, List.find?_some h⟩
  exact List.length_pos_of_mem hmem

theorem syncArgoCDProject_exact (marshal : GoMap → Except GoError String)
    (managedProject : ManagedArgoCDProject) (D : Unstructured) (renderedYAML : String)
    (c : Cluster) (calls : List Call) (hf : c.faults = [])
    (hD : isAt appProjectGVK (projectKey managedProject) D = true) (hmeta : D.HasMetadata) :
    (syncArgoCDProject (reconciler marshal) managedProject D renderedYAML c calls).err = none ∧
      (syncArgoCDProject (reconciler marshal) managedProject D renderedYAML c calls).state.faults
        = [] ∧
      identOf (syncArgoCDProject (reconciler marshal) managedProject D renderedYAML c calls).state
        = identOf c ∧
      coreOf (syncArgoCDProject (reconciler marshal) managedProject D renderedYAML c calls).state
        = coreOf c ∧
      ((c.projects.find? (isAt appProjectGVK (projectKey managedProject)) = none ∧
          ∃ v, (syncArgoCDProject (reconciler marshal) managedProject D renderedYAML c
            calls).state.projects = c.projects ++ [D.SetResourceVersion v]) ∨
        (∃ found v, c.projects.find? (isAt appProjectGVK (projectKey managedProject))
            = some found ∧
          (syncArgoCDProject (reconciler marshal) managedProject D renderedYAML c
            calls).state.projects
            = replaceFirst (isAt appProjectGVK (projectKey managedProject))
                ((D.SetResourceVersion found.GetResourceVersion).SetResourceVersion v)
                c.projects ∧
          Call.updateProject (D.SetResourceVersion found.GetResourceVersion) none
            ∈ (syncArgoCDProject (reconciler marshal) managedProject D renderedYAML c
              calls).calls)) := by
  have hgvk : D.GroupVersionKind = appProjectGVK := by
    simp only [isAt, Bool.decide_and, Bool.and_eq_true, decide_eq_true_eq] at hD
    exact hD.1
  have hpred := isAt_eq_of_isAt _ _ _ hD
  unfold syncArgoCDProject
  dsimp only [reconciler]
  rw [hgvk, emptyProject_gvk]
  rw [show ({ Namespace := managedProject.Namespace, Name := managedProject.Spec.ProjectName }
    : NamespacedName) = projectKey managedProject from rfl]
  rw [GetProject_exact _ _ c hf]
  cases hfind : c.projects.find? (isAt appProjectGVK (projectKey managedProject)) with
  | none =>
    have hnf : IsNotFound notFound = true := rfl
    dsimp only
    rw [if_pos hnf, CreateProject_exact D c hf (by rw [hpred]; exact hfind)]
    dsimp only
    obtain ⟨u1, -, u3⟩ := updateStatus_frame marshal managedProject phaseReady
      "ArgoCD AppProject created successfully" renderedYAML
      { c with projects := c.projects ++ [D.SetResourceVersion c.nextVersion],
               version := c.version + 1 }
    obtain ⟨i1, i2⟩ := updateStatus_ident marshal managedProject phaseReady
      "ArgoCD AppProject created successfully" renderedYAML
      { c with projects := c.projects ++ [D.SetResourceVersion c.nextVersion],
               version := c.version + 1 }
    exact ⟨rfl, i1 hf, i2, u3, Or.inl ⟨rfl, _, u1⟩⟩
  | some found =>
    dsimp only
    have hobj : isAt appProjectGVK (projectKey managedProject)
        (D.SetResourceVersion found.GetResourceVersion) = true := by
      rw [isAt_SetResourceVersion]; exact hD
    have hpred2 := isAt_eq_of_isAt _ _ _ hobj
    rw [UpdateProject_exact (D.SetResourceVersion found.GetResourceVersion) found c hf
      (by rw [hpred2]; exact hfind)
      (Unstructured.GetResourceVersion_SetResourceVersion D _ hmeta)]
    dsimp only
    rw [hpred2]
    obtain ⟨u1, -, u3⟩ := updateStatus_frame marshal managedProject phaseReady
      "ArgoCD AppProject updated successfully" renderedYAML
      { c with projects := replaceFirst (isAt appProjectGVK (projectKey managedProject))
                 ((D.SetResourceVersion found.GetResourceVersion).SetResourceVersion
                   c.nextVersion) c.projects,
               version := c.version + 1 }
    obtain ⟨i1, i2⟩ := updateStatus_ident marshal managedProject phaseReady
      "ArgoCD AppProject updated successfully" renderedYAML
      { c with projects := replaceFirst (isAt appProjectGVK (projectKey managedProject))
                 ((D.SetResourceVersion found.GetResourceVersion).SetResourceVersion
                   c.nextVersion) c.projects,
               version := c.version + 1 }
    refine ⟨rfl, i1 hf, i2, u3, Or.inr ⟨found, _, rfl, u1, ?_⟩⟩
    simp

end Cluster


namespace Cluster

theorem documentWith_congr (a b : ManagedArgoCDProject) (spec : GoMap)
    (hns : a.Namespace = b.Namespace) (hspec : a.Spec = b.Spec) :
    documentWith a spec = documentWith b spec := by
  simp [documentWith, hns, hspec]

theorem renderAndSync_exact (marshal : GoMap → Except GoError String)
    (managedProject : ManagedArgoCDProject) (c : Cluster) (calls : List Call)
    (template spec : GoMap)
    (hload : loadTemplate managedProject.Spec.Template = Except.ok template)
    (hrender : renderArgoCDProject managedProject template
      = Run.done (documentWith managedProject spec, none)) :
    ∃ renderedYAML, renderAndSync (reconciler marshal) managedProject c calls
      = Run.done (syncArgoCDProject (reconciler marshal) managedProject
          (desired managedProject spec) renderedYAML c calls) := by
  unfold renderAndSync
  rw [hload]
  simp only [hrender]
  rw [SetControllerReference_exact]
  exact ⟨_, rfl⟩

/-- One invocation of `Reconcile` in a store without failures, for a live
record whose template resolves. -/
theorem Reconcile_run (marshal : GoMap → Except GoError String) (req : Request) (c : Cluster)
    (m : ManagedArgoCDProject) (template spec : GoMap)
    (hf : c.faults = []) (hm : c.managed = some m)
    (hns : m.Namespace = req.NamespacedName.Namespace) (hname : m.Name = req.NamespacedName.Name)
    (hlive : IsZero m.DeletionTimestamp = true)
    (hload : loadTemplate m.Spec.Template = Except.ok template)
    (hrender : renderArgoCDProject m template = Run.done (documentWith m spec, none)) :
    ∃ out, Reconcile (reconciler marshal) req c = Run.done out ∧ out.err = none ∧
      out.state.faults = [] ∧ identOf out.state = identOf c ∧
      ((c.projects.find? (isAt appProjectGVK (projectKey m)) = none ∧
          ∃ v, out.state.projects = c.projects ++ [(desired m spec).SetResourceVersion v]) ∨
        (∃ found v, c.projects.find? (isAt appProjectGVK (projectKey m)) = some found ∧
          out.state.projects
            = replaceFirst (isAt appProjectGVK (projectKey m))
                (((desired m spec).SetResourceVersion found.GetResourceVersion).SetResourceVersion
                  v) c.projects ∧
          Call.updateProject ((desired m spec).SetResourceVersion found.GetResourceVersion) none
            ∈ out.calls)) := by
  have hident : identOf c = some (m.Namespace, m.Name, m.UID, m.Spec, m.DeletionTimestamp) := by
    simp [identOf, hm]
  unfold Reconcile
  dsimp only [reconciler]
  rw [Get_exact req.NamespacedName c m hf hm hns hname]
  dsimp only
  rw [if_pos hlive]
  by_cases hfin : ContainsFinalizer m finalizerName = true
  · simp only [hfin, Bool.not_true, Bool.false_eq_true, if_false]
    obtain ⟨yaml, hrun⟩ := renderAndSync_exact marshal m c
      [Call.get req.NamespacedName none] template spec hload hrender
    obtain ⟨s1, s2, s3, -, s5⟩ := syncArgoCDProject_exact marshal m (desired m spec) yaml c
      [Call.get req.NamespacedName none] hf (isAt_desired m spec) (HasMetadata_desired m spec)
    exact ⟨_, hrun, s1, s2, s3, s5⟩
  · simp only [Bool.not_eq_true] at hfin
    simp only [hfin, Bool.not_false, if_true]
    have hadd : AddFinalizer m finalizerName
        = { m with Finalizers := m.Finalizers ++ [finalizerName] } := by
      unfold ContainsFinalizer at hfin
      unfold AddFinalizer
      rw [hfin]
      rfl
    rw [Update_exact (AddFinalizer m finalizerName) c m hf hm (by rw [hadd]) (by rw [hadd])
      (by rw [hadd]) hlive]
    dsimp only
    have hspec : (AddFinalizer m finalizerName).Spec = m.Spec := AddFinalizer_Spec m finalizerName
    have hmpns : (AddFinalizer m finalizerName).Namespace = m.Namespace := by rw [hadd]
    have hmpname : (AddFinalizer m finalizerName).Name = m.Name := by rw [hadd]
    have hmpuid : (AddFinalizer m finalizerName).UID = m.UID := by rw [hadd]
    generalize hmp : ({ AddFinalizer m finalizerName with ResourceVersion := c.nextVersion }
      : ManagedArgoCDProject) = mp
    have e1 : mp.Spec = m.Spec := by rw [← hmp]; exact hspec
    have e2 : mp.Namespace = m.Namespace := by rw [← hmp]; exact hmpns
    have e3 : mp.Name = m.Name := by rw [← hmp]; exact hmpname
    have e4 : mp.UID = m.UID := by rw [← hmp]; exact hmpuid
    have hkey : projectKey mp = projectKey m := by simp [projectKey, e1, e2]
    have hload' : loadTemplate mp.Spec.Template = Except.ok template := by rw [e1]; exact hload
    have hrender' : renderArgoCDProject mp template = Run.done (documentWith mp spec, none) := by
      rw [renderArgoCDProject_congr_aux mp m template e1 e2, hrender,
        documentWith_congr mp m spec e2 e1]
    generalize hc1 : ({ c with
        managed := some
          { m with Finalizers := (AddFinalizer m finalizerName).Finalizers,
                   Spec := (AddFinalizer m finalizerName).Spec,
                   ResourceVersion := c.nextVersion,
                   Generation := if (AddFinalizer m finalizerName).Spec = m.Spec
                     then m.Generation else m.Generation + 1 },
        version := c.version + 1 } : Cluster) = c1
    have hf1 : c1.faults = [] := by rw [← hc1]; exact hf
    have hp1 : c1.projects = c.projects := by rw [← hc1]
    have hi1 : identOf c1 = identOf c := by
      rw [← hc1, hident]
      simp [identOf, hspec]
    obtain ⟨yaml, hrun⟩ := renderAndSync_exact marshal mp c1
      ([Call.get req.NamespacedName none] ++ [Call.update (AddFinalizer m finalizerName) none])
      template spec hload' hrender'
    obtain ⟨s1, s2, s3, -, s5⟩ := syncArgoCDProject_exact marshal mp (desired mp spec) yaml c1
      ([Call.get req.NamespacedName none] ++ [Call.update (AddFinalizer m finalizerName) none])
      hf1 (isAt_desired mp spec) (HasMetadata_desired mp spec)
    rw [hkey, hp1, desired_congr mp m spec e2 e3 e4 e1] at s5
    rw [desired_congr mp m spec e2 e3 e4 e1] at hrun
    rw [desired_congr mp m spec e2 e3 e4 e1] at s1 s2 s3
    exact ⟨_, hrun, s1, s2, s3.trans hi1, s5⟩

end Cluster


/-- C7, amended: for a managed record without deletion marker whose template
resolves, in a store where every call succeeds and at most one document is
stored under the key of the record, two `Reconcile` invocations in a row both
return no error; the second one writes by an update, and both the document it
sends and the document the store then holds equal the document stored by the
first run in apiVersion, kind, name, namespace, labels, owner references and
spec, differing at most in the version token; exactly one derived document is
stored under the key of the record. -/
theorem Reconcile_twice (marshal : GoMap → Except GoError String) (req : Request)
    (c : Cluster) (m : ManagedArgoCDProject) (template : GoMap)
    (hf : c.faults = []) (hm : c.managed = some m)
    (hns : m.Namespace = req.NamespacedName.Namespace) (hname : m.Name = req.NamespacedName.Name)
    (hlive : IsZero m.DeletionTimestamp = true)
    (hload : loadTemplate m.Spec.Template = Except.ok template)
    (hunique : (Cluster.documentsAt (projectKey m) c).length ≤ 1) :
    ∃ out1 out2 d1 d2 sent,
      Reconcile (Cluster.reconciler marshal) req c = Run.done out1 ∧ out1.err = none ∧
      out1.state.faults = [] ∧
      Reconcile (Cluster.reconciler marshal) req out1.state = Run.done out2 ∧ out2.err = none ∧
      out1.state.projects.find? (Cluster.isAt appProjectGVK (projectKey m)) = some d1 ∧
      Call.updateProject sent none ∈ out2.calls ∧
      out2.state.projects.find? (Cluster.isAt appProjectGVK (projectKey m)) = some d2 ∧
      SameContent sent d1 ∧ SameDocument sent d1 ∧
      SameContent d2 d1 ∧ SameDocument d2 d1 ∧
      (Cluster.documentsAt (projectKey m) out2.state).length = 1 := by
  obtain ⟨spec, hrender⟩ := renderArgoCDProject_catalog m _ template hload
  obtain ⟨out1, hrun1, herr1, hf1, hident1, hproj1⟩ :=
    Cluster.Reconcile_run marshal req c m template spec hf hm hns hname hlive hload hrender
  -- the record stored after the first run
  have hident : Cluster.identOf c
      = some (m.Namespace, m.Name, m.UID, m.Spec, m.DeletionTimestamp) := by
    simp [Cluster.identOf, hm]
  rw [hident] at hident1
  obtain ⟨m', hm', e⟩ : ∃ m', out1.state.managed = some m' ∧
      (m'.Namespace, m'.Name, m'.UID, m'.Spec, m'.DeletionTimestamp)
        = (m.Namespace, m.Name, m.UID, m.Spec, m.DeletionTimestamp) := by
    cases hmm : out1.state.managed with
    | none => simp [Cluster.identOf, hmm] at hident1
    | some m' => exact ⟨m', rfl, by simpa [Cluster.identOf, hmm] using hident1⟩
  simp only [Prod.mk.injEq] at e
  obtain ⟨e2, e3, e4, e1, e5⟩ := e
  have hkey : projectKey m' = projectKey m := by simp [projectKey, e1, e2]
  have hrender' : renderArgoCDProject m' template = Run.done (documentWith m' spec, none) := by
    rw [renderArgoCDProject_congr_aux m' m template e1 e2, hrender,
      Cluster.documentWith_congr m' m spec e2 e1]
  obtain ⟨out2, hrun2, herr2, -, -, hproj2⟩ :=
    Cluster.Reconcile_run marshal req out1.state m' template spec hf1 hm' (e2.trans hns)
      (e3.trans hname) (by rw [e5]; exact hlive) (by rw [e1]; exact hload) hrender'
  rw [hkey, Cluster.desired_congr m' m spec e2 e3 e4 e1] at hproj2
  -- the document stored by the first run
  have hD := Cluster.isAt_desired m spec
  obtain ⟨d1, hd1, hsame1, hcount1⟩ : ∃ d1,
      out1.state.projects.find? (Cluster.isAt appProjectGVK (projectKey m)) = some d1 ∧
      SameContent d1 (Cluster.desired m spec) ∧
      (out1.state.projects.filter (Cluster.isAt appProjectGVK (projectKey m))).length = 1 := by
    rcases hproj1 with ⟨hnone, v, hp⟩ | ⟨found, v, hfound, hp, -⟩
    · have hx : Cluster.isAt appProjectGVK (projectKey m)
          ((Cluster.desired m spec).SetResourceVersion v) = true := by
        rw [Cluster.isAt_SetResourceVersion]; exact hD
      obtain ⟨h1, h2⟩ := Cluster.find_append_of_none _ c.projects _ hnone hx
      rw [hp]
      exact ⟨_, h1, SameContent_SetResourceVersion _ _, by rw [h2]; rfl⟩
    · have hx : Cluster.isAt appProjectGVK (projectKey m)
          (((Cluster.desired m spec).SetResourceVersion
            found.GetResourceVersion).SetResourceVersion v) = true := by
        rw [Cluster.isAt_SetResourceVersion, Cluster.isAt_SetResourceVersion]; exact hD
      obtain ⟨h1, h2⟩ := Cluster.find_replaceFirst _ _ hx c.projects found hfound
      have hpos := Cluster.filter_length_pos_of_find _ _ _ hfound
      rw [hp]
      refine ⟨_, h1, ?_, ?_⟩
      · exact SameContent_trans _ _ _ (SameContent_SetResourceVersion _ _)
          (SameContent_SetResourceVersion _ _)
      · rw [h2]
        unfold Cluster.documentsAt at hunique
        omega
  -- the second run finds it and updates
  rcases hproj2 with ⟨hnone, -⟩ | ⟨found, v, hfound, hp, hsent⟩
  · rw [hd1] at hnone
    cases hnone
  · rw [hd1] at hfound
    simp only [Option.some.injEq] at hfound
    subst hfound
    have hx : Cluster.isAt appProjectGVK (projectKey m)
        (((Cluster.desired m spec).SetResourceVersion
          d1.GetResourceVersion).SetResourceVersion v) = true := by
      rw [Cluster.isAt_SetResourceVersion, Cluster.isAt_SetResourceVersion]; exact hD
    obtain ⟨h1, h2⟩ := Cluster.find_replaceFirst _ _ hx out1.state.projects d1 hd1
    have hsentSame : SameContent ((Cluster.desired m spec).SetResourceVersion
        d1.GetResourceVersion) d1 :=
      SameContent_trans _ _ _ (SameContent_SetResourceVersion _ _)
        (SameContent_symm _ _ hsame1)
    have hd2Same : SameContent (((Cluster.desired m spec).SetResourceVersion
        d1.GetResourceVersion).SetResourceVersion v) d1 :=
      SameContent_trans _ _ _ (SameContent_SetResourceVersion _ _) hsentSame
    refine ⟨out1, out2, d1, _, _, hrun1, herr1, hf1, hrun2, herr2, hd1, hsent, ?_, hsentSame,
      SameDocument_of_SameContent _ _ hsentSame, hd2Same,
      SameDocument_of_SameContent _ _ hd2Same, ?_⟩
    · rw [hp]; exact h1
    · unfold Cluster.documentsAt
      rw [hp, h2, hcount1]


/-- C7, as stated, fails: every store call succeeds, and after two `Reconcile`
invocations in a row no derived document exists and no update was written,
(1) for a record whose template is outside the catalog, and (2) for a record
marked for deletion whose derived document existed before. -/
theorem Reconcile_twice_counterexample :
    (∃ out1 out2,
      Reconcile (Cluster.reconciler exampleMarshal) exampleRequest unknownTemplateClusterHealthy
        = Run.done out1 ∧
      Reconcile (Cluster.reconciler exampleMarshal) exampleRequest out1.state = Run.done out2 ∧
      (out1.calls ++ out2.calls).all (fun c => c.err.isNone) = true ∧
      out2.calls.all (fun c => !c.isProjectWrite) = true ∧
      out2.state.projects = []) ∧
    (∃ out1 out2,
      deletingSyncedCluster.projects.length = 1 ∧
      Reconcile (Cluster.reconciler exampleMarshal) exampleRequest deletingSyncedCluster
        = Run.done out1 ∧
      out1.calls.all (fun c => c.err.isNone) = true ∧ out1.err = none ∧
      Reconcile (Cluster.reconciler exampleMarshal) exampleRequest out1.state = Run.done out2 ∧
      out2.err = none ∧
      out2.calls.all (fun c => !c.isProjectWrite) = true ∧
      out2.state.projects = []) :=
  ⟨⟨_, _, rfl, rfl, rfl, rfl, rfl⟩, ⟨_, _, rfl, rfl, rfl, rfl, rfl, rfl, rfl, rfl⟩⟩

/-- C7, amended, at the example record in a store without derived
documents. -/
theorem Reconcile_twice_witness :
    exampleCluster.faults = [] ∧ exampleCluster.managed = some exampleProject ∧
      IsZero exampleProject.DeletionTimestamp = true ∧
      loadTemplate exampleProject.Spec.Template = Except.ok standardTemplate ∧
      ∃ out1 out2 d1 d2 sent,
        Reconcile (Cluster.reconciler exampleMarshal) exampleRequest exampleCluster
          = Run.done out1 ∧ out1.err = none ∧ out1.state.faults = [] ∧
        Reconcile (Cluster.reconciler exampleMarshal) exampleRequest out1.state
          = Run.done out2 ∧ out2.err = none ∧
        out1.state.projects.find? (Cluster.isAt appProjectGVK (projectKey exampleProject))
          = some d1 ∧
        Call.updateProject sent none ∈ out2.calls ∧
        out2.state.projects.find? (Cluster.isAt appProjectGVK (projectKey exampleProject))
          = some d2 ∧
        SameContent sent d1 ∧ SameDocument sent d1 ∧
        SameContent d2 d1 ∧ SameDocument d2 d1 ∧
        (Cluster.documentsAt (projectKey exampleProject) out2.state).length = 1 :=
  ⟨rfl, rfl, rfl, rfl,
    Reconcile_twice exampleMarshal exampleRequest exampleCluster exampleProject standardTemplate
      rfl rfl rfl rfl rfl rfl (by decide)⟩


/-! ## The Ready condition written by `updateStatus` -/

/-- C12, as stated, fails at the phase `Pending`: `updateStatus` writes a Ready
condition of status `True` although the phase is not `Ready`. -/
theorem updateStatus_pending_counterexample :
    ∃ condition,
      readyCondition
          (updateStatus (Cluster.reconciler exampleMarshal) exampleProject phasePending
            "waiting" "" exampleCluster).1.Status.Conditions = some condition ∧
      condition.Status = ConditionTrue ∧ phasePending ≠ phaseReady ∧
      ¬ (condition.Status = ConditionTrue ↔ phasePending = phaseReady) :=
  ⟨{ Type_ := conditionTypeReady, Status := ConditionTrue, ObservedGeneration := 1,
     LastTransitionTime := Time.mk 1, Reason := phasePending, Message := "waiting" },
    by decide, rfl, by decide, by decide⟩

theorem replaceReady_some (condition : Condition) :
    ∀ (conditions replaced : List Condition),
      replaceReady condition conditions = some replaced →
      ∃ pre c post, conditions = pre ++ c :: post ∧ c.Type_ = conditionTypeReady ∧
        (∀ x ∈ pre, x.Type_ ≠ conditionTypeReady) ∧ replaced = pre ++ condition :: post
  | [], _, h => by simp [replaceReady] at h
  | c :: rest, replaced, h => by
    unfold replaceReady at h
    split at h
    · rename_i hc
      simp only [Option.some.injEq] at h
      exact ⟨[], c, rest, rfl, hc, by simp, by simpa using h.symm⟩
    · rename_i hne
      split at h
      · rename_i rest' hrest
        simp only [Option.some.injEq] at h
        obtain ⟨pre, c', post, h1, h2, h3, h4⟩ := replaceReady_some condition rest rest' hrest
        refine ⟨c :: pre, c', post, by simp [h1], h2, ?_, by simp [← h, h4]⟩
        intro x hx
        rcases List.mem_cons.mp hx with rfl | hx
        · exact hne
        · exact h3 x hx
      · simp at h

theorem replaceReady_none (condition : Condition) :
    ∀ conditions : List Condition,
      replaceReady condition conditions = none ↔ ∀ x ∈ conditions, x.Type_ ≠ conditionTypeReady
  | [] => by simp [replaceReady]
  | c :: rest => by
    have ih := replaceReady_none condition rest
    unfold replaceReady
    by_cases hc : c.Type_ = conditionTypeReady
    · simp [hc]
    · simp only [hc, if_false, List.mem_cons, forall_eq_or_imp, ne_eq, not_false_eq_true,
        true_and]
      rw [← ih]
      cases replaceReady condition rest <;> simp

theorem readyCount_append (a b : List Condition) :
    readyCount (a ++ b) = readyCount a + readyCount b := by
  simp [readyCount, List.filter_append]

theorem readyCount_eq_zero (conditions : List Condition)
    (h : ∀ x ∈ conditions, x.Type_ ≠ conditionTypeReady) : readyCount conditions = 0 := by
  unfold readyCount
  rw [List.length_eq_zero, List.filter_eq_nil_iff]
  intro x hx
  simp [isReadyCondition, h x hx]

theorem readyCount_cons_ready (c : Condition) (rest : List Condition)
    (h : c.Type_ = conditionTypeReady) : readyCount (c :: rest) = 1 + readyCount rest := by
  simp [readyCount, List.filter, isReadyCondition, h, Nat.add_comm]

/-- The conditions that `setStatus` leaves behind are the upsert of the new
Ready condition into the old list. -/
theorem setStatus_conditions (managedProject : ManagedArgoCDProject)
    (phase message renderedYAML : String) (syncTime transitionTime : Time) :
    ∃ condition : Condition,
      condition = { Type_ := conditionTypeReady,
                    Status := if phase = phaseFailed then ConditionFalse else ConditionTrue,
                    ObservedGeneration := managedProject.Generation,
                    LastTransitionTime := transitionTime, Reason := phase,
                    Message := message } ∧
      (setStatus managedProject phase message renderedYAML syncTime transitionTime).Status.Conditions
        = (match replaceReady condition managedProject.Status.Conditions with
            | some conditions => conditions
            | none => managedProject.Status.Conditions ++ [condition]) := by
  refine ⟨_, rfl, ?_⟩
  unfold setStatus
  dsimp only
  by_cases hf : phase = phaseFailed
  · simp only [hf, if_true]
    split <;> split <;> simp_all
  · simp only [hf, if_false]
    split <;> split <;> simp_all


theorem updateStatus_status {σ : Type} (r : ManagedArgoCDProjectReconciler σ)
    (managedProject : ManagedArgoCDProject) (phase message renderedYAML : String) (w : σ) :
    ∃ syncTime transitionTime,
      (phase = phaseReady → syncTime = (r.Now w).1) ∧
      (updateStatus r managedProject phase message renderedYAML w).1.Status
        = (setStatus managedProject phase message renderedYAML syncTime transitionTime).Status ∧
      ∃ e, (updateStatus r managedProject phase message renderedYAML w).2.2
        = [Call.statusUpdate
            (setStatus managedProject phase message renderedYAML syncTime transitionTime) e] := by
  refine ⟨(if phase = phaseReady then r.Now w else (Time.mk 0, w)).1,
    (r.Now (if phase = phaseReady then r.Now w else (Time.mk 0, w)).2).1, ?_, ?_⟩
  · intro h
    simp [h]
  · unfold updateStatus
    dsimp only
    split
    · exact ⟨rfl, _, rfl⟩
    · exact ⟨rfl, _, rfl⟩

theorem updateStatus_status_at {σ : Type} (r : ManagedArgoCDProjectReconciler σ)
    (managedProject : ManagedArgoCDProject) (phase message renderedYAML : String) (w : σ) :
    (updateStatus r managedProject phase message renderedYAML w).1.Status
      = (setStatus managedProject phase message renderedYAML
          (if phase = phaseReady then (r.Now w).1 else Time.mk 0)
          (r.Now (if phase = phaseReady then (r.Now w).2 else w)).1).Status ∧
    ∃ e, (updateStatus r managedProject phase message renderedYAML w).2.2
      = [Call.statusUpdate
          (setStatus managedProject phase message renderedYAML
            (if phase = phaseReady then (r.Now w).1 else Time.mk 0)
            (r.Now (if phase = phaseReady then (r.Now w).2 else w)).1) e] := by
  unfold updateStatus
  dsimp only
  by_cases hp : phase = phaseReady
  · simp only [hp, if_true]
    split
    · exact ⟨rfl, _, rfl⟩
    · exact ⟨rfl, _, rfl⟩
  · simp only [hp, if_false]
    split
    · exact ⟨rfl, _, rfl⟩
    · exact ⟨rfl, _, rfl⟩

/-- C13: `updateStatus` upserts the Ready condition. The new condition is the
record of type `Ready` built from the arguments: status `False` for the phase
`Failed` and `True` otherwise, the generation of the record, the time of the
clock reading before the write, the phase as reason and the given message.
When the list held an entry of type `Ready`, the first such entry is replaced
by the new condition in place (the entries before and after it, and so the
length, are unchanged), and otherwise the new condition is appended at the
end. A list with at most one Ready entry before has exactly one afterwards.
The same list is in the record sent to the status write. -/
theorem updateStatus_upserts_ready {σ : Type} (r : ManagedArgoCDProjectReconciler σ)
    (managedProject : ManagedArgoCDProject) (phase message renderedYAML : String) (w : σ) :
    ∃ condition : Condition,
      condition = { Type_ := conditionTypeReady,
                    Status := if phase = phaseFailed then ConditionFalse else ConditionTrue,
                    ObservedGeneration := managedProject.Generation,
                    LastTransitionTime :=
                      (r.Now (if phase = phaseReady then (r.Now w).2 else w)).1,
                    Reason := phase, Message := message } ∧
      ((∃ x ∈ managedProject.Status.Conditions, x.Type_ = conditionTypeReady) →
        ∃ pre c post, managedProject.Status.Conditions = pre ++ c :: post ∧
          c.Type_ = conditionTypeReady ∧ (∀ x ∈ pre, x.Type_ ≠ conditionTypeReady) ∧
          (updateStatus r managedProject phase message renderedYAML w).1.Status.Conditions
            = pre ++ condition :: post) ∧
      ((∀ x ∈ managedProject.Status.Conditions, x.Type_ ≠ conditionTypeReady) →
        (updateStatus r managedProject phase message renderedYAML w).1.Status.Conditions
          = managedProject.Status.Conditions ++ [condition]) ∧
      (readyCount managedProject.Status.Conditions ≤ 1 →
        readyCount
          (updateStatus r managedProject phase message renderedYAML w).1.Status.Conditions = 1) ∧
      ∃ sent e,
        (updateStatus r managedProject phase message renderedYAML w).2.2
          = [Call.statusUpdate sent e] ∧
        sent.Status.Conditions
          = (updateStatus r managedProject phase message renderedYAML w).1.Status.Conditions := by
  obtain ⟨hstatus, e, hcalls⟩ :=
    updateStatus_status_at r managedProject phase message renderedYAML w
  obtain ⟨condition, hcondition, hconditions⟩ :=
    setStatus_conditions managedProject phase message renderedYAML
      (if phase = phaseReady then (r.Now w).1 else Time.mk 0)
      (r.Now (if phase = phaseReady then (r.Now w).2 else w)).1
  have hty : condition.Type_ = conditionTypeReady := by rw [hcondition]
  rw [hstatus, hconditions]
  refine ⟨condition, hcondition, ?_, ?_, ?_, _, e, hcalls, ?_⟩
  · intro hex
    cases hrep : replaceReady condition managedProject.Status.Conditions with
    | none =>
      obtain ⟨x, hx, hxt⟩ := hex
      exact absurd hxt ((replaceReady_none condition _).mp hrep x hx)
    | some replaced =>
      obtain ⟨pre, c, post, h1, h2, h3, h4⟩ := replaceReady_some condition _ replaced hrep
      exact ⟨pre, c, post, h1, h2, h3, h4⟩
  · intro hnone
    rw [(replaceReady_none condition _).mpr hnone]
  · intro hle
    cases hrep : replaceReady condition managedProject.Status.Conditions with
    | none =>
      have hnone := (replaceReady_none condition _).mp hrep
      simp only
      rw [readyCount_append, readyCount_eq_zero _ hnone, readyCount_cons_ready _ _ hty]
      rfl
    | some replaced =>
      obtain ⟨pre, c, post, h1, h2, h3, h4⟩ := replaceReady_some condition _ replaced hrep
      simp only
      rw [h1, readyCount_append, readyCount_eq_zero _ h3, readyCount_cons_ready _ _ h2] at hle
      rw [h4, readyCount_append, readyCount_eq_zero _ h3, readyCount_cons_ready _ _ hty]
      omega
  · rw [hconditions]

theorem setStatus_fields (managedProject : ManagedArgoCDProject)
    (phase message renderedYAML : String) (syncTime transitionTime : Time) :
    (setStatus managedProject phase message renderedYAML syncTime transitionTime).Status.Phase
      = phase ∧
    (setStatus managedProject phase message renderedYAML syncTime transitionTime).Status.ProjectName
      = managedProject.Spec.ProjectName ∧
    (setStatus managedProject phase message renderedYAML syncTime
        transitionTime).Status.ObservedGeneration
      = managedProject.Generation ∧
    (phase = phaseReady →
      (setStatus managedProject phase message renderedYAML syncTime
          transitionTime).Status.LastSyncTime = some syncTime) ∧
    (phase ≠ phaseReady →
      (setStatus managedProject phase message renderedYAML syncTime
          transitionTime).Status.LastSyncTime = managedProject.Status.LastSyncTime) := by
  unfold setStatus
  dsimp only
  by_cases hr : phase = phaseReady
  · simp only [hr, if_true]
    split <;> simp
  · simp only [hr, if_false]
    split <;> simp

/-- C14: for every phase `updateStatus` sets the status phase to the given
phase, the status project name to the spec project name and the observed
generation to the record generation; the last sync time is set to the current
time when the phase is `Ready` and is left as it was for every other phase.
The record sent to the status write carries the same status. -/
theorem updateStatus_fields {σ : Type} (r : ManagedArgoCDProjectReconciler σ)
    (managedProject : ManagedArgoCDProject) (phase message renderedYAML : String) (w : σ) :
    (updateStatus r managedProject phase message renderedYAML w).1.Status.Phase = phase ∧
    (updateStatus r managedProject phase message renderedYAML w).1.Status.ProjectName
      = managedProject.Spec.ProjectName ∧
    (updateStatus r managedProject phase message renderedYAML w).1.Status.ObservedGeneration
      = managedProject.Generation ∧
    (phase = phaseReady →
      (updateStatus r managedProject phase message renderedYAML w).1.Status.LastSyncTime
        = some (r.Now w).1) ∧
    (phase ≠ phaseReady →
      (updateStatus r managedProject phase message renderedYAML w).1.Status.LastSyncTime
        = managedProject.Status.LastSyncTime) ∧
    ∃ sent e,
      (updateStatus r managedProject phase message renderedYAML w).2.2
        = [Call.statusUpdate sent e] ∧
      sent.Status = (updateStatus r managedProject phase message renderedYAML w).1.Status := by
  obtain ⟨syncTime, transitionTime, hsync, hstatus, e, hcalls⟩ :=
    updateStatus_status r managedProject phase message renderedYAML w
  rw [hstatus]
  obtain ⟨h1, h2, h3, h4, h5⟩ :=
    setStatus_fields managedProject phase message renderedYAML syncTime transitionTime
  exact ⟨h1, h2, h3, fun h => by rw [h4 h, hsync h], h5, _, e, hcalls, rfl⟩


/-! ## The fields copied by `renderArgoCDProject` -/

theorem renderArgoCDProject_fields (managedProject : ManagedArgoCDProject) (template : GoMap)
    (appProject : Unstructured) (err : Option GoError)
    (h : renderArgoCDProject managedProject template = Run.done (appProject, err)) :
    ∃ spec : GoMap, appProject.Object.index "spec" = Value.map spec ∧
      spec.index "sourceRepos" = Value.strings managedProject.Spec.Repositories ∧
      spec.index "destinations"
        = Value.stringMaps (renderDestinations managedProject.Spec.Destinations) ∧
      spec.index "clusterResourceWhitelist" = template.index "clusterResourceWhitelist" ∧
      spec.index "namespaceResourceWhitelist" = template.index "namespaceResourceWhitelist" ∧
      spec.index "sourceNamespaces" = template.index "sourceNamespaces" ∧
      spec.index "orphanedResources" = template.index "orphanedResources" := by
  unfold renderArgoCDProject at h
  dsimp only at h
  split at h
  · split at h
    · exact absurd h (by simp)
    · simp only [Run.done.injEq, Prod.mk.injEq] at h
      obtain ⟨rfl, -⟩ := h
      by_cases hdesc : managedProject.Spec.Description = ""
      · rw [if_neg (by simpa using hdesc)]
        exact ⟨_, rfl, rfl, rfl, rfl, rfl, rfl, rfl⟩
      · rw [if_pos (by simpa using hdesc)]
        refine ⟨_, rfl, ?_, ?_, ?_, ?_, ?_, ?_⟩ <;>
          simp only [GoMap.index] <;> rw [GoMap.lookup_set_ne _ _ _ _ (by decide)] <;> rfl
  · exact absurd h (by simp)

/-- C16: for every record and template, a document that `renderArgoCDProject`
returns has the spec fields `clusterResourceWhitelist`,
`namespaceResourceWhitelist`, `sourceNamespaces` and `orphanedResources` equal
to the values the template holds under those keys, and `sourceRepos` equal to
the list `spec.repositories`; and `renderArgoCDProject` does return a document
when the `roles` value of the template and the `policies` value of each role
have the asserted types. -/
theorem renderArgoCDProject_copies_template (managedProject : ManagedArgoCDProject)
    (template : GoMap) :
    (∀ (appProject : Unstructured) (err : Option GoError),
      renderArgoCDProject managedProject template = Run.done (appProject, err) →
      ∃ spec : GoMap, appProject.Object.index "spec" = Value.map spec ∧
        spec.index "clusterResourceWhitelist" = template.index "clusterResourceWhitelist" ∧
        spec.index "namespaceResourceWhitelist" = template.index "namespaceResourceWhitelist" ∧
        spec.index "sourceNamespaces" = template.index "sourceNamespaces" ∧
        spec.index "orphanedResources" = template.index "orphanedResources" ∧
        spec.index "sourceRepos" = Value.strings managedProject.Spec.Repositories) ∧
    (∀ roles : List GoMap, template.index "roles" = Value.maps roles →
      (∀ role ∈ roles, ∃ policies, GoMap.index role "policies" = Value.strings policies) →
      ∃ appProject, renderArgoCDProject managedProject template
        = Run.done (appProject, none)) := by
  refine ⟨?_, ?_⟩
  · intro appProject err hrun
    obtain ⟨spec, h0, h1, -, h3, h4, h5, h6⟩ :=
      renderArgoCDProject_fields managedProject template appProject err hrun
    exact ⟨spec, h0, h3, h4, h5, h6, h1⟩
  · intro roles hroles hpolicies
    obtain ⟨appProject, -, -, hrun, -⟩ :=
      renderArgoCDProject_spec managedProject template roles hroles hpolicies
    exact ⟨appProject, hrun⟩

theorem standardRoles_wellTyped :
    ∀ role ∈ standardRoles, ∃ policies,
      GoMap.index role "policies" = Value.strings policies := by
  intro role hrole
  simp only [standardRoles, standardTemplate, templates, templatesLookup, GoMap.index,
    GoMap.lookup] at hrole
  simp at hrole
  rcases hrole with rfl | rfl | rfl <;> exact ⟨_, rfl⟩

/-- C16 at the example record and the template `standard`. -/
theorem renderArgoCDProject_copies_template_witness :
    ∃ (appProject : Unstructured) (spec : GoMap),
      renderArgoCDProject exampleProject standardTemplate = Run.done (appProject, none) ∧
      appProject.Object.index "spec" = Value.map spec ∧
      spec.index "clusterResourceWhitelist"
        = standardTemplate.index "clusterResourceWhitelist" ∧
      spec.index "namespaceResourceWhitelist"
        = standardTemplate.index "namespaceResourceWhitelist" ∧
      spec.index "sourceNamespaces" = standardTemplate.index "sourceNamespaces" ∧
      spec.index "orphanedResources" = standardTemplate.index "orphanedResources" ∧
      spec.index "sourceRepos" = Value.strings exampleProject.Spec.Repositories := by
  obtain ⟨hfields, hreturns⟩ :=
    renderArgoCDProject_copies_template exampleProject standardTemplate
  obtain ⟨appProject, hrun⟩ := hreturns standardRoles rfl standardRoles_wellTyped
  obtain ⟨spec, hspec⟩ := hfields appProject none hrun
  exact ⟨appProject, spec, hrun, hspec⟩

theorem renderDestinations_spec :
    ∀ destinations : List ApplicationDestination,
      List.Forall₂ DestinationRendered destinations (renderDestinations destinations)
  | [] => List.Forall₂.nil
  | dest :: rest => by
    refine List.Forall₂.cons ?_ (renderDestinations_spec rest)
    have hk : ∀ k : String, k ≠ "server" → k ≠ "namespace" → (k == "server") = false ∧
        (k == "namespace") = false := fun k h1 h2 => ⟨by simpa using h1, by simpa using h2⟩
    by_cases hname : dest.Name = ""
    · rw [if_neg (by simpa using hname)]
      refine ⟨by simp [List.lookup], by simp [List.lookup], by simp [List.lookup, hname],
        fun h => absurd hname h, ?_⟩
      intro k h1 h2 _
      simp [List.lookup, (hk k h1 h2).1, (hk k h1 h2).2]
    · rw [if_pos (by simpa using hname)]
      refine ⟨by simp [List.lookup], by simp [List.lookup], by simp [List.lookup, hname],
        fun _ => by simp [List.lookup], ?_⟩
      intro k h1 h2 h3
      have h3' : (k == "name") = false := by simpa using h3
      simp [List.lookup, (hk k h1 h2).1, (hk k h1 h2).2, h3']

/-- C17: for every record and template, a document that `renderArgoCDProject`
returns has as `spec.destinations` a list of string maps that matches
`spec.destinations` of the record one for one and in order: the i-th map holds
the server and the namespace of the i-th destination, and the key `name`
exactly when that destination's name is non-empty, then with that name as
value; and `renderArgoCDProject` does return a document when the `roles` value
of the template and the `policies` value of each role have the asserted
types. -/
theorem renderArgoCDProject_destinations (managedProject : ManagedArgoCDProject)
    (template : GoMap) :
    (∀ (appProject : Unstructured) (err : Option GoError),
      renderArgoCDProject managedProject template = Run.done (appProject, err) →
      ∃ (spec : GoMap) (destinations : List (List (String × String))),
        appProject.Object.index "spec" = Value.map spec ∧
        spec.index "destinations" = Value.stringMaps destinations ∧
        destinations.length = managedProject.Spec.Destinations.length ∧
        List.Forall₂ DestinationRendered managedProject.Spec.Destinations destinations) ∧
    (∀ roles : List GoMap, template.index "roles" = Value.maps roles →
      (∀ role ∈ roles, ∃ policies, GoMap.index role "policies" = Value.strings policies) →
      ∃ appProject, renderArgoCDProject managedProject template
        = Run.done (appProject, none)) := by
  refine ⟨?_, ?_⟩
  · intro appProject err hrun
    obtain ⟨spec, h0, -, h2, -⟩ :=
      renderArgoCDProject_fields managedProject template appProject err hrun
    exact ⟨spec, _, h0, h2, (List.Forall₂.length_eq (renderDestinations_spec _)).symm,
      renderDestinations_spec _⟩
  · intro roles hroles hpolicies
    obtain ⟨appProject, -, -, hrun, -⟩ :=
      renderArgoCDProject_spec managedProject template roles hroles hpolicies
    exact ⟨appProject, hrun⟩

/-- C17 at the example record and the template `standard`. -/
theorem renderArgoCDProject_destinations_witness :
    ∃ (appProject : Unstructured) (spec : GoMap) (destinations : List (List (String × String))),
      renderArgoCDProject exampleProject standardTemplate = Run.done (appProject, none) ∧
      appProject.Object.index "spec" = Value.map spec ∧
      spec.index "destinations" = Value.stringMaps destinations ∧
      destinations.length = exampleProject.Spec.Destinations.length ∧
      List.Forall₂ DestinationRendered exampleProject.Spec.Destinations destinations := by
  obtain ⟨hfields, hreturns⟩ :=
    renderArgoCDProject_destinations exampleProject standardTemplate
  obtain ⟨appProject, hrun⟩ := hreturns standardRoles rfl standardRoles_wellTyped
  obtain ⟨spec, destinations, hspec⟩ := hfields appProject none hrun
  exact ⟨appProject, spec, destinations, hrun, hspec⟩

/-! ## The worked example -/

theorem loadTemplate_empty : loadTemplate "" = Except.ok standardTemplate := rfl

theorem renderArgoCDProject_standard_teamA (managedProject : ManagedArgoCDProject)
    (hname : managedProject.Spec.ProjectName = "team-a") :
    ∃ (appProject : Unstructured) (spec : GoMap) (roles : List GoMap) (role : GoMap)
        (policies : List String),
      renderArgoCDProject managedProject standardTemplate = Run.done (appProject, none) ∧
      appProject.Object.index "spec" = Value.map spec ∧
      spec.index "roles" = Value.maps roles ∧
      role ∈ roles ∧
      role.index "name" = Value.str "read-only" ∧
      role.index "policies" = Value.strings policies ∧
      policies.head? = some "p, proj:team-a:read-only, applications, get, team-a/*, allow" ∧
      spec.index "clusterResourceWhitelist"
        = Value.stringMaps [[("group", "*"), ("kind", "Namespace")]] := by
  have hroles : processRoles "team-a" standardRoles
      = Run.done
          [ [ ("name", Value.str "read-only"),
              ("description", Value.str "Read-only access to applications"),
              ("policies", Value.strings
                [ "p, proj:team-a:read-only, applications, get, team-a/*, allow" ]) ],
            [ ("name", Value.str "developer"),
              ("description", Value.str "Developer access with sync capabilities"),
              ("policies", Value.strings
                [ "p, proj:team-a:developer, applications, get, team-a/*, allow",
                  "p, proj:team-a:developer, applications, sync, team-a/*, allow" ]) ],
            [ ("name", Value.str "admin"),
              ("description", Value.str "Full administrative access"),
              ("policies", Value.strings
                [ "p, proj:team-a:admin, applications, *, team-a/*, allow" ]) ] ] := by
    rfl
  have htemplate : standardTemplate.index "roles" = Value.maps standardRoles := rfl
  simp only [renderArgoCDProject, htemplate, hname, hroles]
  by_cases hdesc : managedProject.Spec.Description = ""
  · rw [if_neg (by simpa using hdesc)]
    exact ⟨_, _, _, _, _, rfl, rfl, rfl, List.mem_cons_self _ _, rfl, rfl, rfl, rfl⟩
  · rw [if_pos (by simpa using hdesc)]
    exact ⟨_, _, _, _, _, rfl, rfl, rfl, List.mem_cons_self _ _, rfl, rfl, rfl, rfl⟩

/-- C19: the template name `""` resolves to the template `standard`, and for
every record whose project name is `team-a` (whatever its repositories and
destinations) the document rendered from that template has a role named
`read-only` whose first policy is
`p, proj:team-a:read-only, applications, get, team-a/*, allow`, and its
`clusterResourceWhitelist` is the one-element list with group `*` and kind
`Namespace`. -/
theorem renderArgoCDProject_example (managedProject : ManagedArgoCDProject)
    (hname : managedProject.Spec.ProjectName = "team-a")
    (htemplate : managedProject.Spec.Template = "") :
    loadTemplate managedProject.Spec.Template = Except.ok standardTemplate ∧
    ∃ (appProject : Unstructured) (spec : GoMap) (roles : List GoMap) (role : GoMap)
        (policies : List String),
      renderArgoCDProject managedProject standardTemplate = Run.done (appProject, none) ∧
      appProject.Object.index "spec" = Value.map spec ∧
      spec.index "roles" = Value.maps roles ∧
      role ∈ roles ∧
      role.index "name" = Value.str "read-only" ∧
      role.index "policies" = Value.strings policies ∧
      policies.head? = some "p, proj:team-a:read-only, applications, get, team-a/*, allow" ∧
      spec.index "clusterResourceWhitelist"
        = Value.stringMaps [[("group", "*"), ("kind", "Namespace")]] :=
  ⟨by rw [htemplate]; exact loadTemplate_empty,
    renderArgoCDProject_standard_teamA managedProject hname⟩

/-- C19 at the example record: project name `team-a`, repositories
`https://git/x`, one destination `https://cluster1` / `ns1`, template `""`. -/
theorem renderArgoCDProject_example_witness :
    (exampleProject.Spec.ProjectName = "team-a" ∧
      exampleProject.Spec.Repositories = ["https://git/x"] ∧
      exampleProject.Spec.Destinations
        = [{ Server := "https://cluster1", Namespace := "ns1", Name := "" }] ∧
      exampleProject.Spec.Template = "") ∧
    loadTemplate exampleProject.Spec.Template = Except.ok standardTemplate ∧
    ∃ (appProject : Unstructured) (spec : GoMap) (roles : List GoMap) (role : GoMap)
        (policies : List String),
      renderArgoCDProject exampleProject standardTemplate = Run.done (appProject, none) ∧
      appProject.Object.index "spec" = Value.map spec ∧
      spec.index "roles" = Value.maps roles ∧
      role ∈ roles ∧
      role.index "name" = Value.str "read-only" ∧
      role.index "policies" = Value.strings policies ∧
      policies.head? = some "p, proj:team-a:read-only, applications, get, team-a/*, allow" ∧
      spec.index "clusterResourceWhitelist"
        = Value.stringMaps [[("group", "*"), ("kind", "Namespace")]] :=
  ⟨⟨rfl, rfl, rfl, rfl⟩, renderArgoCDProject_example exampleProject rfl rfl⟩


/-! ## No placeholder is left in a rendered policy -/

theorem infix_append_separated (old a b c : List Char) (hb : b ≠ [])
    (hsep : ∀ x ∈ b, x ∉ old) (h : old <:+: a ++ b ++ c) : old <:+: a ∨ old <:+: c := by
  by_cases hold : old = []
  · subst hold
    exact Or.inl List.nil_infix
  obtain ⟨s, t, hst⟩ := h
  simp only [List.append_assoc] at hst
  rcases List.append_eq_append_iff.mp hst with ⟨a', ha, h1⟩ | ⟨c', hs, h1⟩
  · -- a = s ++ a',  old ++ t = a' ++ (b ++ c)
    rcases List.append_eq_append_iff.mp h1 with ⟨d, hd, -⟩ | ⟨d, hd, h2⟩
    · -- a' = old ++ d
      left
      exact ⟨s, d, by rw [ha, hd, List.append_assoc]⟩
    · -- old = a' ++ d,  b ++ c = d ++ t
      cases d with
      | nil =>
        left
        exact ⟨s, [], by rw [ha, hd]; simp⟩
      | cons x d' =>
        exfalso
        cases b with
        | nil => exact hb rfl
        | cons y b' =>
          simp only [List.cons_append, List.cons.injEq] at h2
          exact hsep y (List.mem_cons_self _ _) (by rw [hd, h2.1]; simp)
  · -- s = a ++ c',  b ++ c = c' ++ (old ++ t)
    rcases List.append_eq_append_iff.mp h1 with ⟨e, -, h2⟩ | ⟨e, he, h2⟩
    · -- c' = b ++ e,  c = e ++ (old ++ t)
      right
      exact ⟨e, t, by rw [h2, List.append_assoc]⟩
    · -- b = c' ++ e,  old ++ t = e ++ c
      cases e with
      | nil =>
        right
        exact ⟨[], t, by simpa using h2⟩
      | cons x e' =>
        exfalso
        cases old with
        | nil => exact hold rfl
        | cons y old' =>
          simp only [List.cons_append, List.cons.injEq] at h2
          exact hsep x (by rw [he]; simp) (by rw [← h2.1]; simp)

theorem assemble_no_occurrence (old new : List Char) (hnew : new ≠ [])
    (hsep : ∀ x ∈ new, x ∉ old) :
    ∀ (ps : List (List Char)) (tail : List Char),
      (∀ p ∈ ps, ¬ old <:+: p ++ old.dropLast) → ¬ old <:+: tail →
      ¬ old <:+: strings.assemble new ps tail
  | [], tail, _, htail => htail
  | p :: ps, tail, hps, htail => by
    intro h
    rcases infix_append_separated old p new (strings.assemble new ps tail) hnew hsep h with h1 | h1
    · exact hps p (List.mem_cons_self _ _)
        (h1.trans (List.infix_append' [] p old.dropLast))
    · exact assemble_no_occurrence old new hnew hsep ps tail
        (fun q hq => hps q (List.mem_cons_of_mem _ hq)) htail h1

theorem matchesProjectNamePattern_spec (s : String) (h : matchesProjectNamePattern s = true) :
    s.data ≠ [] ∧ ∀ x ∈ s.data, x ∉ "{{PROJECT}}".data := by
  unfold matchesProjectNamePattern at h
  split at h
  · rename_i first last hfirst hlast
    simp only [Bool.and_eq_true, List.all_eq_true] at h
    refine ⟨?_, ?_⟩
    · intro hnil
      rw [hnil] at hfirst
      simp at hfirst
    · intro x hx hmem
      have hx' := h.2 x hx
      have hold : ∀ c ∈ "{{PROJECT}}".data, isNameChar c = false := by decide
      rw [hold x hmem] at hx'
      exact absurd hx' (by simp)
  · exact absurd h (by simp)

theorem PolicyRendered_no_placeholder (projectName policy processed : String)
    (hname : matchesProjectNamePattern projectName = true)
    (h : PolicyRendered projectName policy processed) :
    ¬ "{{PROJECT}}".data <:+: processed.data := by
  obtain ⟨ps, tail, -, hout, hps, htail⟩ := h
  obtain ⟨hne, hsep⟩ := matchesProjectNamePattern_spec projectName hname
  rw [hout]
  exact assemble_no_occurrence _ _ hne hsep ps tail hps htail

theorem Forall₂_exists_left {α β : Type} (R : α → β → Prop) (xs : List α) (ys : List β)
    (h : List.Forall₂ R xs ys) : ∀ b ∈ ys, ∃ a ∈ xs, R a b := by
  induction h with
  | nil => intro b hb; exact absurd hb (List.not_mem_nil b)
  | cons hab _ ih =>
    intro b hb
    rcases List.mem_cons.mp hb with rfl | hb
    · exact ⟨_, List.mem_cons_self _ _, hab⟩
    · obtain ⟨a', ha', hR⟩ := ih b hb
      exact ⟨a', List.mem_cons_of_mem _ ha', hR⟩

/-- C20: for every record whose project name matches the schema pattern
`^[a-z0-9]([-a-z0-9]*[a-z0-9])?$` and every template that `loadTemplate`
returns, `renderArgoCDProject` returns a document in which every role holds a
list of policy strings, none of which contains `{{PROJECT}}`. -/
theorem renderArgoCDProject_no_placeholder (managedProject : ManagedArgoCDProject)
    (templateName : String) (template : GoMap)
    (hname : matchesProjectNamePattern managedProject.Spec.ProjectName = true)
    (htemplate : loadTemplate templateName = Except.ok template) :
    ∃ (appProject : Unstructured) (spec : GoMap) (roles : List GoMap),
      renderArgoCDProject managedProject template = Run.done (appProject, none) ∧
      appProject.Object.index "spec" = Value.map spec ∧
      spec.index "roles" = Value.maps roles ∧
      ∀ role ∈ roles, ∃ policies, role.index "policies" = Value.strings policies ∧
        ∀ policy ∈ policies, ¬ "{{PROJECT}}".data <:+: policy.data := by
  obtain ⟨roles, hroles, hpolicies⟩ := loadTemplate_wellTyped templateName template htemplate
  obtain ⟨appProject, spec, processedRoles, hrun, hspec, hr, hall⟩ :=
    renderArgoCDProject_spec managedProject template roles hroles hpolicies
  refine ⟨appProject, spec, processedRoles, hrun, hspec, hr, ?_⟩
  intro role hrole
  obtain ⟨source, -, -, -, policies, processedPolicies, -, hprocessed, hrendered⟩ :=
    Forall₂_exists_left _ _ _ hall role hrole
  refine ⟨processedPolicies, hprocessed, ?_⟩
  intro policy hpolicy
  obtain ⟨original, -, hR⟩ := Forall₂_exists_left _ _ _ hrendered policy hpolicy
  exact PolicyRendered_no_placeholder _ _ _ hname hR

/-- C20 at the example record, whose project name is `team-a`, and the
template `standard`. -/
theorem renderArgoCDProject_no_placeholder_witness :
    matchesProjectNamePattern exampleProject.Spec.ProjectName = true ∧
    loadTemplate "standard" = Except.ok standardTemplate ∧
    ∃ (appProject : Unstructured) (spec : GoMap) (roles : List GoMap),
      renderArgoCDProject exampleProject standardTemplate = Run.done (appProject, none) ∧
      appProject.Object.index "spec" = Value.map spec ∧
      spec.index "roles" = Value.maps roles ∧
      ∀ role ∈ roles, ∃ policies, role.index "policies" = Value.strings policies ∧
        ∀ policy ∈ policies, ¬ "{{PROJECT}}".data <:+: policy.data :=
  ⟨by decide, rfl, renderArgoCDProject_no_placeholder exampleProject "standard" standardTemplate
    (by decide) rfl⟩


/-! ## One derived document per managed record -/

theorem renderArgoCDProject_documentWith (managedProject : ManagedArgoCDProject)
    (template : GoMap) (appProject : Unstructured) (err : Option GoError)
    (h : renderArgoCDProject managedProject template = Run.done (appProject, err)) :
    ∃ spec, appProject = documentWith managedProject spec := by
  unfold renderArgoCDProject at h
  dsimp only at h
  split at h
  · split at h
    · exact absurd h (by simp)
    · simp only [Run.done.injEq, Prod.mk.injEq] at h
      exact ⟨_, h.1.symm⟩
  · exact absurd h (by simp)

theorem documentWith_name (managedProject : ManagedArgoCDProject) (spec : GoMap) :
    (documentWith managedProject spec).GetName = managedProject.Spec.ProjectName ∧
    (documentWith managedProject spec).GetNamespace = managedProject.Namespace ∧
    (documentWith managedProject spec).GroupVersionKind = appProjectGVK := by
  refine ⟨?_, ?_, rfl⟩
  · simp [documentWith, Unstructured.GetName, Unstructured.getMetadataString, GoMap.lookup]
  · simp [documentWith, Unstructured.GetNamespace, Unstructured.getMetadataString, GoMap.lookup]

theorem Cluster.GetProject_isAt (marshal : GoMap → Except GoError String) :
    (Cluster.reconciler marshal).GetReturnsRequested := by
  intro gvk key c obj c1 h
  change Cluster.GetProject gvk key c = (Except.ok obj, c1) at h
  unfold Cluster.GetProject at h
  split at h
  · simp at h
  · split at h
    · rename_i u hfind
      simp only [Prod.mk.injEq, Except.ok.injEq] at h
      obtain ⟨rfl, -⟩ := h
      exact List.find?_some hfind
    · simp at h

theorem updateStatus_concerns {σ : Type} (r : ManagedArgoCDProjectReconciler σ)
    (managedProject : ManagedArgoCDProject) (phase message renderedYAML : String) (w : σ)
    (gvk : GroupVersionKind) (key : NamespacedName) :
    ∀ c ∈ (updateStatus r managedProject phase message renderedYAML w).2.2,
      c.Concerns gvk key := by
  obtain ⟨t1, t2, e, hs, -⟩ := updateStatus_spec r managedProject phase message renderedYAML w
  rw [hs]
  simp [Call.Concerns]

theorem deleteArgoCDProject_concerns {σ : Type} (r : ManagedArgoCDProjectReconciler σ)
    (hclient : r.GetReturnsRequested) (managedProject : ManagedArgoCDProject) (w : σ) :
    ∀ c ∈ (deleteArgoCDProject r managedProject w).2.2,
      c.Concerns appProjectGVK (projectKey managedProject) := by
  unfold deleteArgoCDProject
  dsimp only
  rw [emptyProject_gvk]
  split
  · split <;> simp [Call.Concerns, projectKey]
  · rename_i obj w1 hget
    have hobj := hclient _ _ _ _ _ hget
    simp only [List.mem_cons, List.mem_singleton, List.not_mem_nil, or_false]
    rintro c (rfl | rfl)
    · simp [Call.Concerns, projectKey]
    · simpa [Call.Concerns, projectKey] using hobj


theorem syncArgoCDProject_concerns {σ : Type} (r : ManagedArgoCDProjectReconciler σ)
    (managedProject : ManagedArgoCDProject) (appProject : Unstructured) (renderedYAML : String)
    (w : σ) (calls : List Call)
    (hdoc : Cluster.isAt appProjectGVK (projectKey managedProject) appProject = true)
    (hcalls : ∀ c ∈ calls, c.Concerns appProjectGVK (projectKey managedProject)) :
    ∀ c ∈ (syncArgoCDProject r managedProject appProject renderedYAML w calls).calls,
      c.Concerns appProjectGVK (projectKey managedProject) := by
  have hgvk : appProject.GroupVersionKind = appProjectGVK := by
    simp only [Cluster.isAt, Bool.decide_and, Bool.and_eq_true, decide_eq_true_eq] at hdoc
    exact hdoc.1
  have hlookup : ∀ e, (Call.getProject appProjectGVK
      { Name := managedProject.Spec.ProjectName, Namespace := managedProject.Namespace } e).Concerns
        appProjectGVK (projectKey managedProject) := by
    intro e
    simp [Call.Concerns, projectKey]
  have hstatus := fun phase message yaml w1 =>
    updateStatus_concerns r managedProject phase message yaml w1 appProjectGVK
      (projectKey managedProject)
  unfold syncArgoCDProject
  dsimp only
  rw [hgvk, emptyProject_gvk]
  intro c hc
  split at hc
  · split at hc
    · split at hc
      · simp only [List.mem_append, List.mem_singleton] at hc
        rcases hc with ((hc | rfl) | rfl) | hc
        · exact hcalls c hc
        · exact hlookup _
        · simpa [Call.Concerns] using hdoc
        · exact hstatus _ _ _ _ c hc
      · simp only [List.mem_append, List.mem_singleton] at hc
        rcases hc with ((hc | rfl) | rfl) | hc
        · exact hcalls c hc
        · exact hlookup _
        · simpa [Call.Concerns] using hdoc
        · exact hstatus _ _ _ _ c hc
    · simp only [List.mem_append, List.mem_singleton] at hc
      rcases hc with hc | rfl
      · exact hcalls c hc
      · exact hlookup _
  · have hupd : ∀ rv, Cluster.isAt appProjectGVK (projectKey managedProject)
        (appProject.SetResourceVersion rv) = true := by
      intro rv
      rw [Cluster.isAt_SetResourceVersion]
      exact hdoc
    split at hc
    · simp only [List.mem_append, List.mem_singleton] at hc
      rcases hc with ((hc | rfl) | rfl) | hc
      · exact hcalls c hc
      · exact hlookup _
      · simpa [Call.Concerns] using hupd _
      · exact hstatus _ _ _ _ c hc
    · simp only [List.mem_append, List.mem_singleton] at hc
      rcases hc with ((hc | rfl) | rfl) | hc
      · exact hcalls c hc
      · exact hlookup _
      · simpa [Call.Concerns] using hupd _
      · exact hstatus _ _ _ _ c hc

theorem renderAndSync_concerns {σ : Type} (r : ManagedArgoCDProjectReconciler σ)
    (managedProject : ManagedArgoCDProject) (w : σ) (calls : List Call) (out : Outcome σ)
    (h : renderAndSync r managedProject w calls = Run.done out)
    (hcalls : ∀ c ∈ calls, c.Concerns appProjectGVK (projectKey managedProject)) :
    ∀ c ∈ out.calls, c.Concerns appProjectGVK (projectKey managedProject) := by
  have hstatus := fun phase message yaml w1 =>
    updateStatus_concerns r managedProject phase message yaml w1 appProjectGVK
      (projectKey managedProject)
  unfold renderAndSync at h
  split at h
  · simp only [Run.done.injEq] at h
    subst h
    intro c hc
    rcases List.mem_append.mp hc with hc | hc
    · exact hcalls c hc
    · exact hstatus _ _ _ _ c hc
  · split at h
    · simp at h
    · simp only [Run.done.injEq] at h
      subst h
      intro c hc
      rcases List.mem_append.mp hc with hc | hc
      · exact hcalls c hc
      · exact hstatus _ _ _ _ c hc
    · rename_i appProject hrender
      dsimp only at h
      split at h
      · simp only [Run.done.injEq] at h
        subst h
        exact hcalls
      · rename_i owned howned
        simp only [Run.done.injEq] at h
        subst h
        obtain ⟨spec, hspec⟩ := renderArgoCDProject_documentWith _ _ _ _ hrender
        refine syncArgoCDProject_concerns r managedProject owned _ w calls ?_ hcalls
        rw [SetControllerReference_isAt _ _ _ _ _ _ howned, hspec]
        exact Cluster.isAt_documentWith managedProject spec

theorem projectKey_AddFinalizer (managedProject : ManagedArgoCDProject) (finalizer rv : String) :
    projectKey { AddFinalizer managedProject finalizer with ResourceVersion := rv }
      = projectKey managedProject := by
  unfold AddFinalizer
  split <;> rfl

theorem Reconcile_concerns {σ : Type} (r : ManagedArgoCDProjectReconciler σ)
    (hclient : r.GetReturnsRequested) (req : Request) (w w1 : σ)
    (fetched : ManagedArgoCDProject) (out : Outcome σ)
    (hget : r.Get req.NamespacedName w = (Except.ok fetched, w1))
    (hrun : Reconcile r req w = Run.done out) :
    ∀ c ∈ out.calls, c.Concerns appProjectGVK (projectKey fetched) := by
  have hfirst : ∀ c ∈ [Call.get req.NamespacedName none],
      c.Concerns appProjectGVK (projectKey fetched) := by
    simp [Call.Concerns]
  unfold Reconcile at hrun
  rw [hget] at hrun
  dsimp only at hrun
  split at hrun
  · split at hrun
    · split at hrun
      · simp only [Run.done.injEq] at hrun
        subst hrun
        simp [Call.Concerns]
      · rename_i rv w2 hupdate
        have key := renderAndSync_concerns r _ w2 _ out hrun
        rw [projectKey_AddFinalizer] at key
        apply key
        simp [Call.Concerns]
    · exact renderAndSync_concerns r _ w1 _ out hrun hfirst
  · split at hrun
    · have hdelete := deleteArgoCDProject_concerns r hclient fetched w1
      split at hrun
      · rename_i err w2 cs hd
        rw [hd] at hdelete
        simp only [Run.done.injEq] at hrun
        subst hrun
        intro c hc
        rcases List.mem_append.mp hc with hc | hc
        · exact hfirst c hc
        · exact hdelete c hc
      · rename_i w2 cs hd
        rw [hd] at hdelete
        split at hrun <;>
        · simp only [Run.done.injEq] at hrun
          subst hrun
          intro c hc
          simp only [List.mem_append, List.mem_singleton] at hc
          rcases hc with (hc | hc) | rfl
          · exact hfirst c (by simpa using hc)
          · exact hdelete c hc
          · simp [Call.Concerns]
    · simp only [Run.done.injEq] at hrun
      subst hrun
      exact hfirst


/-- C18: every document that `renderArgoCDProject` returns has
`metadata.name` equal to `spec.projectName`, `metadata.namespace` equal to the
namespace of the record, and the kind `AppProject`. With a client whose lookup
returns the object asked for, `Reconcile` of a fetched record returns, and
every call it makes for a derived document concerns the document of kind
`AppProject` under the key (`spec.projectName`, namespace of the record): the
lookup of `Reconcile` and the lookup of `deleteArgoCDProject` ask for that key,
and the documents created, updated and deleted carry that name and
namespace. -/
theorem Reconcile_one_document {σ : Type} (r : ManagedArgoCDProjectReconciler σ)
    (req : Request) (w w1 : σ) (fetched : ManagedArgoCDProject)
    (hclient : r.GetReturnsRequested)
    (hget : r.Get req.NamespacedName w = (Except.ok fetched, w1)) :
    (∀ (managedProject : ManagedArgoCDProject) (template : GoMap) (appProject : Unstructured)
        (err : Option GoError),
      renderArgoCDProject managedProject template = Run.done (appProject, err) →
        appProject.GetName = managedProject.Spec.ProjectName ∧
        appProject.GetNamespace = managedProject.Namespace ∧
        appProject.GroupVersionKind = appProjectGVK) ∧
    (∃ out, Reconcile r req w = Run.done out ∧
      ∀ c ∈ out.calls, c.Concerns appProjectGVK (projectKey fetched)) ∧
    (∀ w2, ∀ c ∈ (deleteArgoCDProject r fetched w2).2.2,
      c.Concerns appProjectGVK (projectKey fetched)) := by
  refine ⟨?_, ?_, fun w2 => deleteArgoCDProject_concerns r hclient fetched w2⟩
  · intro managedProject template appProject err h
    obtain ⟨spec, rfl⟩ := renderArgoCDProject_documentWith _ _ _ _ h
    exact documentWith_name managedProject spec
  · obtain ⟨out, hout⟩ := Reconcile_done r req w
    exact ⟨out, hout, Reconcile_concerns r hclient req w w1 fetched out hget hout⟩

/-- C18 at the example record in the example store, where `Reconcile` looks
the derived document up and creates it. -/
theorem Reconcile_one_document_witness :
    (Cluster.reconciler exampleMarshal).GetReturnsRequested ∧
    (Cluster.reconciler exampleMarshal).Get exampleRequest.NamespacedName exampleCluster
      = (Except.ok exampleProject, exampleCluster) ∧
    (∃ out, Reconcile (Cluster.reconciler exampleMarshal) exampleRequest exampleCluster
        = Run.done out ∧
      ∀ c ∈ out.calls, c.Concerns appProjectGVK (projectKey exampleProject)) :=
  ⟨Cluster.GetProject_isAt exampleMarshal, rfl,
    (Reconcile_one_document (Cluster.reconciler exampleMarshal) exampleRequest exampleCluster
      exampleCluster exampleProject (Cluster.GetProject_isAt exampleMarshal) rfl).2.1⟩


/-! ## The status write and the result of `Reconcile` -/

theorem syncArgoCDProject_status_independent {σ : Type} (r : ManagedArgoCDProjectReconciler σ)
    (su : ManagedArgoCDProject → σ → Except GoError String × σ)
    (managedProject : ManagedArgoCDProject) (appProject : Unstructured) (renderedYAML : String)
    (w : σ) (calls : List Call) :
    (syncArgoCDProject { r with StatusUpdate := su } managedProject appProject renderedYAML w
        calls).result
      = (syncArgoCDProject r managedProject appProject renderedYAML w calls).result ∧
    (syncArgoCDProject { r with StatusUpdate := su } managedProject appProject renderedYAML w
        calls).err
      = (syncArgoCDProject r managedProject appProject renderedYAML w calls).err := by
  unfold syncArgoCDProject
  dsimp only
  split
  · split
    · split <;> exact ⟨rfl, rfl⟩
    · exact ⟨rfl, rfl⟩
  · split <;> exact ⟨rfl, rfl⟩

theorem renderAndSync_status_independent {σ : Type} (r : ManagedArgoCDProjectReconciler σ)
    (su : ManagedArgoCDProject → σ → Except GoError String × σ)
    (managedProject : ManagedArgoCDProject) (w : σ) (calls : List Call) (out out' : Outcome σ)
    (h : renderAndSync r managedProject w calls = Run.done out)
    (h' : renderAndSync { r with StatusUpdate := su } managedProject w calls = Run.done out') :
    out'.result = out.result ∧ out'.err = out.err := by
  unfold renderAndSync at h h'
  cases hload : loadTemplate managedProject.Spec.Template with
  | error err =>
    rw [hload] at h h'
    simp only [Run.done.injEq] at h h'
    subst h h'
    exact ⟨rfl, rfl⟩
  | ok template =>
    rw [hload] at h h'
    dsimp only at h h'
    cases hrender : renderArgoCDProject managedProject template with
    | panic what =>
      rw [hrender] at h
      simp at h
    | done res =>
      obtain ⟨appProject, err⟩ := res
      rw [hrender] at h h'
      cases err with
      | some err =>
        simp only [Run.done.injEq] at h h'
        subst h h'
        exact ⟨rfl, rfl⟩
      | none =>
        dsimp only at h h'
        cases howner : SetControllerReference managedProject appProject r.Scheme with
        | error err =>
          rw [howner] at h h'
          simp only [Run.done.injEq] at h h'
          subst h h'
          exact ⟨rfl, rfl⟩
        | ok owned =>
          rw [howner] at h h'
          simp only [Run.done.injEq] at h h'
          subst h h'
          exact syncArgoCDProject_status_independent r su _ _ _ _ _

theorem Reconcile_status_independent {σ : Type} (r : ManagedArgoCDProjectReconciler σ)
    (su : ManagedArgoCDProject → σ → Except GoError String × σ)
    (req : Request) (w : σ) (out out' : Outcome σ)
    (h : Reconcile r req w = Run.done out)
    (h' : Reconcile { r with StatusUpdate := su } req w = Run.done out') :
    out'.result = out.result ∧ out'.err = out.err := by
  unfold Reconcile at h h'
  dsimp only at h h'
  rcases hget : r.Get req.NamespacedName w with ⟨err | fetched, w1⟩
  · rw [hget] at h h'
    dsimp only at h h'
    by_cases hnf : IsNotFound err = true
    · rw [if_pos hnf] at h h'
      simp only [Run.done.injEq] at h h'
      subst h h'
      exact ⟨rfl, rfl⟩
    · rw [if_neg hnf] at h h'
      simp only [Run.done.injEq] at h h'
      subst h h'
      exact ⟨rfl, rfl⟩
  · rw [hget] at h h'
    dsimp only at h h'
    by_cases hlive : IsZero fetched.DeletionTimestamp = true
    · rw [if_pos hlive] at h h'
      by_cases hfin : ContainsFinalizer fetched finalizerName = true
      · simp only [hfin, Bool.not_true, Bool.false_eq_true, if_false] at h h'
        exact renderAndSync_status_independent r su _ _ _ _ _ h h'
      · simp only [Bool.not_eq_true] at hfin
        simp only [hfin, Bool.not_false, if_true] at h h'
        rcases hupd : r.Update (AddFinalizer fetched finalizerName) w1 with ⟨err | rv, w2⟩
        · rw [hupd] at h h'
          simp only [Run.done.injEq] at h h'
          subst h h'
          exact ⟨rfl, rfl⟩
        · rw [hupd] at h h'
          exact renderAndSync_status_independent r su _ _ _ _ _ h h'
    · rw [if_neg hlive] at h h'
      by_cases hfin : ContainsFinalizer fetched finalizerName = true
      · rw [if_pos hfin] at h h'
        have hdel : deleteArgoCDProject { r with StatusUpdate := su } fetched w1
            = deleteArgoCDProject r fetched w1 := rfl
        rw [hdel] at h'
        rcases hd : deleteArgoCDProject r fetched w1 with ⟨err | _, w2, cs⟩
        · rw [hd] at h h'
          dsimp only at h h'
          rcases hupd : r.Update (RemoveFinalizer fetched finalizerName) w2 with ⟨err | rv, w3⟩
          · rw [hupd] at h h'
            simp only [Run.done.injEq] at h h'
            subst h h'
            exact ⟨rfl, rfl⟩
          · rw [hupd] at h h'
            simp only [Run.done.injEq] at h h'
            subst h h'
            exact ⟨rfl, rfl⟩
        · rw [hd] at h h'
          simp only [Run.done.injEq] at h h'
          subst h h'
          exact ⟨rfl, rfl⟩
      · rw [if_neg hfin] at h h'
        simp only [Run.done.injEq] at h h'
        subst h h'
        exact ⟨rfl, rfl⟩


theorem renderArgoCDProject_err (managedProject : ManagedArgoCDProject)
    (template : GoMap) (appProject : Unstructured) (err : Option GoError)
    (h : renderArgoCDProject managedProject template = Run.done (appProject, err)) :
    err = none := by
  unfold renderArgoCDProject at h
  dsimp only at h
  split at h
  · split at h
    · exact absurd h (by simp)
    · simp only [Run.done.injEq, Prod.mk.injEq] at h
      exact h.2.symm
  · exact absurd h (by simp)

theorem deleteArgoCDProject_error_source {σ : Type} (r : ManagedArgoCDProjectReconciler σ)
    (managedProject : ManagedArgoCDProject) (w : σ) (e : GoError)
    (h : (deleteArgoCDProject r managedProject w).1 = some e) :
    ∃ c ∈ (deleteArgoCDProject r managedProject w).2.2, c.FailedWith e := by
  unfold deleteArgoCDProject at h ⊢
  dsimp only at h ⊢
  split
  · rename_i err w1 hget
    rw [hget] at h
    dsimp only at h
    by_cases hnf : IsNotFound err = true
    · rw [if_pos hnf] at h
      simp at h
    · rw [if_neg hnf] at h ⊢
      simp only [Option.some.injEq] at h
      subst h
      exact ⟨_, List.mem_singleton.mpr rfl, rfl, rfl, fun _ => by simpa using hnf⟩
  · rename_i found w1 hget
    rw [hget] at h
    dsimp only at h
    exact ⟨_, List.mem_cons_of_mem _ (List.mem_singleton.mpr rfl), rfl, h, fun hl => by
      simp [Call.isProjectLookup] at hl⟩

theorem syncArgoCDProject_error_source {σ : Type} (r : ManagedArgoCDProjectReconciler σ)
    (managedProject : ManagedArgoCDProject) (appProject : Unstructured) (renderedYAML : String)
    (w : σ) (calls : List Call) (e : GoError)
    (h : (syncArgoCDProject r managedProject appProject renderedYAML w calls).err = some e) :
    ∃ c ∈ (syncArgoCDProject r managedProject appProject renderedYAML w calls).calls,
      c.FailedWith e := by
  unfold syncArgoCDProject at h ⊢
  dsimp only at h ⊢
  split
  · rename_i err w1 hget
    rw [hget] at h
    dsimp only at h
    by_cases hnf : IsNotFound err = true
    · rw [if_pos hnf] at h ⊢
      split
      · rename_i err2 w2 hcreate
        rw [hcreate] at h
        simp only [Option.some.injEq] at h
        subst h
        refine ⟨Call.createProject appProject (some err2), ?_, rfl, rfl, fun hl => by
          simp [Call.isProjectLookup] at hl⟩
        simp
      · rename_i w2 hcreate
        rw [hcreate] at h
        simp at h
    · rw [if_neg hnf] at h ⊢
      simp only [Option.some.injEq] at h
      subst h
      exact ⟨_, List.mem_append_right _ (List.mem_singleton.mpr rfl), rfl, rfl,
        fun _ => by simpa using hnf⟩
  · rename_i found w1 hget
    rw [hget] at h
    dsimp only at h
    split
    · rename_i err2 w2 hupdate
      rw [hupdate] at h
      simp only [Option.some.injEq] at h
      subst h
      refine ⟨Call.updateProject (appProject.SetResourceVersion found.GetResourceVersion)
        (some err2), ?_, rfl, rfl, fun hl => by
        simp [Call.isProjectLookup] at hl⟩
      simp
    · rename_i w2 hupdate
      rw [hupdate] at h
      simp at h


theorem renderAndSync_error_source {σ : Type} (r : ManagedArgoCDProjectReconciler σ)
    (managedProject : ManagedArgoCDProject) (w : σ) (calls : List Call) (out : Outcome σ)
    (e : GoError) (h : renderAndSync r managedProject w calls = Run.done out)
    (herr : out.err = some e) :
    (∃ c ∈ out.calls, c.FailedWith e) ∨
      loadTemplate managedProject.Spec.Template = Except.error e ∨
      ∃ spec, SetControllerReference managedProject (documentWith managedProject spec) r.Scheme
        = Except.error e := by
  unfold renderAndSync at h
  cases hload : loadTemplate managedProject.Spec.Template with
  | error err =>
    rw [hload] at h
    simp only [Run.done.injEq] at h
    subst h
    simp only [Option.some.injEq] at herr
    subst herr
    exact Or.inr (Or.inl rfl)
  | ok template =>
    rw [hload] at h
    dsimp only at h
    cases hrender : renderArgoCDProject managedProject template with
    | panic what =>
      rw [hrender] at h
      simp at h
    | done res =>
      obtain ⟨appProject, err⟩ := res
      have hnone := renderArgoCDProject_err _ _ _ _ hrender
      subst hnone
      rw [hrender] at h
      dsimp only at h
      cases howner : SetControllerReference managedProject appProject r.Scheme with
      | error err =>
        rw [howner] at h
        simp only [Run.done.injEq] at h
        subst h
        simp only [Option.some.injEq] at herr
        subst herr
        obtain ⟨spec, hspec⟩ := renderArgoCDProject_documentWith _ _ _ _ hrender
        subst hspec
        exact Or.inr (Or.inr ⟨spec, howner⟩)
      | ok owned =>
        rw [howner] at h
        simp only [Run.done.injEq] at h
        subst h
        exact Or.inl (syncArgoCDProject_error_source r _ _ _ _ _ e herr)

theorem AddFinalizer_Template (managedProject : ManagedArgoCDProject) (finalizer : String) :
    (AddFinalizer managedProject finalizer).Spec = managedProject.Spec := by
  unfold AddFinalizer
  split <;> rfl

theorem Reconcile_error_source {σ : Type} (r : ManagedArgoCDProjectReconciler σ)
    (req : Request) (w : σ) (out : Outcome σ) (e : GoError)
    (h : Reconcile r req w = Run.done out) (herr : out.err = some e) :
    (∃ c ∈ out.calls, c.FailedWith e) ∨
      (∃ fetched w1, r.Get req.NamespacedName w = (Except.ok fetched, w1) ∧
        loadTemplate fetched.Spec.Template = Except.error e) ∨
      ∃ owner spec,
        SetControllerReference owner (documentWith owner spec) r.Scheme = Except.error e := by
  unfold Reconcile at h
  rcases hget : r.Get req.NamespacedName w with ⟨err | fetched, w1⟩
  · rw [hget] at h
    dsimp only at h
    by_cases hnf : IsNotFound err = true
    · rw [if_pos hnf] at h
      simp only [Run.done.injEq] at h
      subst h
      simp at herr
    · rw [if_neg hnf] at h
      simp only [Run.done.injEq] at h
      subst h
      simp only [Option.some.injEq] at herr
      subst herr
      exact Or.inl ⟨_, List.mem_singleton.mpr rfl, rfl, rfl, fun hl => by
        simp [Call.isProjectLookup] at hl⟩
  · rw [hget] at h
    dsimp only at h
    by_cases hlive : IsZero fetched.DeletionTimestamp = true
    · rw [if_pos hlive] at h
      by_cases hfin : ContainsFinalizer fetched finalizerName = true
      · simp only [hfin, Bool.not_true, Bool.false_eq_true, if_false] at h
        rcases renderAndSync_error_source r _ _ _ out e h herr with h1 | h1 | ⟨d, h1⟩
        · exact Or.inl h1
        · exact Or.inr (Or.inl ⟨fetched, w1, rfl, h1⟩)
        · exact Or.inr (Or.inr ⟨_, d, h1⟩)
      · simp only [Bool.not_eq_true] at hfin
        simp only [hfin, Bool.not_false, if_true] at h
        rcases hupd : r.Update (AddFinalizer fetched finalizerName) w1 with ⟨err | rv, w2⟩
        · rw [hupd] at h
          simp only [Run.done.injEq] at h
          subst h
          simp only [Option.some.injEq] at herr
          subst herr
          refine Or.inl ⟨Call.update (AddFinalizer fetched finalizerName) (some err), ?_, rfl,
            rfl, fun hl => by simp [Call.isProjectLookup] at hl⟩
          simp
        · rw [hupd] at h
          rcases renderAndSync_error_source r _ _ _ out e h herr with h1 | h1 | ⟨d, h1⟩
          · exact Or.inl h1
          · refine Or.inr (Or.inl ⟨fetched, w1, rfl, ?_⟩)
            have hspec : ({ AddFinalizer fetched finalizerName with
                ResourceVersion := rv } : ManagedArgoCDProject).Spec = fetched.Spec :=
              AddFinalizer_Template fetched finalizerName
            rw [← hspec]
            exact h1
          · exact Or.inr (Or.inr ⟨_, d, h1⟩)
    · rw [if_neg hlive] at h
      by_cases hfin : ContainsFinalizer fetched finalizerName = true
      · rw [if_pos hfin] at h
        have hsource := deleteArgoCDProject_error_source r fetched w1
        rcases hd : deleteArgoCDProject r fetched w1 with ⟨err | _, w2, cs⟩
        · rw [hd] at h hsource
          dsimp only at h
          rcases hupd : r.Update (RemoveFinalizer fetched finalizerName) w2 with ⟨err | rv, w3⟩
          · rw [hupd] at h
            simp only [Run.done.injEq] at h
            subst h
            simp only [Option.some.injEq] at herr
            subst herr
            refine Or.inl ⟨Call.update (RemoveFinalizer fetched finalizerName) (some err), ?_,
              rfl, rfl, fun hl => by simp [Call.isProjectLookup] at hl⟩
            simp
          · rw [hupd] at h
            simp only [Run.done.injEq] at h
            subst h
            simp at herr
        · rw [hd] at h hsource
          simp only [Run.done.injEq] at h
          subst h
          simp only [Option.some.injEq] at herr
          subst herr
          obtain ⟨c, hc, hfailed⟩ := hsource _ rfl
          exact Or.inl ⟨c, List.mem_append_right _ hc, hfailed⟩
      · rw [if_neg hfin] at h
        simp only [Run.done.injEq] at h
        subst h
        simp at herr


/-- C15: `Reconcile` returns, and what it returns does not depend on the
status write: with any other behaviour `su` of `Status().Update`, every other
part of the client being the same, `Reconcile` returns the same result and the
same error. An error that `Reconcile` returns is the error of a step other
than the status write: of a store call that is not a status update (a lookup
of the derived document that reports NotFound not counting), of
`loadTemplate` for the fetched record, or of `SetControllerReference` on a
rendered document; so a
run in which those steps succeed returns nil whatever the status write
does. -/
theorem Reconcile_status_write_ignored {σ : Type} (r : ManagedArgoCDProjectReconciler σ)
    (su : ManagedArgoCDProject → σ → Except GoError String × σ) (req : Request) (w : σ) :
    ∃ out out', Reconcile r req w = Run.done out ∧
      Reconcile { r with StatusUpdate := su } req w = Run.done out' ∧
      out'.result = out.result ∧ out'.err = out.err ∧
      ∀ e, out'.err = some e →
        (∃ c ∈ out'.calls, c.FailedWith e) ∨
          (∃ fetched w1, r.Get req.NamespacedName w = (Except.ok fetched, w1) ∧
            loadTemplate fetched.Spec.Template = Except.error e) ∨
          ∃ owner spec,
            SetControllerReference owner (documentWith owner spec) r.Scheme
              = Except.error e := by
  obtain ⟨out, hout⟩ := Reconcile_done r req w
  obtain ⟨out', hout'⟩ := Reconcile_done { r with StatusUpdate := su } req w
  obtain ⟨hresult, herr⟩ := Reconcile_status_independent r su req w out out' hout hout'
  exact ⟨out, out', hout, hout', hresult, herr,
    fun e he => Reconcile_error_source { r with StatusUpdate := su } req w out' e hout' he⟩

/-- C15 at the example record in the example store with a status write that
always fails: `Reconcile` creates the derived document, the status write
fails, and `Reconcile` returns nil. -/
theorem Reconcile_status_write_ignored_witness :
    ∃ out', Reconcile { Cluster.reconciler exampleMarshal with
          StatusUpdate := failingStatusUpdate } exampleRequest exampleCluster = Run.done out' ∧
      out'.err = none ∧ out'.result = {} ∧
      (∃ sent, Call.statusUpdate sent (some unavailable) ∈ out'.calls) ∧
      ∃ created, Call.createProject created none ∈ out'.calls := by
  obtain ⟨out, out', hout, hout', hresult, herr, -⟩ :=
    Reconcile_status_write_ignored (Cluster.reconciler exampleMarshal) failingStatusUpdate
      exampleRequest exampleCluster
  have hrun : ∃ o, Reconcile (Cluster.reconciler exampleMarshal) exampleRequest exampleCluster
      = Run.done o ∧ o.err = none ∧ o.result = {} := ⟨_, rfl, rfl, rfl⟩
  obtain ⟨o, ho, h1, h2⟩ := hrun
  rw [ho] at hout
  simp only [Run.done.injEq] at hout
  subst hout
  have hcalls : ∃ o', Reconcile { Cluster.reconciler exampleMarshal with
        StatusUpdate := failingStatusUpdate } exampleRequest exampleCluster = Run.done o' ∧
      (∃ sent, Call.statusUpdate sent (some unavailable) ∈ o'.calls) ∧
      ∃ created, Call.createProject created none ∈ o'.calls :=
    ⟨_, rfl,
      ⟨_, List.Mem.tail _ (List.Mem.tail _ (List.Mem.tail _ (List.Mem.tail _
        (List.Mem.head _))))⟩,
      ⟨_, List.Mem.tail _ (List.Mem.tail _ (List.Mem.tail _ (List.Mem.head _)))⟩⟩
  obtain ⟨o', ho', h3, h4⟩ := hcalls
  rw [ho'] at hout'
  simp only [Run.done.injEq] at hout'
  subst hout'
  exact ⟨o', ho', herr.trans h1, hresult.trans h2, h3, h4⟩


/-! ## The status after a successful `Reconcile` -/

theorem SetControllerReference_documentWith_ok (m : ManagedArgoCDProject) (spec : GoMap)
    (scheme : Scheme) (gvk : GroupVersionKind) (h : scheme.GVKForObject = Except.ok gvk) :
    ∃ owned, SetControllerReference m (documentWith m spec) scheme = Except.ok owned := by
  have hns : (documentWith m spec).GetNamespace = m.Namespace := by
    simp [documentWith, Unstructured.GetNamespace, Unstructured.getMetadataString, GoMap.lookup]
  have hrefs : (documentWith m spec).GetOwnerReferences = [] := by
    simp [documentWith, Unstructured.GetOwnerReferences, GoMap.lookup]
  unfold SetControllerReference
  rw [hns, hrefs, h]
  by_cases hempty : m.Namespace = ""
  · simp [hempty]
  · simp [hempty]

theorem not_ready_of_readyCount_zero (conditions : List Condition)
    (h : readyCount conditions = 0) : ∀ x ∈ conditions, x.Type_ ≠ conditionTypeReady := by
  unfold readyCount at h
  rw [List.length_eq_zero, List.filter_eq_nil_iff] at h
  intro x hx hty
  exact h x hx (by simp [isReadyCondition, hty])

theorem setStatus_one_ready (managedProject : ManagedArgoCDProject)
    (phase message renderedYAML : String) (syncTime transitionTime : Time)
    (h : readyCount managedProject.Status.Conditions ≤ 1) :
    readyCount
        (setStatus managedProject phase message renderedYAML syncTime
          transitionTime).Status.Conditions = 1 ∧
    ∀ c ∈ (setStatus managedProject phase message renderedYAML syncTime
          transitionTime).Status.Conditions,
      c.Type_ = conditionTypeReady →
        c.Status = (if phase = phaseFailed then ConditionFalse else ConditionTrue) := by
  obtain ⟨condition, hcondition, hconditions⟩ :=
    setStatus_conditions managedProject phase message renderedYAML syncTime transitionTime
  have hty : condition.Type_ = conditionTypeReady := by rw [hcondition]
  have hst : condition.Status = (if phase = phaseFailed then ConditionFalse else ConditionTrue) := by
    rw [hcondition]
  rw [hconditions]
  cases hrep : replaceReady condition managedProject.Status.Conditions with
  | none =>
    have hnone := (replaceReady_none condition _).mp hrep
    simp only
    refine ⟨?_, ?_⟩
    · rw [readyCount_append, readyCount_eq_zero _ hnone, readyCount_cons_ready _ _ hty]
      rfl
    · intro c hc hcty
      rcases List.mem_append.mp hc with hc | hc
      · exact absurd hcty (hnone c hc)
      · rw [List.mem_singleton.mp hc]
        exact hst
  | some replaced =>
    obtain ⟨pre, c0, post, h1, h2, h3, h4⟩ := replaceReady_some condition _ replaced hrep
    simp only
    rw [h1, readyCount_append, readyCount_eq_zero _ h3, readyCount_cons_ready _ _ h2] at h
    have hpost : readyCount post = 0 := by omega
    refine ⟨?_, ?_⟩
    · rw [h4, readyCount_append, readyCount_eq_zero _ h3, readyCount_cons_ready _ _ hty, hpost]
    · intro c hc hcty
      rw [h4] at hc
      rcases List.mem_append.mp hc with hc | hc
      · exact absurd hcty (h3 c hc)
      · rcases List.mem_cons.mp hc with rfl | hc
        · exact hst
        · exact absurd hcty (not_ready_of_readyCount_zero post hpost c hc)

theorem syncArgoCDProject_success {σ : Type} (r : ManagedArgoCDProjectReconciler σ)
    (managedProject : ManagedArgoCDProject) (appProject : Unstructured) (renderedYAML : String)
    (w : σ) (calls : List Call)
    (h : (syncArgoCDProject r managedProject appProject renderedYAML w calls).err = none) :
    ∃ message w2 pre,
      (syncArgoCDProject r managedProject appProject renderedYAML w calls).managedProject
        = (updateStatus r managedProject phaseReady message renderedYAML w2).1 ∧
      (syncArgoCDProject r managedProject appProject renderedYAML w calls).state
        = (updateStatus r managedProject phaseReady message renderedYAML w2).2.1 ∧
      (syncArgoCDProject r managedProject appProject renderedYAML w calls).calls
        = pre ++ (updateStatus r managedProject phaseReady message renderedYAML w2).2.2 := by
  unfold syncArgoCDProject at h ⊢
  dsimp only at h ⊢
  split
  · rename_i err w1 hget
    rw [hget] at h
    dsimp only at h
    by_cases hnf : IsNotFound err = true
    · rw [if_pos hnf] at h ⊢
      split
      · rename_i err2 w2 hcreate
        rw [hcreate] at h
        simp at h
      · exact ⟨_, _, _, rfl, rfl, rfl⟩
    · rw [if_neg hnf] at h
      simp at h
  · rename_i found w1 hget
    rw [hget] at h
    dsimp only at h
    split
    · rename_i err2 w2 hupdate
      rw [hupdate] at h
      simp at h
    · exact ⟨_, _, _, rfl, rfl, rfl⟩

theorem renderAndSync_success {σ : Type} (r : ManagedArgoCDProjectReconciler σ)
    (managedProject : ManagedArgoCDProject) (w : σ) (calls : List Call) (out : Outcome σ)
    (h : renderAndSync r managedProject w calls = Run.done out) (herr : out.err = none) :
    ∃ message renderedYAML w2 pre,
      out.managedProject
        = (updateStatus r managedProject phaseReady message renderedYAML w2).1 ∧
      out.state = (updateStatus r managedProject phaseReady message renderedYAML w2).2.1 ∧
      out.calls = pre ++ (updateStatus r managedProject phaseReady message renderedYAML w2).2.2 := by
  unfold renderAndSync at h
  cases hload : loadTemplate managedProject.Spec.Template with
  | error err =>
    rw [hload] at h
    simp only [Run.done.injEq] at h
    subst h
    simp at herr
  | ok template =>
    rw [hload] at h
    dsimp only at h
    cases hrender : renderArgoCDProject managedProject template with
    | panic what =>
      rw [hrender] at h
      simp at h
    | done res =>
      obtain ⟨appProject, err⟩ := res
      have hnone := renderArgoCDProject_err _ _ _ _ hrender
      subst hnone
      rw [hrender] at h
      dsimp only at h
      cases howner : SetControllerReference managedProject appProject r.Scheme with
      | error err =>
        rw [howner] at h
        simp only [Run.done.injEq] at h
        subst h
        simp at herr
      | ok owned =>
        rw [howner] at h
        simp only [Run.done.injEq] at h
        subst h
        obtain ⟨message, w2, pre, h1, h2, h3⟩ := syncArgoCDProject_success r _ _ _ _ _ herr
        exact ⟨message, _, w2, pre, h1, h2, h3⟩

theorem Reconcile_success {σ : Type} (r : ManagedArgoCDProjectReconciler σ)
    (req : Request) (w w1 : σ) (fetched : ManagedArgoCDProject) (out : Outcome σ)
    (hget : r.Get req.NamespacedName w = (Except.ok fetched, w1))
    (hlive : IsZero fetched.DeletionTimestamp = true)
    (h : Reconcile r req w = Run.done out) (herr : out.err = none) :
    ∃ managedProject message renderedYAML w2 pre,
      managedProject.Status = fetched.Status ∧ managedProject.Generation = fetched.Generation ∧
      managedProject.Spec = fetched.Spec ∧
      out.managedProject
        = (updateStatus r managedProject phaseReady message renderedYAML w2).1 ∧
      out.state = (updateStatus r managedProject phaseReady message renderedYAML w2).2.1 ∧
      out.calls = pre ++ (updateStatus r managedProject phaseReady message renderedYAML w2).2.2 := by
  unfold Reconcile at h
  rw [hget] at h
  dsimp only at h
  rw [if_pos hlive] at h
  by_cases hfin : ContainsFinalizer fetched finalizerName = true
  · simp only [hfin, Bool.not_true, Bool.false_eq_true, if_false] at h
    obtain ⟨message, yaml, w2, pre, h1, h2, h3⟩ := renderAndSync_success r _ _ _ out h herr
    exact ⟨fetched, message, yaml, w2, pre, rfl, rfl, rfl, h1, h2, h3⟩
  · simp only [Bool.not_eq_true] at hfin
    simp only [hfin, Bool.not_false, if_true] at h
    rcases hupd : r.Update (AddFinalizer fetched finalizerName) w1 with ⟨err | rv, w2⟩
    · rw [hupd] at h
      simp only [Run.done.injEq] at h
      subst h
      simp at herr
    · rw [hupd] at h
      obtain ⟨message, yaml, w3, pre, h1, h2, h3⟩ := renderAndSync_success r _ _ _ out h herr
      have hadd : AddFinalizer fetched finalizerName
          = { fetched with Finalizers := fetched.Finalizers ++ [finalizerName] } := by
        unfold ContainsFinalizer at hfin
        unfold AddFinalizer
        rw [hfin]
        rfl
      refine ⟨_, message, yaml, w3, pre, ?_, ?_, ?_, h1, h2, h3⟩ <;> rw [hadd]

theorem Reconcile_ready {σ : Type} (r : ManagedArgoCDProjectReconciler σ)
    (req : Request) (w w1 : σ) (fetched : ManagedArgoCDProject) (gvk : GroupVersionKind)
    (template : GoMap) (out : Outcome σ)
    (hget : r.Get req.NamespacedName w = (Except.ok fetched, w1))
    (hlive : IsZero fetched.DeletionTimestamp = true)
    (htemplate : loadTemplate fetched.Spec.Template = Except.ok template)
    (hscheme : r.Scheme.GVKForObject = Except.ok gvk)
    (hconds : readyCount fetched.Status.Conditions ≤ 1)
    (hrun : Reconcile r req w = Run.done out)
    (hcalls : ∀ c ∈ out.calls, c.Succeeded) :
    out.err = none ∧
    out.managedProject.Status.Phase = phaseReady ∧
    readyCount out.managedProject.Status.Conditions = 1 ∧
    (∀ c ∈ out.managedProject.Status.Conditions,
      c.Type_ = conditionTypeReady → c.Status = ConditionTrue) ∧
    out.managedProject.Status.ObservedGeneration = fetched.Generation ∧
    ∃ managedProject message renderedYAML w2 sent,
      out.managedProject
        = (updateStatus r managedProject phaseReady message renderedYAML w2).1 ∧
      out.state = (updateStatus r managedProject phaseReady message renderedYAML w2).2.1 ∧
      (updateStatus r managedProject phaseReady message renderedYAML w2).2.2
        = [Call.statusUpdate sent none] ∧
      Call.statusUpdate sent none ∈ out.calls ∧
      sent.Status = out.managedProject.Status := by
  have herr : out.err = none := by
    cases he : out.err with
    | none => rfl
    | some e =>
      exfalso
      rcases Reconcile_error_source r req w out e hrun he with
        ⟨c, hc, -, hce, hlookup⟩ | ⟨fetched', w1', hget', hload⟩ | ⟨owner, spec, howner⟩
      · obtain ⟨h1, h2⟩ := hcalls c hc e hce
        rw [hlookup h1] at h2
        exact absurd h2 (by simp)
      · rw [hget] at hget'
        simp only [Prod.mk.injEq, Except.ok.injEq] at hget'
        obtain ⟨rfl, -⟩ := hget'
        rw [htemplate] at hload
        exact absurd hload (by simp)
      · obtain ⟨owned, hok⟩ := SetControllerReference_documentWith_ok owner spec r.Scheme gvk hscheme
        rw [hok] at howner
        exact absurd howner (by simp)
  obtain ⟨managedProject, message, renderedYAML, w2, pre, hstatus0, hgen, -, hmp, hstate, hcs⟩ :=
    Reconcile_success r req w w1 fetched out hget hlive hrun herr
  obtain ⟨syncTime, transitionTime, -, hstatus, e, hsent⟩ :=
    updateStatus_status r managedProject phaseReady message renderedYAML w2
  have he : e = none := by
    cases e with
    | none => rfl
    | some err =>
      exfalso
      have hmem : Call.statusUpdate
          (setStatus managedProject phaseReady message renderedYAML syncTime transitionTime)
          (some err) ∈ out.calls := by
        rw [hcs, hsent]
        simp
      obtain ⟨h1, -⟩ := hcalls _ hmem err rfl
      simp [Call.isProjectLookup] at h1
  subst he
  have hconds' : readyCount managedProject.Status.Conditions ≤ 1 := by
    rw [hstatus0]
    exact hconds
  obtain ⟨f1, -, f3, -, -⟩ :=
    setStatus_fields managedProject phaseReady message renderedYAML syncTime transitionTime
  obtain ⟨g1, g2⟩ :=
    setStatus_one_ready managedProject phaseReady message renderedYAML syncTime transitionTime
      hconds'
  have hnf : ¬ phaseReady = phaseFailed := by decide
  rw [if_neg hnf] at g2
  have hout : out.managedProject.Status
      = (setStatus managedProject phaseReady message renderedYAML syncTime
          transitionTime).Status := by
    rw [hmp, hstatus]
  refine ⟨herr, ?_, ?_, ?_, ?_, managedProject, message, renderedYAML, w2, _, hmp, hstate, hsent,
    ?_, hout.symm⟩
  · rw [hout, f1]
  · rw [hout, g1]
  · rw [hout]
    exact g2
  · rw [hout, f3, hgen]
  · rw [hcs, hsent]
    simp


theorem Cluster.StatusUpdate_stored (obj : ManagedArgoCDProject) (c c1 : Cluster) (rv : String)
    (h : Cluster.StatusUpdate obj c = (Except.ok rv, c1)) :
    ∃ stored, c1.managed = some stored ∧ stored.Status = obj.Status := by
  unfold Cluster.StatusUpdate at h
  split at h
  · simp at h
  · split at h
    · split at h
      · split at h
        · simp at h
        · simp only [Prod.mk.injEq, Except.ok.injEq] at h
          obtain ⟨-, rfl⟩ := h
          exact ⟨_, rfl, rfl⟩
      · simp at h
    · simp at h

theorem Cluster.updateStatus_stored (marshal : GoMap → Except GoError String)
    (managedProject : ManagedArgoCDProject) (phase message renderedYAML : String) (c : Cluster)
    (sent : ManagedArgoCDProject)
    (h : (updateStatus (Cluster.reconciler marshal) managedProject phase message renderedYAML
      c).2.2 = [Call.statusUpdate sent none]) :
    ∃ stored,
      (updateStatus (Cluster.reconciler marshal) managedProject phase message renderedYAML
        c).2.1.managed = some stored ∧
      stored.Status
        = (updateStatus (Cluster.reconciler marshal) managedProject phase message renderedYAML
            c).1.Status := by
  unfold updateStatus at h ⊢
  dsimp only at h ⊢
  split
  · rename_i err c1 hsu
    rw [hsu] at h
    simp at h
  · rename_i rv c1 hsu
    obtain ⟨stored, h1, h2⟩ := Cluster.StatusUpdate_stored _ _ _ _ hsu
    exact ⟨stored, h1, h2⟩


theorem readyCount_le_one_of_atMostOnePerType (conditions : List Condition)
    (h : AtMostOnePerType conditions) : readyCount conditions ≤ 1 :=
  h conditionTypeReady

theorem Reconcile_ready_status {σ : Type} (r : ManagedArgoCDProjectReconciler σ)
    (req : Request) (w w1 : σ) (fetched : ManagedArgoCDProject) (gvk : GroupVersionKind)
    (template : GoMap)
    (hget : r.Get req.NamespacedName w = (Except.ok fetched, w1))
    (hlive : IsZero fetched.DeletionTimestamp = true)
    (htemplate : loadTemplate fetched.Spec.Template = Except.ok template)
    (hscheme : r.Scheme.GVKForObject = Except.ok gvk)
    (hconds : AtMostOnePerType fetched.Status.Conditions) :
    ∃ out, Reconcile r req w = Run.done out ∧
      ((∀ c ∈ out.calls, c.Succeeded) →
        out.err = none ∧
        ReadyStatus out.managedProject.Status fetched.Generation ∧
        ∃ sent, Call.statusUpdate sent none ∈ out.calls ∧
          ReadyStatus sent.Status fetched.Generation) := by
  obtain ⟨out, hout⟩ := Reconcile_done r req w
  refine ⟨out, hout, fun hcalls => ?_⟩
  obtain ⟨h1, h2, h3, h4, h5, -, -, -, -, sent, -, -, -, hmem, hsent⟩ :=
    Reconcile_ready r req w w1 fetched gvk template out hget hlive htemplate hscheme
      (readyCount_le_one_of_atMostOnePerType _ hconds) hout hcalls
  exact ⟨h1, ⟨h2, h3, h4, h5⟩, sent, hmem, by rw [hsent]; exact ⟨h2, h3, h4, h5⟩⟩

theorem Cluster.Reconcile_ready_stored (marshal : GoMap → Except GoError String)
    (req : Request) (c c1 : Cluster) (fetched : ManagedArgoCDProject) (template : GoMap)
    (hget : (Cluster.reconciler marshal).Get req.NamespacedName c = (Except.ok fetched, c1))
    (hlive : IsZero fetched.DeletionTimestamp = true)
    (htemplate : loadTemplate fetched.Spec.Template = Except.ok template)
    (hconds : AtMostOnePerType fetched.Status.Conditions) :
    ∃ out, Reconcile (Cluster.reconciler marshal) req c = Run.done out ∧
      ((∀ call ∈ out.calls, call.Succeeded) →
        ∃ stored, out.state.managed = some stored ∧
          ReadyStatus stored.Status fetched.Generation) := by
  obtain ⟨out, hout⟩ := Reconcile_done (Cluster.reconciler marshal) req c
  refine ⟨out, hout, fun hcalls => ?_⟩
  obtain ⟨-, h2, h3, h4, h5, managedProject, message, yaml, c2, sent, hmp, hstate, hsent, -, -⟩ :=
    Reconcile_ready (Cluster.reconciler marshal) req c c1 fetched Cluster.managedGVK template out
      hget hlive htemplate rfl (readyCount_le_one_of_atMostOnePerType _ hconds) hout hcalls
  obtain ⟨stored, hstored, hstatus⟩ :=
    Cluster.updateStatus_stored marshal managedProject phaseReady message yaml c2 sent hsent
  refine ⟨stored, by rw [hstate]; exact hstored, ?_⟩
  rw [hstatus, ← hmp]
  exact ⟨h2, h3, h4, h5⟩

/-- C11: for a fetched record without deletion marker whose template resolves
and whose conditions hold at most one entry per type, and a scheme that knows
the record type, `Reconcile` returns; if every store call of the run succeeded
(the lookup of a document that does not exist yet may report NotFound), then
it returns nil, and in the record in memory and in the record sent by the
successful status write the phase is `Ready`, exactly one condition has type
`Ready`, its status is `True`, and the observed generation is the generation
of the record. In the store model the record stored after such a run has
that status. -/
theorem Reconcile_success_status {σ : Type} (r : ManagedArgoCDProjectReconciler σ)
    (req : Request) (w w1 : σ) (fetched : ManagedArgoCDProject) (gvk : GroupVersionKind)
    (template : GoMap)
    (hget : r.Get req.NamespacedName w = (Except.ok fetched, w1))
    (hlive : IsZero fetched.DeletionTimestamp = true)
    (htemplate : loadTemplate fetched.Spec.Template = Except.ok template)
    (hscheme : r.Scheme.GVKForObject = Except.ok gvk)
    (hconds : AtMostOnePerType fetched.Status.Conditions) :
    (∃ out, Reconcile r req w = Run.done out ∧
      ((∀ c ∈ out.calls, c.Succeeded) →
        out.err = none ∧
        ReadyStatus out.managedProject.Status fetched.Generation ∧
        ∃ sent, Call.statusUpdate sent none ∈ out.calls ∧
          ReadyStatus sent.Status fetched.Generation)) ∧
    (∀ (marshal : GoMap → Except GoError String) (c c1 : Cluster),
      (Cluster.reconciler marshal).Get req.NamespacedName c = (Except.ok fetched, c1) →
      ∃ out, Reconcile (Cluster.reconciler marshal) req c = Run.done out ∧
        ((∀ call ∈ out.calls, call.Succeeded) →
          ∃ stored, out.state.managed = some stored ∧
            ReadyStatus stored.Status fetched.Generation)) :=
  ⟨Reconcile_ready_status r req w w1 fetched gvk template hget hlive htemplate hscheme hconds,
    fun marshal c c1 hc =>
      Cluster.Reconcile_ready_stored marshal req c c1 fetched template hc hlive htemplate hconds⟩


/-- C11 at the example record in the example store: the run adds the
finalizer, finds no derived document, creates it and writes the status, every
call succeeds, and the record is Ready in memory and in the store. -/
theorem Reconcile_success_status_witness :
    IsZero exampleProject.DeletionTimestamp = true ∧
    loadTemplate exampleProject.Spec.Template = Except.ok standardTemplate ∧
    AtMostOnePerType exampleProject.Status.Conditions ∧
    ∃ out, Reconcile (Cluster.reconciler exampleMarshal) exampleRequest exampleCluster
        = Run.done out ∧
      (∀ c ∈ out.calls, c.Succeeded) ∧
      out.err = none ∧
      ReadyStatus out.managedProject.Status exampleProject.Generation ∧
      ∃ stored, out.state.managed = some stored ∧
        ReadyStatus stored.Status exampleProject.Generation := by
  have hconds : AtMostOnePerType exampleProject.Status.Conditions := by
    intro ty
    simp [exampleProject]
  obtain ⟨⟨out, hout, hmemory⟩, hstore⟩ :=
    Reconcile_success_status (Cluster.reconciler exampleMarshal) exampleRequest exampleCluster
      exampleCluster exampleProject Cluster.managedGVK standardTemplate rfl rfl rfl rfl hconds
  obtain ⟨out2, hout2, hstored⟩ := hstore exampleMarshal exampleCluster exampleCluster rfl
  rw [hout] at hout2
  simp only [Run.done.injEq] at hout2
  subst hout2
  have hshape : ∃ o, Reconcile (Cluster.reconciler exampleMarshal) exampleRequest exampleCluster
        = Run.done o ∧
      ∃ key updated gvk projectKey created sent, o.calls
        = [Call.get key none, Call.update updated none,
           Call.getProject gvk projectKey (some Cluster.notFound),
           Call.createProject created none, Call.statusUpdate sent none] :=
    ⟨_, rfl, _, _, _, _, _, _, rfl⟩
  obtain ⟨o, ho, key, updated, gvk, projectKey, created, sent, hcalls⟩ := hshape
  rw [hout] at ho
  simp only [Run.done.injEq] at ho
  subst ho
  have hsucceeded : ∀ c ∈ out.calls, c.Succeeded := by
    intro c hc
    rw [hcalls] at hc
    simp only [List.mem_cons, List.mem_singleton, List.not_mem_nil, or_false] at hc
    rcases hc with rfl | rfl | rfl | rfl | rfl
    · intro e he; simp [Call.err] at he
    · intro e he; simp [Call.err] at he
    · intro e he
      simp only [Call.err, Option.some.injEq] at he
      subst he
      exact ⟨rfl, rfl⟩
    · intro e he; simp [Call.err] at he
    · intro e he; simp [Call.err] at he
  obtain ⟨herr, hready, -⟩ := hmemory hsucceeded
  exact ⟨rfl, rfl, hconds, out, hout, hsucceeded, herr, hready, hstored hsucceeded⟩


/-! ## The render never fails on a catalog template -/

theorem not_prefix_append_of_take_ne (p a s : List Char) (n : Nat) (hp : n ≤ p.length)
    (ha : n ≤ a.length) (hne : p.take n ≠ a.take n) : ¬ p <+: a ++ s := by
  rintro ⟨t, ht⟩
  apply hne
  have h1 : (p ++ t).take n = p.take n := List.take_append_of_le_length hp
  have h2 : (a ++ s).take n = a.take n := List.take_append_of_le_length ha
  rw [← h1, ← h2, ht]

theorem updateStatus_no_render_report {σ : Type} (r : ManagedArgoCDProjectReconciler σ)
    (managedProject : ManagedArgoCDProject) (phase message renderedYAML : String) (w : σ)
    (hmessage : ¬ renderFailurePrefix.data <+: message.data) :
    ∀ c ∈ (updateStatus r managedProject phase message renderedYAML w).2.2,
      ¬ c.ReportsRenderFailure := by
  obtain ⟨t1, t2, e, hs, -⟩ := updateStatus_spec r managedProject phase message renderedYAML w
  rw [hs]
  intro c hc
  rw [List.mem_singleton.mp hc]
  rintro ⟨condition, hcondition, hprefix⟩
  rw [setStatus_readyCondition] at hcondition
  simp only [Option.some.injEq] at hcondition
  subst hcondition
  exact hmessage hprefix

theorem not_renderFailure_load (suffix : String) :
    ¬ renderFailurePrefix.data <+: ("Failed to load template: " ++ suffix).data := by
  rw [String.data_append]
  exact not_prefix_append_of_take_ne _ _ _ 11 (by decide) (by decide) (by decide)

theorem not_renderFailure_create (suffix : String) :
    ¬ renderFailurePrefix.data <+: ("Failed to create project: " ++ suffix).data := by
  rw [String.data_append]
  exact not_prefix_append_of_take_ne _ _ _ 11 (by decide) (by decide) (by decide)

theorem not_renderFailure_update (suffix : String) :
    ¬ renderFailurePrefix.data <+: ("Failed to update project: " ++ suffix).data := by
  rw [String.data_append]
  exact not_prefix_append_of_take_ne _ _ _ 11 (by decide) (by decide) (by decide)

theorem not_renderFailure_created :
    ¬ renderFailurePrefix.data <+: "ArgoCD AppProject created successfully".data := by
  have h := not_prefix_append_of_take_ne renderFailurePrefix.data
    "ArgoCD AppProject created successfully".data [] 1 (by decide) (by decide) (by decide)
  simpa using h

theorem not_renderFailure_updated :
    ¬ renderFailurePrefix.data <+: "ArgoCD AppProject updated successfully".data := by
  have h := not_prefix_append_of_take_ne renderFailurePrefix.data
    "ArgoCD AppProject updated successfully".data [] 1 (by decide) (by decide) (by decide)
  simpa using h


theorem syncArgoCDProject_no_render_report {σ : Type} (r : ManagedArgoCDProjectReconciler σ)
    (managedProject : ManagedArgoCDProject) (appProject : Unstructured) (renderedYAML : String)
    (w : σ) (calls : List Call) (hcalls : ∀ c ∈ calls, ¬ c.ReportsRenderFailure) :
    ∀ c ∈ (syncArgoCDProject r managedProject appProject renderedYAML w calls).calls,
      ¬ c.ReportsRenderFailure := by
  have hcreated := fun w1 => updateStatus_no_render_report r managedProject phaseReady
    "ArgoCD AppProject created successfully" renderedYAML w1 not_renderFailure_created
  have hupdated := fun w1 => updateStatus_no_render_report r managedProject phaseReady
    "ArgoCD AppProject updated successfully" renderedYAML w1 not_renderFailure_updated
  have hcreate := fun (err : GoError) w1 => updateStatus_no_render_report r managedProject
    phaseFailed ("Failed to create project: " ++ err.Error) "" w1 (not_renderFailure_create _)
  have hupdate := fun (err : GoError) w1 => updateStatus_no_render_report r managedProject
    phaseFailed ("Failed to update project: " ++ err.Error) "" w1 (not_renderFailure_update _)
  unfold syncArgoCDProject
  dsimp only
  intro c hc
  split at hc
  · split at hc
    · split at hc
      · simp only [List.mem_append, List.mem_singleton] at hc
        rcases hc with ((hc | rfl) | rfl) | hc
        · exact hcalls c hc
        · simp [Call.ReportsRenderFailure]
        · simp [Call.ReportsRenderFailure]
        · exact hcreate _ _ c hc
      · simp only [List.mem_append, List.mem_singleton] at hc
        rcases hc with ((hc | rfl) | rfl) | hc
        · exact hcalls c hc
        · simp [Call.ReportsRenderFailure]
        · simp [Call.ReportsRenderFailure]
        · exact hcreated _ c hc
    · simp only [List.mem_append, List.mem_singleton] at hc
      rcases hc with hc | rfl
      · exact hcalls c hc
      · simp [Call.ReportsRenderFailure]
  · split at hc
    · simp only [List.mem_append, List.mem_singleton] at hc
      rcases hc with ((hc | rfl) | rfl) | hc
      · exact hcalls c hc
      · simp [Call.ReportsRenderFailure]
      · simp [Call.ReportsRenderFailure]
      · exact hupdate _ _ c hc
    · simp only [List.mem_append, List.mem_singleton] at hc
      rcases hc with ((hc | rfl) | rfl) | hc
      · exact hcalls c hc
      · simp [Call.ReportsRenderFailure]
      · simp [Call.ReportsRenderFailure]
      · exact hupdated _ c hc

theorem renderAndSync_after_render {σ : Type} (r : ManagedArgoCDProjectReconciler σ)
    (managedProject : ManagedArgoCDProject) (w : σ) (calls : List Call) (template : GoMap)
    (hload : loadTemplate managedProject.Spec.Template = Except.ok template) :
    ∃ appProject,
      renderArgoCDProject managedProject template = Run.done (appProject, none) ∧
      renderAndSync r managedProject w calls
        = (match SetControllerReference managedProject appProject r.Scheme with
            | Except.error err =>
              Run.done { result := {}, err := some err, managedProject := managedProject,
                         state := w, calls := calls, rendered := some appProject }
            | Except.ok owned =>
              Run.done (syncArgoCDProject r managedProject owned
                (match r.Marshal appProject.Object with
                  | Except.ok bytes => bytes
                  | Except.error _ => "# Error marshaling YAML") w calls)) := by
  obtain ⟨spec, hrender⟩ :=
    renderArgoCDProject_catalog managedProject managedProject.Spec.Template template hload
  refine ⟨_, hrender, ?_⟩
  unfold renderAndSync
  rw [hload]
  simp only [hrender]

theorem renderAndSync_no_render_report {σ : Type} (r : ManagedArgoCDProjectReconciler σ)
    (managedProject : ManagedArgoCDProject) (w : σ) (calls : List Call) (out : Outcome σ)
    (h : renderAndSync r managedProject w calls = Run.done out)
    (hcalls : ∀ c ∈ calls, ¬ c.ReportsRenderFailure) :
    ∀ c ∈ out.calls, ¬ c.ReportsRenderFailure := by
  cases hload : loadTemplate managedProject.Spec.Template with
  | error err =>
    unfold renderAndSync at h
    rw [hload] at h
    simp only [Run.done.injEq] at h
    subst h
    intro c hc
    rcases List.mem_append.mp hc with hc | hc
    · exact hcalls c hc
    · exact updateStatus_no_render_report r managedProject phaseFailed _ "" w
        (not_renderFailure_load _) c hc
  | ok template =>
    obtain ⟨appProject, -, hrun⟩ := renderAndSync_after_render r managedProject w calls template hload
    rw [hrun] at h
    cases howner : SetControllerReference managedProject appProject r.Scheme with
    | error err =>
      rw [howner] at h
      simp only [Run.done.injEq] at h
      subst h
      exact hcalls
    | ok owned =>
      rw [howner] at h
      simp only [Run.done.injEq] at h
      subst h
      exact syncArgoCDProject_no_render_report r managedProject owned _ w calls hcalls

theorem deleteArgoCDProject_no_render_report {σ : Type} (r : ManagedArgoCDProjectReconciler σ)
    (managedProject : ManagedArgoCDProject) (w : σ) :
    ∀ c ∈ (deleteArgoCDProject r managedProject w).2.2, ¬ c.ReportsRenderFailure := by
  unfold deleteArgoCDProject
  dsimp only
  split
  · split <;> simp [Call.ReportsRenderFailure]
  · simp [Call.ReportsRenderFailure]

theorem Reconcile_no_render_report {σ : Type} (r : ManagedArgoCDProjectReconciler σ)
    (req : Request) (w : σ) (out : Outcome σ) (h : Reconcile r req w = Run.done out) :
    ∀ c ∈ out.calls, ¬ c.ReportsRenderFailure := by
  unfold Reconcile at h
  rcases hget : r.Get req.NamespacedName w with ⟨err | fetched, w1⟩
  · rw [hget] at h
    dsimp only at h
    by_cases hnf : IsNotFound err = true
    · rw [if_pos hnf] at h
      simp only [Run.done.injEq] at h
      subst h
      simp [Call.ReportsRenderFailure]
    · rw [if_neg hnf] at h
      simp only [Run.done.injEq] at h
      subst h
      simp [Call.ReportsRenderFailure]
  · rw [hget] at h
    dsimp only at h
    have hfirst : ∀ c ∈ [Call.get req.NamespacedName none], ¬ c.ReportsRenderFailure := by
      simp [Call.ReportsRenderFailure]
    by_cases hlive : IsZero fetched.DeletionTimestamp = true
    · rw [if_pos hlive] at h
      by_cases hfin : ContainsFinalizer fetched finalizerName = true
      · simp only [hfin, Bool.not_true, Bool.false_eq_true, if_false] at h
        exact renderAndSync_no_render_report r _ _ _ out h hfirst
      · simp only [Bool.not_eq_true] at hfin
        simp only [hfin, Bool.not_false, if_true] at h
        rcases hupd : r.Update (AddFinalizer fetched finalizerName) w1 with ⟨err | rv, w2⟩
        · rw [hupd] at h
          simp only [Run.done.injEq] at h
          subst h
          simp [Call.ReportsRenderFailure]
        · rw [hupd] at h
          refine renderAndSync_no_render_report r _ _ _ out h ?_
          simp [Call.ReportsRenderFailure]
    · rw [if_neg hlive] at h
      by_cases hfin : ContainsFinalizer fetched finalizerName = true
      · rw [if_pos hfin] at h
        have hdelete := deleteArgoCDProject_no_render_report r fetched w1
        rcases hd : deleteArgoCDProject r fetched w1 with ⟨err | _, w2, cs⟩
        · rw [hd] at h hdelete
          dsimp only at h
          rcases hupd : r.Update (RemoveFinalizer fetched finalizerName) w2 with ⟨err | rv, w3⟩
          · rw [hupd] at h
            simp only [Run.done.injEq] at h
            subst h
            intro c hc
            simp only [List.mem_append, List.mem_singleton] at hc
            rcases hc with (hc | hc) | rfl
            · exact hfirst c (by simpa using hc)
            · exact hdelete c hc
            · simp [Call.ReportsRenderFailure]
          · rw [hupd] at h
            simp only [Run.done.injEq] at h
            subst h
            intro c hc
            simp only [List.mem_append, List.mem_singleton] at hc
            rcases hc with (hc | hc) | rfl
            · exact hfirst c (by simpa using hc)
            · exact hdelete c hc
            · simp [Call.ReportsRenderFailure]
        · rw [hd] at h hdelete
          simp only [Run.done.injEq] at h
          subst h
          intro c hc
          rcases List.mem_append.mp hc with hc | hc
          · exact hfirst c hc
          · exact hdelete c hc
      · rw [if_neg hfin] at h
        simp only [Run.done.injEq] at h
        subst h
        exact hfirst


/-- C21: for every template that `loadTemplate` returns and every managed
record, the `roles` value of the template is a `[]map[string]interface{}` and
the `policies` value of each role is a `[]string`, so both type assertions of
`renderArgoCDProject` succeed and it returns a document with a nil error,
without panicking. Hence `Reconcile` for a record with that template name goes
on from the render to the owner reference and never into the render-failure
branch; and no invocation of `Reconcile` panics or issues the status write of
that branch. -/
theorem renderArgoCDProject_never_fails (managedProject : ManagedArgoCDProject)
    (templateName : String) (template : GoMap)
    (h : loadTemplate templateName = Except.ok template) :
    (∃ roles, template.index "roles" = Value.maps roles ∧
      ∀ role ∈ roles, ∃ policies, GoMap.index role "policies" = Value.strings policies) ∧
    (∃ appProject,
      renderArgoCDProject managedProject template = Run.done (appProject, none)) ∧
    (∀ (σ : Type) (r : ManagedArgoCDProjectReconciler σ) (w : σ) (calls : List Call),
      managedProject.Spec.Template = templateName →
      ∃ appProject,
        renderArgoCDProject managedProject template = Run.done (appProject, none) ∧
        renderAndSync r managedProject w calls
          = (match SetControllerReference managedProject appProject r.Scheme with
              | Except.error err =>
                Run.done { result := {}, err := some err, managedProject := managedProject,
                           state := w, calls := calls, rendered := some appProject }
              | Except.ok owned =>
                Run.done (syncArgoCDProject r managedProject owned
                  (match r.Marshal appProject.Object with
                    | Except.ok bytes => bytes
                    | Except.error _ => "# Error marshaling YAML") w calls))) ∧
    (∀ (σ : Type) (r : ManagedArgoCDProjectReconciler σ) (req : Request) (w : σ),
      ∃ out, Reconcile r req w = Run.done out ∧
        ∀ c ∈ out.calls, ¬ c.ReportsRenderFailure) := by
  refine ⟨loadTemplate_wellTyped templateName template h, ?_, ?_, ?_⟩
  · obtain ⟨spec, hrender⟩ := renderArgoCDProject_catalog managedProject templateName template h
    exact ⟨_, hrender⟩
  · intro σ r w calls hname
    exact renderAndSync_after_render r managedProject w calls template (by rw [hname]; exact h)
  · intro σ r req w
    obtain ⟨out, hout⟩ := Reconcile_done r req w
    exact ⟨out, hout, Reconcile_no_render_report r req w out hout⟩

/-- C21 at the example record, whose template name `""` resolves to the
template `standard`, and its `Reconcile` in the example store. -/
theorem renderArgoCDProject_never_fails_witness :
    loadTemplate exampleProject.Spec.Template = Except.ok standardTemplate ∧
    (∃ appProject,
      renderArgoCDProject exampleProject standardTemplate = Run.done (appProject, none)) ∧
    ∃ out, Reconcile (Cluster.reconciler exampleMarshal) exampleRequest exampleCluster
        = Run.done out ∧
      ∀ c ∈ out.calls, ¬ c.ReportsRenderFailure :=
  ⟨rfl,
    (renderArgoCDProject_never_fails exampleProject exampleProject.Spec.Template
      standardTemplate rfl).2.1,
    (renderArgoCDProject_never_fails exampleProject exampleProject.Spec.Template
      standardTemplate rfl).2.2.2 Cluster (Cluster.reconciler exampleMarshal) exampleRequest
      exampleCluster⟩


/-! ## The phases that `Reconcile` passes to `updateStatus` -/

theorem Call.fromUpdateStatus_of_mem {σ : Type} (r : ManagedArgoCDProjectReconciler σ)
    (managedProject : ManagedArgoCDProject) (phase message renderedYAML : String) (w : σ)
    (hphase : phase = phaseReady ∨ phase = phaseFailed) :
    ∀ c ∈ (updateStatus r managedProject phase message renderedYAML w).2.2,
      c.FromUpdateStatus r :=
  fun _ hc _ => ⟨managedProject, phase, message, renderedYAML, w, hphase, hc⟩

theorem syncArgoCDProject_status_calls {σ : Type} (r : ManagedArgoCDProjectReconciler σ)
    (managedProject : ManagedArgoCDProject) (appProject : Unstructured) (renderedYAML : String)
    (w : σ) (calls : List Call) (hcalls : ∀ c ∈ calls, c.FromUpdateStatus r) :
    ∀ c ∈ (syncArgoCDProject r managedProject appProject renderedYAML w calls).calls,
      c.FromUpdateStatus r := by
  have hready := fun message yaml w1 =>
    Call.fromUpdateStatus_of_mem r managedProject phaseReady message yaml w1 (Or.inl rfl)
  have hfailed := fun message yaml w1 =>
    Call.fromUpdateStatus_of_mem r managedProject phaseFailed message yaml w1 (Or.inr rfl)
  unfold syncArgoCDProject
  dsimp only
  intro c hc
  split at hc
  · split at hc
    · split at hc
      · simp only [List.mem_append, List.mem_singleton] at hc
        rcases hc with ((hc | rfl) | rfl) | hc
        · exact hcalls c hc
        · simp [Call.FromUpdateStatus, Call.isStatusUpdate]
        · simp [Call.FromUpdateStatus, Call.isStatusUpdate]
        · exact hfailed _ _ _ c hc
      · simp only [List.mem_append, List.mem_singleton] at hc
        rcases hc with ((hc | rfl) | rfl) | hc
        · exact hcalls c hc
        · simp [Call.FromUpdateStatus, Call.isStatusUpdate]
        · simp [Call.FromUpdateStatus, Call.isStatusUpdate]
        · exact hready _ _ _ c hc
    · simp only [List.mem_append, List.mem_singleton] at hc
      rcases hc with hc | rfl
      · exact hcalls c hc
      · simp [Call.FromUpdateStatus, Call.isStatusUpdate]
  · split at hc
    · simp only [List.mem_append, List.mem_singleton] at hc
      rcases hc with ((hc | rfl) | rfl) | hc
      · exact hcalls c hc
      · simp [Call.FromUpdateStatus, Call.isStatusUpdate]
      · simp [Call.FromUpdateStatus, Call.isStatusUpdate]
      · exact hfailed _ _ _ c hc
    · simp only [List.mem_append, List.mem_singleton] at hc
      rcases hc with ((hc | rfl) | rfl) | hc
      · exact hcalls c hc
      · simp [Call.FromUpdateStatus, Call.isStatusUpdate]
      · simp [Call.FromUpdateStatus, Call.isStatusUpdate]
      · exact hready _ _ _ c hc

theorem renderAndSync_status_calls {σ : Type} (r : ManagedArgoCDProjectReconciler σ)
    (managedProject : ManagedArgoCDProject) (w : σ) (calls : List Call) (out : Outcome σ)
    (h : renderAndSync r managedProject w calls = Run.done out)
    (hcalls : ∀ c ∈ calls, c.FromUpdateStatus r) :
    ∀ c ∈ out.calls, c.FromUpdateStatus r := by
  cases hload : loadTemplate managedProject.Spec.Template with
  | error err =>
    unfold renderAndSync at h
    rw [hload] at h
    simp only [Run.done.injEq] at h
    subst h
    intro c hc
    rcases List.mem_append.mp hc with hc | hc
    · exact hcalls c hc
    · exact Call.fromUpdateStatus_of_mem r managedProject phaseFailed _ "" w (Or.inr rfl) c hc
  | ok template =>
    obtain ⟨appProject, -, hrun⟩ := renderAndSync_after_render r managedProject w calls template hload
    rw [hrun] at h
    cases howner : SetControllerReference managedProject appProject r.Scheme with
    | error err =>
      rw [howner] at h
      simp only [Run.done.injEq] at h
      subst h
      exact hcalls
    | ok owned =>
      rw [howner] at h
      simp only [Run.done.injEq] at h
      subst h
      exact syncArgoCDProject_status_calls r managedProject owned _ w calls hcalls

theorem deleteArgoCDProject_status_calls {σ : Type} (r : ManagedArgoCDProjectReconciler σ)
    (managedProject : ManagedArgoCDProject) (w : σ) :
    ∀ c ∈ (deleteArgoCDProject r managedProject w).2.2, c.FromUpdateStatus r := by
  unfold deleteArgoCDProject
  dsimp only
  split
  · split <;> simp [Call.FromUpdateStatus, Call.isStatusUpdate]
  · simp [Call.FromUpdateStatus, Call.isStatusUpdate]

theorem Reconcile_status_calls {σ : Type} (r : ManagedArgoCDProjectReconciler σ)
    (req : Request) (w : σ) (out : Outcome σ) (h : Reconcile r req w = Run.done out) :
    ∀ c ∈ out.calls, c.FromUpdateStatus r := by
  unfold Reconcile at h
  rcases hget : r.Get req.NamespacedName w with ⟨err | fetched, w1⟩
  · rw [hget] at h
    dsimp only at h
    by_cases hnf : IsNotFound err = true
    · rw [if_pos hnf] at h
      simp only [Run.done.injEq] at h
      subst h
      simp [Call.FromUpdateStatus, Call.isStatusUpdate]
    · rw [if_neg hnf] at h
      simp only [Run.done.injEq] at h
      subst h
      simp [Call.FromUpdateStatus, Call.isStatusUpdate]
  · rw [hget] at h
    dsimp only at h
    have hfirst : ∀ c ∈ [Call.get req.NamespacedName none], c.FromUpdateStatus r := by
      simp [Call.FromUpdateStatus, Call.isStatusUpdate]
    by_cases hlive : IsZero fetched.DeletionTimestamp = true
    · rw [if_pos hlive] at h
      by_cases hfin : ContainsFinalizer fetched finalizerName = true
      · simp only [hfin, Bool.not_true, Bool.false_eq_true, if_false] at h
        exact renderAndSync_status_calls r _ _ _ out h hfirst
      · simp only [Bool.not_eq_true] at hfin
        simp only [hfin, Bool.not_false, if_true] at h
        rcases hupd : r.Update (AddFinalizer fetched finalizerName) w1 with ⟨err | rv, w2⟩
        · rw [hupd] at h
          simp only [Run.done.injEq] at h
          subst h
          simp [Call.FromUpdateStatus, Call.isStatusUpdate]
        · rw [hupd] at h
          refine renderAndSync_status_calls r _ _ _ out h ?_
          simp [Call.FromUpdateStatus, Call.isStatusUpdate]
    · rw [if_neg hlive] at h
      by_cases hfin : ContainsFinalizer fetched finalizerName = true
      · rw [if_pos hfin] at h
        have hdelete := deleteArgoCDProject_status_calls r fetched w1
        rcases hd : deleteArgoCDProject r fetched w1 with ⟨err | _, w2, cs⟩
        · rw [hd] at h hdelete
          dsimp only at h
          rcases hupd : r.Update (RemoveFinalizer fetched finalizerName) w2 with ⟨err | rv, w3⟩
          · rw [hupd] at h
            simp only [Run.done.injEq] at h
            subst h
            intro c hc
            simp only [List.mem_append, List.mem_singleton] at hc
            rcases hc with (hc | hc) | rfl
            · exact hfirst c (by simpa using hc)
            · exact hdelete c hc
            · simp [Call.FromUpdateStatus, Call.isStatusUpdate]
          · rw [hupd] at h
            simp only [Run.done.injEq] at h
            subst h
            intro c hc
            simp only [List.mem_append, List.mem_singleton] at hc
            rcases hc with (hc | hc) | rfl
            · exact hfirst c (by simpa using hc)
            · exact hdelete c hc
            · simp [Call.FromUpdateStatus, Call.isStatusUpdate]
        · rw [hd] at h hdelete
          simp only [Run.done.injEq] at h
          subst h
          intro c hc
          rcases List.mem_append.mp hc with hc | hc
          · exact hfirst c hc
          · exact hdelete c hc
      · rw [if_neg hfin] at h
        simp only [Run.done.injEq] at h
        subst h
        exact hfirst


/-- C12, amended: for every phase and message passed to `updateStatus`, the
Ready condition it writes (in the record in memory and in the record sent to
the status write) has status `False` exactly for the phase `Failed` and `True`
for every other phase, so for the phases `Ready` and `Failed` it is `True`
exactly for `Ready`; its reason is the phase and its message the given
message. `Reconcile` passes no other phase: in every status write that an
invocation of `Reconcile` issues the phase is `Ready` or `Failed`, and the
Ready condition has status `True` exactly when the phase is `Ready`. -/
theorem updateStatus_ready_condition {σ : Type} (r : ManagedArgoCDProjectReconciler σ)
    (managedProject : ManagedArgoCDProject) (phase message renderedYAML : String) (w : σ) :
    (∃ condition sent e,
      readyCondition
          (updateStatus r managedProject phase message renderedYAML w).1.Status.Conditions
        = some condition ∧
      (updateStatus r managedProject phase message renderedYAML w).2.2
        = [Call.statusUpdate sent e] ∧
      readyCondition sent.Status.Conditions = some condition ∧
      (condition.Status = ConditionFalse ↔ phase = phaseFailed) ∧
      (condition.Status = ConditionTrue ↔ phase ≠ phaseFailed) ∧
      (phase = phaseReady ∨ phase = phaseFailed →
        (condition.Status = ConditionTrue ↔ phase = phaseReady)) ∧
      condition.Reason = phase ∧ condition.Message = message) ∧
    (∀ (req : Request) (w0 : σ), ∃ out, Reconcile r req w0 = Run.done out ∧
      ∀ sent e, Call.statusUpdate sent e ∈ out.calls →
        (sent.Status.Phase = phaseReady ∨ sent.Status.Phase = phaseFailed) ∧
        ∃ condition, readyCondition sent.Status.Conditions = some condition ∧
          (condition.Status = ConditionTrue ↔ sent.Status.Phase = phaseReady) ∧
          condition.Reason = sent.Status.Phase) := by
  have hTF : ConditionTrue ≠ ConditionFalse := by decide
  have hRF : phaseReady ≠ phaseFailed := by decide
  refine ⟨?_, ?_⟩
  · obtain ⟨hstatus, e, hcalls⟩ :=
      updateStatus_status_at r managedProject phase message renderedYAML w
    refine ⟨_, _, e, ?_, hcalls, setStatus_readyCondition _ _ _ _ _ _, ?_, ?_, ?_, rfl, rfl⟩
    · rw [hstatus]
      exact setStatus_readyCondition _ _ _ _ _ _
    · by_cases hf : phase = phaseFailed
      · simp [hf]
      · simp [hf, hTF]
    · by_cases hf : phase = phaseFailed
      · simp [hf, hTF.symm]
      · simp [hf]
    · rintro (hp | hp)
      · subst hp
        simp [hRF]
      · subst hp
        simp [hRF.symm, hTF.symm]
  · intro req w0
    obtain ⟨out, hout⟩ := Reconcile_done r req w0
    refine ⟨out, hout, ?_⟩
    intro sent e hmem
    obtain ⟨mp, ph, msg, yaml, w1, hph, hc⟩ := Reconcile_status_calls r req w0 out hout _ hmem rfl
    obtain ⟨t1, t2, e1, hs, -⟩ := updateStatus_spec r mp ph msg yaml w1
    rw [hs] at hc
    simp only [List.mem_singleton, Call.statusUpdate.injEq] at hc
    obtain ⟨rfl, -⟩ := hc
    rw [setStatus_phase]
    refine ⟨hph, _, setStatus_readyCondition _ _ _ _ _ _, ?_, rfl⟩
    rcases hph with hp | hp
    · subst hp
      simp [hRF]
    · subst hp
      simp [hRF.symm, hTF.symm]


/-! ## The deletion path when the finalizer cannot be removed -/

theorem deleteArgoCDProject_of_cleanup {σ : Type} (r : ManagedArgoCDProjectReconciler σ)
    (managedProject : ManagedArgoCDProject) (w : σ)
    (h : CleanupSucceeded r managedProject w) :
    (deleteArgoCDProject r managedProject w).1 = none := by
  unfold CleanupSucceeded at h
  unfold deleteArgoCDProject
  dsimp only
  rw [emptyProject_gvk]
  rw [show ({ Name := managedProject.Spec.ProjectName, Namespace := managedProject.Namespace }
    : NamespacedName) = projectKey managedProject from rfl]
  rcases hlookup : r.GetProject appProjectGVK (projectKey managedProject) w with ⟨lookup, w2⟩
  rw [hlookup] at h
  rcases lookup with err | doc
  · rcases h with ⟨e, he, hnf⟩ | ⟨d, hd, -⟩
    · simp only [Except.error.injEq] at he
      subst he
      simp [hnf]
    · simp at hd
  · rcases h with ⟨e, he, -⟩ | ⟨d, hd, hdelete⟩
    · simp at he
    · simp only [Except.ok.injEq] at hd
      subst hd
      exact hdelete

theorem Reconcile_deleting_update_failed {σ : Type} (r : ManagedArgoCDProjectReconciler σ)
    (req : Request) (w w1 : σ) (managedProject : ManagedArgoCDProject) (out : Outcome σ)
    (err : GoError)
    (hget : r.Get req.NamespacedName w = (Except.ok managedProject, w1))
    (hdel : IsZero managedProject.DeletionTimestamp = false)
    (hfin : ContainsFinalizer managedProject finalizerName = true)
    (hrun : Reconcile r req w = Run.done out)
    (hclean : CleanupSucceeded r managedProject w1)
    (hupd : finalizerRemoval r managedProject w1 = Except.error err) :
    out.err = some err ∧
    Call.update (RemoveFinalizer managedProject finalizerName) (some err) ∈ out.calls ∧
    (∀ c ∈ out.calls, c.isManagedUpdate = true → c.err = some err) ∧
    out.state
      = (r.Update (RemoveFinalizer managedProject finalizerName)
          (deleteArgoCDProject r managedProject w1).2.1).2 := by
  have hnone := deleteArgoCDProject_of_cleanup r managedProject w1 hclean
  have hcs := deleteArgoCDProject_calls r managedProject w1
  unfold finalizerRemoval at hupd
  unfold Reconcile at hrun
  rw [hget] at hrun
  dsimp only at hrun
  rw [if_neg (by simp [hdel]), if_pos hfin] at hrun
  rcases hd : deleteArgoCDProject r managedProject w1 with ⟨e, w2, cs⟩
  rw [hd] at hrun hnone hcs hupd
  dsimp only at hnone hupd hcs
  subst hnone
  dsimp only at hrun
  rcases hu : r.Update (RemoveFinalizer managedProject finalizerName) w2 with ⟨u, w3⟩
  rw [hu] at hrun hupd
  dsimp only at hupd
  subst hupd
  simp only [Run.done.injEq] at hrun
  subst hrun
  refine ⟨rfl, by simp, ?_, rfl⟩
  intro c hc hmanaged
  simp only [List.mem_append, List.mem_singleton] at hc
  rcases hc with (hc | hc) | rfl
  · have : c = Call.get req.NamespacedName none := by simpa using hc
    subst this
    simp [Call.isManagedUpdate] at hmanaged
  · rw [(hcs c hc).2] at hmanaged
    exact absurd hmanaged (by simp)
  · rfl

theorem Cluster.deleteArgoCDProject_managed (marshal : GoMap → Except GoError String)
    (managedProject : ManagedArgoCDProject) (c : Cluster) :
    (deleteArgoCDProject (Cluster.reconciler marshal) managedProject c).2.1.managed
      = c.managed := by
  unfold deleteArgoCDProject
  dsimp only [Cluster.reconciler]
  split
  · rename_i err c1 hlookup
    have h := (Cluster.GetProject_frame
      (Unstructured.GroupVersionKind (Unstructured.SetGroupVersionKind { Object := [] }
        appProjectGVK))
      { Namespace := managedProject.Namespace, Name := managedProject.Spec.ProjectName } c).1
    rw [hlookup] at h
    split <;> exact h
  · rename_i doc c1 hlookup
    have h := (Cluster.GetProject_frame
      (Unstructured.GroupVersionKind (Unstructured.SetGroupVersionKind { Object := [] }
        appProjectGVK))
      { Namespace := managedProject.Namespace, Name := managedProject.Spec.ProjectName } c).1
    rw [hlookup] at h
    dsimp only at h ⊢
    rw [(Cluster.DeleteProject_frame doc c1).1]
    exact h


theorem Cluster.Reconcile_deleting_not_persisted (marshal : GoMap → Except GoError String)
    (req : Request) (c c1 : Cluster) (managedProject : ManagedArgoCDProject) (out : Outcome Cluster)
    (err : GoError)
    (hget : (Cluster.reconciler marshal).Get req.NamespacedName c
      = (Except.ok managedProject, c1))
    (hdel : IsZero managedProject.DeletionTimestamp = false)
    (hfin : ContainsFinalizer managedProject finalizerName = true)
    (hrun : Reconcile (Cluster.reconciler marshal) req c = Run.done out)
    (hclean : CleanupSucceeded (Cluster.reconciler marshal) managedProject c1)
    (hupd : finalizerRemoval (Cluster.reconciler marshal) managedProject c1
      = Except.error err) :
    out.err = some err ∧ c.managed = some managedProject ∧
      out.state.managed = some managedProject := by
  obtain ⟨h1, -, -, h4⟩ :=
    Reconcile_deleting_update_failed (Cluster.reconciler marshal) req c c1 managedProject out err
      hget hdel hfin hrun hclean hupd
  have hget' : Cluster.Get req.NamespacedName c = (Except.ok managedProject, c1) := hget
  obtain ⟨g1, -, -, g4⟩ := Cluster.Get_frame req.NamespacedName c
  rw [hget'] at g1 g4
  have hstored : c.managed = some managedProject := g4 managedProject rfl
  have hc1 : c1.managed = some managedProject := by
    rw [← hstored]
    exact g1
  refine ⟨h1, hstored, ?_⟩
  rw [h4]
  have hupd' : (Cluster.Update (RemoveFinalizer managedProject finalizerName)
      (deleteArgoCDProject (Cluster.reconciler marshal) managedProject c1).2.1).1
        = Except.error err := hupd
  have hframe := (Cluster.Update_frame (RemoveFinalizer managedProject finalizerName)
    (deleteArgoCDProject (Cluster.reconciler marshal) managedProject c1).2.1).2.2.1 err hupd'
  have hgoal : (Cluster.Update (RemoveFinalizer managedProject finalizerName)
      (deleteArgoCDProject (Cluster.reconciler marshal) managedProject c1).2.1).2.managed
        = some managedProject := by
    rw [hframe, Cluster.deleteArgoCDProject_managed, hc1]
  exact hgoal

/-- C5, amended: on a managed record that carries the deletion marker and the
finalizer, `Reconcile` renders no derived document and issues no create and
no update of one; it returns no error with the finalizer removed and the
removal persisted exactly when the cleanup succeeded and the update that
removes the finalizer succeeded; when the cleanup fails, the finalizer is left
in place, no update of the managed record is issued and the error of the
cleanup is returned; when the cleanup succeeded and the update that removes
the finalizer fails, the error of that update is returned and the removal is
not persisted: that failed update is the only update of the managed record in
the run, the store is left as the failed update left it, and in the store
model the stored record is still the fetched one, which holds the
finalizer. -/
theorem Reconcile_deleting {σ : Type} (r : ManagedArgoCDProjectReconciler σ) (req : Request)
    (w w1 : σ) (managedProject : ManagedArgoCDProject)
    (hget : r.Get req.NamespacedName w = (Except.ok managedProject, w1))
    (hdel : IsZero managedProject.DeletionTimestamp = false)
    (hfin : ContainsFinalizer managedProject finalizerName = true) :
    (∃ out, Reconcile r req w = Run.done out ∧
      out.rendered = none ∧ (∀ c ∈ out.calls, c.isProjectWrite = false) ∧
      ((out.err = none ∧ ContainsFinalizer out.managedProject finalizerName = false ∧
          Call.update (RemoveFinalizer managedProject finalizerName) none ∈ out.calls) ↔
        (CleanupSucceeded r managedProject w1 ∧
          ∃ rv, finalizerRemoval r managedProject w1 = Except.ok rv)) ∧
      (∀ err, CleanupFailed r managedProject w1 err →
        out.err = some err ∧ out.managedProject = managedProject ∧
          ∀ c ∈ out.calls, c.isManagedUpdate = false) ∧
      (CleanupSucceeded r managedProject w1 →
        ∀ err, finalizerRemoval r managedProject w1 = Except.error err →
          out.err = some err ∧
          Call.update (RemoveFinalizer managedProject finalizerName) (some err) ∈ out.calls ∧
          (∀ c ∈ out.calls, c.isManagedUpdate = true → c.err = some err) ∧
          out.state
            = (r.Update (RemoveFinalizer managedProject finalizerName)
                (deleteArgoCDProject r managedProject w1).2.1).2)) ∧
    (∀ (marshal : GoMap → Except GoError String) (c c1 : Cluster),
      (Cluster.reconciler marshal).Get req.NamespacedName c = (Except.ok managedProject, c1) →
      ∃ out, Reconcile (Cluster.reconciler marshal) req c = Run.done out ∧
        (CleanupSucceeded (Cluster.reconciler marshal) managedProject c1 →
          ∀ err, finalizerRemoval (Cluster.reconciler marshal) managedProject c1
              = Except.error err →
            out.err = some err ∧ c.managed = some managedProject ∧
            out.state.managed = some managedProject ∧
            ContainsFinalizer managedProject finalizerName = true)) := by
  refine ⟨?_, ?_⟩
  · obtain ⟨out, hout, h1, h2, h3, h4, -⟩ :=
      Reconcile_deleting_aux r req w w1 managedProject hget hdel hfin
    exact ⟨out, hout, h1, h2, h3, h4, fun hclean err hupd =>
      Reconcile_deleting_update_failed r req w w1 managedProject out err hget hdel hfin hout
        hclean hupd⟩
  · intro marshal c c1 hc
    obtain ⟨out, hout⟩ := Reconcile_done (Cluster.reconciler marshal) req c
    refine ⟨out, hout, fun hclean err hupd => ?_⟩
    obtain ⟨g1, g2, g3⟩ :=
      Cluster.Reconcile_deleting_not_persisted marshal req c c1 managedProject out err hc hdel
        hfin hout hclean hupd
    exact ⟨g1, g2, g3, hfin⟩

/-- C5, amended, at a record marked for deletion: in a store where every call
succeeds, and in a store where the update that removes the finalizer fails
after a successful cleanup, so that the stored record keeps the finalizer. -/
theorem Reconcile_deleting_witness :
    IsZero deletingProject.DeletionTimestamp = false ∧
      ContainsFinalizer deletingProject finalizerName = true ∧
      (∃ out, Reconcile (Cluster.reconciler exampleMarshal) exampleRequest deletingClusterHealthy
          = Run.done out ∧
        out.rendered = none ∧ (∀ c ∈ out.calls, c.isProjectWrite = false) ∧
        ((out.err = none ∧ ContainsFinalizer out.managedProject finalizerName = false ∧
            Call.update (RemoveFinalizer deletingProject finalizerName) none ∈ out.calls) ↔
          (CleanupSucceeded (Cluster.reconciler exampleMarshal) deletingProject
              deletingClusterHealthy ∧
            ∃ rv, finalizerRemoval (Cluster.reconciler exampleMarshal) deletingProject
              deletingClusterHealthy = Except.ok rv))) ∧
      (∃ out, Reconcile (Cluster.reconciler exampleMarshal) exampleRequest deletingCluster
          = Run.done out ∧
        out.err = some unavailable ∧ deletingCluster.managed = some deletingProject ∧
        out.state.managed = some deletingProject) := by
  obtain ⟨⟨out, hout, hrendered, hwrites, hiff, -⟩, -⟩ :=
    Reconcile_deleting (Cluster.reconciler exampleMarshal) exampleRequest deletingClusterHealthy
      deletingClusterHealthy deletingProject rfl rfl rfl
  obtain ⟨-, hstore⟩ :=
    Reconcile_deleting (Cluster.reconciler exampleMarshal) exampleRequest deletingCluster
      { deletingCluster with faults := [none, some unavailable] } deletingProject rfl rfl rfl
  obtain ⟨out2, hout2, hfailed⟩ := hstore exampleMarshal deletingCluster
    { deletingCluster with faults := [none, some unavailable] } rfl
  obtain ⟨e1, e2, e3, -⟩ := hfailed (Or.inl ⟨Cluster.notFound, rfl, rfl⟩) unavailable rfl
  exact ⟨rfl, rfl, ⟨out, hout, hrendered, hwrites, hiff⟩, out2, hout2, e1, e2, e3⟩


end Controller
